import Mathlib

/-! Finance advisor: asset registry, volatility engine, risk scorer, rebalancer, growth
projections.

A shallow embedding of the core of `src/Untitled-1.cpp`:

* `Asset` and its operations `buy`, `sell`, `addPricePoint`, `updateCurrentPrice`,
  `updateVolatility` (class `Asset`, source lines 311-446);
* `RiskAnalyzer` with `setRiskScore`, `updateIdealAllocation`,
  `adjustRiskScoreForMarketConditions`, `recommendRebalancing` and the two portfolio metrics
  (source lines 1140-1305);
* `SIP::projectGrowth` (source lines 469-482), `SIPManager::setAllocation` and
  `SIPManager::calculateProjectedGrowth` (source lines 1024-1096);
* `PortfolioManager::rebalancePortfolio`, `getPortfolioComposition` and `updatePrices`
  (source lines 1478-1591);
* the asset variants `Forex`, `Cryptocurrency`, `Commodity`, `FiatCurrency` with their
  `getAnalysis`, and `Forex::updateTrend` (source lines 518-800).

Conventions of the embedding.

* A C++ `double` is embedded as a rational number `ℚ`.  Where nothing else is said the
  arithmetic is exact: there is no rounding, no infinity and no NaN.  Division is Lean's total
  division; the theorems that divide by a price or by a total value carry the hypothesis that
  makes the divisor non-zero wherever the claim has one.
* The functions whose claims depend on the rounding of double arithmetic take a rounding
  function `fl : ℚ → ℚ`, applied to the result of every arithmetic operation in the order of the
  source: `SIPManager.setAllocation` and the functions of the namespace `Rounded`
  (`recommendRebalancing`, `getTotalValue`, `getPortfolioComposition`).  `roundDouble` is the
  rounding of IEEE binary64 (nearest, ties to even, exponent range unbounded); with
  `fl = roundDouble` these functions compute what the program computes on finite doubles, and
  with `fl = id` they are exact.  The literals of the source that are not doubles are rounded
  as well (`0.01` is `fl (1 / 100)`).
* The two growth projections divide by a rate that can be zero, and `setAllocation` divides by
  a total that can be zero; those cases are what their claims are about.  They return an
  `Option`: `none` stands for a result that is not a finite number (the NaN or infinity a
  `double` holds after a division by zero), produced by `divFinite` and `powFinite` and
  propagated by every later operation.
* The two projections call `std::pow` with integer-valued exponents only; it is embedded as
  the integer power of `ℚ`.
* `std::sqrt` is library code; the operations that use it take the square-root function as
  their first argument `sqrt : ℚ → ℚ`.  `qsqrt` is a computable instance that is exact on
  squares of rationals.
* `Utils::getCurrentDate()` reads the clock; the date string is an argument of
  `updateCurrentPrice`.
* A `std::map<std::string, T>` is embedded as an association list kept in increasing key order
  (`StdMap`); `StdMap.assign` is `m[key] = value`, `StdMap.find` is `m.find(key)`, and a
  range-`for` over the map is a left fold over the list.
* `std::to_string` and `Utils::formatCurrency` turn a number into text; the analyses take them
  as the arguments `toString` and `formatCurrency`.
* A member function that mutates `*this` becomes a function from the old object to the new one
  (paired with the return value when it has one).
-/

namespace FinanceAdvisor

/-! ## Asset (source lines 311-446) -/

/-- Data members of `class Asset`. -/
structure Asset where
  name : String
  symbol : String
  currentPrice : ℚ
  quantity : ℚ
  initialInvestment : ℚ
  priceHistory : List (String × ℚ)
  volatility : ℚ
deriving DecidableEq

namespace Asset

/-- `Asset::getCurrentValue`. -/
def getCurrentValue (a : Asset) : ℚ := a.currentPrice * a.quantity

/-- `Asset::getReturnPercentage`. -/
def getReturnPercentage (a : Asset) : ℚ :=
  if a.initialInvestment = 0 then 0
  else ((a.getCurrentValue - a.initialInvestment) / a.initialInvestment) * 100

/-- `Asset::buy`: no guard, no failure path. -/
def buy (a : Asset) (investmentAmount : ℚ) : Asset :=
  let additionalQuantity := investmentAmount / a.currentPrice
  { a with
    quantity := a.quantity + additionalQuantity
    initialInvestment := a.initialInvestment + investmentAmount }

/-- `Asset::sell`: the returned proceeds paired with the asset after the call. -/
def sell (a : Asset) (percentageToSell : ℚ) : ℚ × Asset :=
  if percentageToSell ≤ 0 ∨ percentageToSell > 100 then
    (0, a)
  else
    let quantityToSell := a.quantity * (percentageToSell / 100)
    let saleProceeds := quantityToSell * a.currentPrice
    (saleProceeds,
      { a with
        quantity := a.quantity - quantityToSell
        initialInvestment := a.initialInvestment * (1 - percentageToSell / 100) })

/-- The vector `returns` filled by the first loop of `Asset::updateVolatility`: the index `i`
runs from 1 to `priceHistory.size() - 1` and each round pushes one return at the back. -/
def dailyReturns (priceHistory : List (String × ℚ)) : List ℚ :=
  (List.range' 1 (priceHistory.length - 1)).foldl
    (fun returns i =>
      let previousPrice := (priceHistory.getD (i - 1) default).2
      let currentPrice := (priceHistory.getD i default).2
      let dailyReturn := (currentPrice - previousPrice) / previousPrice
      returns ++ [dailyReturn])
    []

/-- `Asset::updateVolatility`, with `std::sqrt` passed as `sqrt`. -/
def updateVolatility (sqrt : ℚ → ℚ) (a : Asset) : Asset :=
  if a.priceHistory.length < 2 then
    { a with volatility := 0 }
  else
    let returns := dailyReturns a.priceHistory
    let mean : ℚ := returns.foldl (fun acc r => acc + r) 0 / returns.length
    let squaredSum : ℚ :=
      returns.foldl (fun acc ret => acc + (ret - mean) * (ret - mean)) 0
    { a with volatility := sqrt (squaredSum / returns.length) * 100 }

/-- `Asset::addPricePoint`. -/
def addPricePoint (sqrt : ℚ → ℚ) (a : Asset) (date : String) (price : ℚ) : Asset :=
  updateVolatility sqrt { a with priceHistory := a.priceHistory ++ [(date, price)] }

/-- `Asset::updateCurrentPrice`; `now` is the value of `Utils::getCurrentDate()`. -/
def updateCurrentPrice (sqrt : ℚ → ℚ) (now : String) (a : Asset) (newPrice : ℚ) : Asset :=
  addPricePoint sqrt { a with currentPrice := newPrice } now newPrice

end Asset

/-! ## `std::map<std::string, T>` -/

/-- A `std::map` keyed by `std::string`: the entries in iteration order, which is increasing
key order. -/
structure StdMap (β : Type) where
  entries : List (String × β)
deriving DecidableEq

namespace StdMap

variable {β : Type}

/-- The empty map (a default-constructed or cleared `std::map`). -/
def empty : StdMap β := ⟨[]⟩

/-- Lookup in the entry list. -/
def findEntries : List (String × β) → String → Option β
  | [], _ => none
  | (k', v) :: rest, k => if k' = k then some v else findEntries rest k

/-- `m.find(key)`: `none` stands for `m.end()`, `some v` for an iterator to `(key, v)`. -/
def find (m : StdMap β) (key : String) : Option β := findEntries m.entries key

/-- Insert-or-overwrite in the entry list; `std::less<std::string>` compares the character
sequences lexicographically. -/
def assignEntries : List (String × β) → String → β → List (String × β)
  | [], k, v => [(k, v)]
  | (k', v') :: rest, k, v =>
    if k.toList < k'.toList then (k, v) :: (k', v') :: rest
    else if k = k' then (k, v) :: rest
    else (k', v') :: assignEntries rest k v

/-- `m[key] = value`. -/
def assign (m : StdMap β) (key : String) (value : β) : StdMap β :=
  ⟨assignEntries m.entries key value⟩

/-- The representation invariant of a `std::map`: keys strictly increasing, hence distinct. -/
def WF (m : StdMap β) : Prop :=
  m.entries.Pairwise (fun e e' => e.1.toList < e'.1.toList)

instance (m : StdMap β) : Decidable m.WF := by
  unfold WF
  infer_instance

end StdMap

/-! ## RiskAnalyzer (source lines 1140-1305) -/

/-- `std::min(a, b)`: `b` if `b < a`, else `a`. -/
def stdMin (a b : ℚ) : ℚ := if b < a then b else a

/-- `std::max(a, b)`: `b` if `a < b`, else `a`. -/
def stdMax (a b : ℚ) : ℚ := if a < b then b else a

/-- Data members of `class RiskAnalyzer`. -/
structure RiskAnalyzer where
  riskScore : ℚ
  idealAllocation : StdMap ℚ
  volatilityThreshold : ℚ
deriving DecidableEq

namespace RiskAnalyzer

/-- `RiskAnalyzer::updateIdealAllocation`: clear, then fill from the tier of the score; the
assignments are made in the order of the source. -/
def updateIdealAllocation (r : RiskAnalyzer) : RiskAnalyzer :=
  let cleared : StdMap ℚ := StdMap.empty
  if r.riskScore < 30 then
    { r with idealAllocation :=
        ((((cleared.assign "SIP" 60).assign "USD" 20).assign "XAU/USD" 10).assign
          "EUR/USD" 5).assign "BTC" 5 }
  else if r.riskScore < 70 then
    { r with idealAllocation :=
        ((((cleared.assign "SIP" 40).assign "EUR/USD" 20).assign "BTC" 15).assign
          "XAU/USD" 15).assign "USD" 10 }
  else
    { r with idealAllocation :=
        ((((cleared.assign "SIP" 20).assign "EUR/USD" 30).assign "BTC" 30).assign
          "XAU/USD" 10).assign "USD" 10 }

/-- The constructor `RiskAnalyzer(riskScore, volatilityThreshold)` (the defaults of the source
are 50 and 15): the score is stored as given, then the allocation is derived. -/
def new (riskScore volatilityThreshold : ℚ) : RiskAnalyzer :=
  updateIdealAllocation
    { riskScore := riskScore, idealAllocation := StdMap.empty,
      volatilityThreshold := volatilityThreshold }

/-- `RiskAnalyzer::setRiskScore`. -/
def setRiskScore (r : RiskAnalyzer) (newRiskScore : ℚ) : RiskAnalyzer :=
  updateIdealAllocation { r with riskScore := stdMin 100 (stdMax 0 newRiskScore) }

/-- `RiskAnalyzer::adjustRiskScoreForMarketConditions`. -/
def adjustRiskScoreForMarketConditions (r : RiskAnalyzer) (vix btcVolatility : ℚ) :
    RiskAnalyzer :=
  let adjustment : ℚ := 0
  let adjustment : ℚ :=
    if vix > 30 then adjustment - 10
    else if vix < 15 then adjustment + 5
    else adjustment
  let adjustment : ℚ := if btcVolatility > 20 then adjustment - 5 else adjustment
  let newRiskScore := r.riskScore + adjustment
  r.setRiskScore (stdMin 100 (stdMax 0 newRiskScore))

/-- The first loop of `recommendRebalancing` (and of the other portfolio metrics): the sum of
the current values. -/
def totalValue (assets : StdMap Asset) : ℚ :=
  assets.entries.foldl (fun total e => total + e.2.getCurrentValue) 0

/-- The map `currentAllocation` filled by the second loop of `recommendRebalancing`. -/
def currentAllocation (assets : StdMap Asset) (totalValue : ℚ) : StdMap ℚ :=
  assets.entries.foldl
    (fun current e => current.assign e.1 (e.2.getCurrentValue / totalValue * 100))
    StdMap.empty

/-- `RiskAnalyzer::recommendRebalancing` in exact arithmetic; `Rounded.recommendRebalancing`
is the same function with every operation rounded. -/
def recommendRebalancing (r : RiskAnalyzer) (assets : StdMap Asset) : StdMap ℚ :=
  let recommendations : StdMap ℚ := StdMap.empty
  let totalValue := totalValue assets
  if totalValue ≤ 0 then recommendations
  else
    let currentAllocation := currentAllocation assets totalValue
    r.idealAllocation.entries.foldl
      (fun recommendations e =>
        let currentPercent : ℚ :=
          match currentAllocation.find e.1 with
          | some percent => percent
          | none => 0
        let difference := e.2 - currentPercent
        if |difference| ≥ 5 then recommendations.assign e.1 difference
        else recommendations)
      recommendations

/-- `RiskAnalyzer::calculatePortfolioVolatility`; it reads no member of the analyzer. -/
def calculatePortfolioVolatility (assets : StdMap Asset) : ℚ :=
  let totalValue : ℚ := assets.entries.foldl (fun total e => total + e.2.getCurrentValue) 0
  if totalValue ≤ 0 then 0
  else
    assets.entries.foldl
      (fun weightedVolatility e =>
        let weight := e.2.getCurrentValue / totalValue
        weightedVolatility + weight * e.2.volatility)
      0

end RiskAnalyzer

/-! ## Growth projections (source lines 469-482 and 1088-1096) -/

/-- The quotient `x / y` of two doubles: `none` when the divisor is zero, where the double is
NaN or an infinity. -/
def divFinite (x y : ℚ) : Option ℚ := if y = 0 then none else some (x / y)

/-- `std::pow(x, n)` for an integer-valued exponent: `none` for a zero base with a negative
exponent, where the double is an infinity. -/
def powFinite (x : ℚ) (n : ℤ) : Option ℚ := if x = 0 ∧ n < 0 then none else some (x ^ n)

/-- Data members of `class SIP`, which derives from `Asset`. -/
structure SIP extends Asset where
  expectedAnnualReturn : ℚ
  fundType : String
  expenseRatio : ℚ
deriving DecidableEq

namespace SIP

/-- `SIP::projectGrowth`, a `const` member function: the only output is the returned value
(the default of `monthlyContribution` in the source is 0). -/
def projectGrowth (s : SIP) (years : ℤ) (monthlyContribution : ℚ) : Option ℚ := do
  let monthlyRate : ℚ := (s.expectedAnnualReturn / 100) / 12
  let totalMonths : ℤ := years * 12
  let currentValue : ℚ := s.toAsset.getCurrentValue
  let growth ← powFinite (1 + monthlyRate) totalMonths
  let futureValue : ℚ := currentValue * growth
  if monthlyContribution > 0 then
    let growth ← powFinite (1 + monthlyRate) totalMonths
    let annuity ← divFinite (growth - 1) monthlyRate
    pure (futureValue + monthlyContribution * annuity)
  else
    pure futureValue

end SIP

/-- Data members of `class SIPManager`; `lastInvestmentDate` is a clock reading, kept as a
number of ticks. -/
structure SIPManager where
  monthlyAmount : ℚ
  allocation : StdMap ℚ
  lastInvestmentDate : ℕ
  autoInvest : Bool
deriving DecidableEq

namespace SIPManager

/-- `SIPManager::setAllocation` (the warning written to `std::cerr` is not part of the
state).  Every double operation is followed by the rounding `fl`, the literal `0.01` is the
double `fl (1 / 100)`, and the result is `none` when a percentage to store is not a finite
number, which happens when the loop divides by a total of zero. -/
def setAllocation (fl : ℚ → ℚ) (m : SIPManager) (newAllocation : StdMap ℚ) :
    Option SIPManager :=
  let total : ℚ := newAllocation.entries.foldl (fun total e => fl (total + e.2)) 0
  if |fl (total - 100)| > fl (1 / 100) then
    let cleared : StdMap ℚ := StdMap.empty
    let adjusted : Option (StdMap ℚ) :=
      newAllocation.entries.foldlM
        (fun allocation e =>
          (divFinite e.2 total).map fun quotient =>
            allocation.assign e.1 (fl (fl quotient * 100)))
        cleared
    adjusted.map fun allocation => { m with allocation := allocation }
  else
    some { m with allocation := newAllocation }

/-- `SIPManager::calculateProjectedGrowth`. -/
def calculateProjectedGrowth (m : SIPManager) (months : ℤ) (annualReturnRate : ℚ) :
    Option ℚ := do
  let monthlyRate : ℚ := annualReturnRate / 12 / 100
  let growth ← powFinite (1 + monthlyRate) months
  let annuity ← divFinite (growth - 1) monthlyRate
  pure (m.monthlyAmount * annuity * (1 + monthlyRate))

end SIPManager

/-! ## PortfolioManager (source lines 1334-1600) -/

/-- Data members of `class PortfolioManager`; the market-data fetcher is an external
collaborator and is left out.  Every asset is owned by one key of `assets`. -/
structure PortfolioManager where
  assets : StdMap Asset
  riskAnalyzer : RiskAnalyzer
  sipManager : SIPManager
  historicalValues : List (String × ℚ)
  initialInvestment : ℚ
  lastRebalanceDate : String

namespace PortfolioManager

/-- `PortfolioManager::getTotalValue`. -/
def getTotalValue (pm : PortfolioManager) : ℚ :=
  pm.assets.entries.foldl (fun total e => total + e.2.getCurrentValue) 0

end PortfolioManager

/-! ## The tables and shares of sections 4.2 and 4.4, written from the specification -/

/-- Spec: the three-tier table of section 4.2, listed in increasing order of the symbols. -/
def specIdealAllocation (riskScore : ℚ) : List (String × ℚ) :=
  if riskScore < 30 then
    [("BTC", 5), ("EUR/USD", 5), ("SIP", 60), ("USD", 20), ("XAU/USD", 10)]
  else if riskScore < 70 then
    [("BTC", 15), ("EUR/USD", 20), ("SIP", 40), ("USD", 10), ("XAU/USD", 15)]
  else
    [("BTC", 30), ("EUR/USD", 30), ("SIP", 20), ("USD", 10), ("XAU/USD", 10)]

/-- Spec: `current[s]`, the percentage share of the asset held under `s` in the total value,
0 when no asset is held under `s`. -/
def specCurrentShare (assets : StdMap Asset) (s : String) : ℚ :=
  match assets.find s with
  | some a => a.getCurrentValue / RiskAnalyzer.totalValue assets * 100
  | none => 0

/-- Spec: the value-weighted sum `Σ weight_i * f_i` of section 4.4, where `weight_i` is the share
of asset `i` in the total value. -/
def specWeightedSum (assets : StdMap Asset) (f : Asset → ℚ) : ℚ :=
  (assets.entries.map fun e =>
    e.2.getCurrentValue / RiskAnalyzer.totalValue assets * f e.2).sum

/-- Spec: the sum of the percentages of an allocation. -/
def specPercentSum (allocation : StdMap ℚ) : ℚ := (allocation.entries.map Prod.snd).sum

/-! ## The volatility of section 4.3, written from the specification -/

/-- Spec: simple period-over-period returns `(p_i - p_{i-1}) / p_{i-1}` of consecutive
observations. -/
def specReturns (prices : List ℚ) : List ℚ :=
  List.zipWith (fun previous current => (current - previous) / previous) prices prices.tail

/-- Spec: arithmetic mean. -/
def specMean (rs : List ℚ) : ℚ := rs.sum / rs.length

/-- Spec: population variance, the squared deviations from the mean divided by `n`. -/
def specPopulationVariance (rs : List ℚ) : ℚ :=
  (rs.map fun r => (r - specMean rs) ^ 2).sum / rs.length

/-- Spec: volatility of a price history, 0 below two observations and otherwise 100 times the
population standard deviation of the returns. -/
def specVolatility (sqrt : ℚ → ℚ) (priceHistory : List (String × ℚ)) : ℚ :=
  if priceHistory.length < 2 then 0
  else 100 * sqrt (specPopulationVariance (specReturns (priceHistory.map Prod.snd)))

/-- A computable square root on `ℚ`, exact on the squares of non-negative rationals. -/
def qsqrt (x : ℚ) : ℚ := (Nat.sqrt (x.num.toNat * x.den) : ℚ) / x.den

/-- The price history of the scenario of section 8: BTC at 40000, 44000, 41800. -/
def btcHistory : List (String × ℚ) :=
  [("2024-01-01", 40000), ("2024-01-02", 44000), ("2024-01-03", 41800)]

/-- A concrete analyzer state: score 50, threshold 15, as built by the constructor. -/
def sampleAnalyzer : RiskAnalyzer := RiskAnalyzer.new 50 15

/-- A concrete portfolio: 600 held under the key BTC and 400 under the key SIP. -/
def samplePortfolio : StdMap Asset :=
  ⟨[("BTC",
      { name := "Bitcoin", symbol := "BTC", currentPrice := 2, quantity := 300,
        initialInvestment := 600, priceHistory := [("2024-01-01", 2)], volatility := 0 }),
    ("SIP",
      { name := "Vanguard Total Stock Market ETF", symbol := "VTI", currentPrice := 4,
        quantity := 100, initialInvestment := 400, priceHistory := [("2024-01-01", 4)],
        volatility := 0 })]⟩

/-- The scenario of section 8: 600 at volatility 4 and 400 at volatility 20. -/
def volatilityPortfolio : StdMap Asset :=
  ⟨[("BTC",
      { name := "Bitcoin", symbol := "BTC", currentPrice := 2, quantity := 200,
        initialInvestment := 500, priceHistory := [("2024-01-01", 2)], volatility := 20 }),
    ("SIP",
      { name := "Vanguard Total Stock Market ETF", symbol := "VTI", currentPrice := 4,
        quantity := 150, initialInvestment := 500, priceHistory := [("2024-01-01", 4)],
        volatility := 4 })]⟩

/-- A portfolio whose only asset, worth 1000, is held under a key that no tier of the ideal
allocation lists. -/
def ethPortfolio : StdMap Asset :=
  ⟨[("ETH",
      { name := "Ethereum", symbol := "ETH", currentPrice := 10, quantity := 100,
        initialInvestment := 1000, priceHistory := [("2024-01-01", 10)], volatility := 0 })]⟩

/-- The asset held under ETH in that portfolio. -/
def ethHolding : Asset :=
  { name := "Ethereum", symbol := "ETH", currentPrice := 10, quantity := 100,
    initialInvestment := 1000, priceHistory := [("2024-01-01", 10)], volatility := 0 }

/-- A fund worth 200 with an expected annual return of 12 percent. -/
def sampleSIP : SIP :=
  { name := "Vanguard Total Stock Market ETF", symbol := "VTI", currentPrice := 2,
    quantity := 100, initialInvestment := 200, priceHistory := [("2024-01-01", 2)],
    volatility := 0, expectedAnnualReturn := 12, fundType := "Index", expenseRatio := 1 / 2 }

/-- The same fund with an expected annual return of zero. -/
def zeroRateSIP : SIP := { sampleSIP with expectedAnnualReturn := 0 }

/-- A plan of 100 per month with no allocation yet. -/
def sampleSIPManager : SIPManager :=
  { monthlyAmount := 100, allocation := StdMap.empty, lastInvestmentDate := 0,
    autoInvest := true }

/-- An allocation whose percentages sum to 50. -/
def halfAllocation : StdMap ℚ := ⟨[("BTC", 10), ("SIP", 40)]⟩

/-- An allocation whose percentages sum to 0. -/
def zeroAllocation : StdMap ℚ := ⟨[("BTC", 0), ("SIP", 0)]⟩

/-- The asset held under BTC in the sample portfolio. -/
def btcHolding : Asset :=
  { name := "Bitcoin", symbol := "BTC", currentPrice := 2, quantity := 300,
    initialInvestment := 600, priceHistory := [("2024-01-01", 2)], volatility := 0 }

/-- The asset held under SIP in the sample portfolio. -/
def sipHolding : Asset :=
  { name := "Vanguard Total Stock Market ETF", symbol := "VTI", currentPrice := 4,
    quantity := 100, initialInvestment := 400, priceHistory := [("2024-01-01", 4)],
    volatility := 0 }

/-- A manager holding the sample portfolio with an analyzer of score 25, whose ideal
allocation asks for 5 percent of BTC and 60 percent of SIP. -/
def sampleManager : PortfolioManager :=
  { assets := samplePortfolio, riskAnalyzer := RiskAnalyzer.new 25 15,
    sipManager := sampleSIPManager,
    historicalValues := [("2024-01-01", 1000)], initialInvestment := 1000,
    lastRebalanceDate := "" }

/-- A concrete asset used to evaluate the operations: 100 units at price 2. -/
def sampleAsset : Asset :=
  { name := "Bitcoin", symbol := "BTC", currentPrice := 2, quantity := 100,
    initialInvestment := 200, priceHistory := [("2024-01-01", 2)], volatility := 0 }

/-! ## Asset analysis and the asset variants (source lines 418-800) -/

/-- `Utils::percentChange`. -/
def percentChange (oldValue newValue : ℚ) : ℚ :=
  if oldValue = 0 then 0 else ((newValue - oldValue) / oldValue) * 100

namespace Asset

/-- `Asset::getAnalysis`, a virtual member function; every `analysis += x` is an append. -/
def getAnalysis (toString : ℚ → String) (a : Asset) : String :=
  let analysis : String := "Analysis for " ++ a.name ++ " (" ++ a.symbol ++ "):\n"
  let analysis : String :=
    if a.priceHistory.length ≥ 2 then
      let oldestPrice := (a.priceHistory.headD default).2
      let latestPrice := (a.priceHistory.getLastD default).2
      let priceChange := percentChange oldestPrice latestPrice
      let analysis := analysis ++
        ("  Price change since tracking: " ++ toString priceChange ++ "%\n")
      if priceChange > 0 then
        analysis ++ "  The price has increased since tracking began.\n"
      else if priceChange < 0 then
        analysis ++ "  The price has decreased since tracking began.\n"
      else
        analysis ++ "  The price remains stable since tracking began.\n"
    else analysis
  if a.volatility < 5 then
    analysis ++ "  Low volatility: This asset has been stable recently.\n"
  else if a.volatility < 15 then
    analysis ++ "  Medium volatility: This asset shows moderate price movements.\n"
  else
    analysis ++ "  High volatility: This asset has significant price fluctuations.\n"

end Asset

/-- `SIP::getAnalysis`, the override of `Asset::getAnalysis`. -/
def SIP.getAnalysis (toString : ℚ → String) (s : SIP) : String :=
  let analysis : String := s.toAsset.getAnalysis toString
  let analysis : String := analysis ++
    ("  This is a " ++ s.fundType ++ " fund with an expense ratio of " ++
      toString s.expenseRatio ++ "%.\n")
  let analysis : String :=
    if s.expenseRatio > 1 then
      analysis ++ "  The expense ratio is relatively high. Consider lower-cost alternatives.\n"
    else
      analysis ++ "  The expense ratio is reasonable for this type of fund.\n"
  if s.expectedAnnualReturn > 15 then
    analysis ++
      "  The expected return seems optimistic. Be prepared for potential underperformance.\n"
  else analysis

/-- Data members of `class Forex`, which derives from `Asset`. -/
structure Forex extends Asset where
  baseCurrency : String
  quoteCurrency : String
  spreadPercentage : ℚ
  trend : String
deriving DecidableEq

namespace Forex

/-- `Forex::updateTrend`: the loop index runs over the last five observations. -/
def updateTrend (f : Forex) : Forex :=
  if f.priceHistory.length < 5 then
    { f with trend := "Neutral" }
  else
    let sum : ℚ :=
      (List.range' (f.priceHistory.length - 5) 5).foldl
        (fun sum i => sum + (f.priceHistory.getD i default).2) 0
    let avg := sum / 5
    if f.currentPrice > avg * (102 / 100) then
      { f with trend := "Bullish" }
    else if f.currentPrice < avg * (98 / 100) then
      { f with trend := "Bearish" }
    else
      { f with trend := "Neutral" }

/-- `Forex::updateCurrentPrice`, which hides `Asset::updateCurrentPrice` (that function is not
declared `virtual`): it runs only for a call whose static type is `Forex`. -/
def updateCurrentPrice (sqrt : ℚ → ℚ) (now : String) (f : Forex) (newPrice : ℚ) : Forex :=
  updateTrend { f with toAsset := f.toAsset.updateCurrentPrice sqrt now newPrice }

/-- `Forex::getAnalysis`, the override of `Asset::getAnalysis`. -/
def getAnalysis (toString : ℚ → String) (f : Forex) : String :=
  let analysis : String := f.toAsset.getAnalysis toString
  let analysis : String := analysis ++
    ("  This forex pair (" ++ f.baseCurrency ++ "/" ++ f.quoteCurrency ++ ") ")
  let analysis : String :=
    if f.trend = "Bullish" then
      analysis ++ "is in an uptrend. Consider taking profit or trailing stops.\n"
    else if f.trend = "Bearish" then
      analysis ++ "is in a downtrend. Consider hedging or reducing exposure.\n"
    else
      analysis ++ "is in a neutral trend. Monitor for breakout opportunities.\n"
  if f.volatility > 10 then
    analysis ++ "  High volatility in this pair suggests caution with position sizing.\n"
  else analysis

end Forex

/-- Data members of `class Cryptocurrency`, which derives from `Asset`. -/
structure Cryptocurrency extends Asset where
  marketCap : ℚ
  networkStatus : String
  isStaking : Bool
  stakingYield : ℚ
deriving DecidableEq

/-- `Cryptocurrency::getAnalysis`, the override of `Asset::getAnalysis`. -/
def Cryptocurrency.getAnalysis (toString formatCurrency : ℚ → String) (c : Cryptocurrency) :
    String :=
  let analysis : String := c.toAsset.getAnalysis toString
  let analysis : String := analysis ++
    ("  " ++ c.name ++ " has a market cap of " ++ formatCurrency c.marketCap ++ ".\n")
  let analysis : String :=
    if c.volatility > 20 then
      analysis ++
        "  This cryptocurrency shows extreme volatility. Consider reducing exposure.\n"
    else analysis
  if c.isStaking then
    analysis ++ ("  You are earning " ++ toString c.stakingYield ++
      "% APY through staking, which helps offset volatility.\n")
  else
    analysis ++ "  Consider staking options to earn passive income from your holdings.\n"

/-- Data members of `class Commodity`, which derives from `Asset`. -/
structure Commodity extends Asset where
  grade : String
  isPhysical : Bool
deriving DecidableEq

/-- `Commodity::getAnalysis`, the override of `Asset::getAnalysis`. -/
def Commodity.getAnalysis (toString : ℚ → String) (c : Commodity) : String :=
  let analysis : String := c.toAsset.getAnalysis toString
  let analysis : String := analysis ++
    ("  This " ++ c.grade ++ " gold is held as " ++
      (if c.isPhysical then "physical metal" else "a paper investment") ++ ".\n")
  if c.volatility < 10 then
    analysis ++ "  Gold is currently showing relative stability, providing a good hedge.\n"
  else
    analysis ++
      "  Gold is showing higher than usual volatility. Monitor global macro events.\n"

/-- Data members of `class FiatCurrency`, which derives from `Asset`. -/
structure FiatCurrency extends Asset where
  country : String
  interestRate : ℚ
  inflationRate : ℚ
deriving DecidableEq

namespace FiatCurrency

/-- `FiatCurrency::getRealReturn`. -/
def getRealReturn (f : FiatCurrency) : ℚ := f.interestRate - f.inflationRate

/-- `FiatCurrency::getAnalysis`, the override of `Asset::getAnalysis`. -/
def getAnalysis (toString : ℚ → String) (f : FiatCurrency) : String :=
  let analysis : String := f.toAsset.getAnalysis toString
  let analysis : String := analysis ++
    ("  " ++ f.name ++ " has an interest rate of " ++ toString f.interestRate ++
      "% and inflation of " ++ toString f.inflationRate ++ "%.\n")
  let realReturn := f.getRealReturn
  if realReturn < 0 then
    let analysis := analysis ++
      "  This currency has a negative real return, losing purchasing power over time.\n"
    analysis ++ "  Consider alternatives for long-term holdings.\n"
  else if realReturn < 1 then
    analysis ++ "  This currency is barely maintaining purchasing power.\n"
  else
    analysis ++ "  This currency has a positive real return, which is favorable.\n"

end FiatCurrency

/-! ## Assets held through a base handle (source lines 1337 and 1478-1494) -/

/-- An object behind a `std::shared_ptr<Asset>` of the portfolio: a plain asset or one of the
five derived classes. -/
inductive Holding where
  | asset (a : Asset)
  | sip (s : SIP)
  | forex (f : Forex)
  | crypto (c : Cryptocurrency)
  | commodity (c : Commodity)
  | fiat (f : FiatCurrency)
deriving DecidableEq

namespace Holding

/-- The base-class part of the object. -/
def base : Holding → Asset
  | asset a => a
  | sip s => s.toAsset
  | forex f => f.toAsset
  | crypto c => c.toAsset
  | commodity c => c.toAsset
  | fiat f => f.toAsset

/-- A call of a non-virtual member function of `Asset` through the base handle: the function
of the base class runs on the base-class part and the members of the derived class are not
touched. -/
def viaBase (g : Asset → Asset) : Holding → Holding
  | asset a => asset (g a)
  | sip s => sip { s with toAsset := g s.toAsset }
  | forex f => forex { f with toAsset := g f.toAsset }
  | crypto c => crypto { c with toAsset := g c.toAsset }
  | commodity c => commodity { c with toAsset := g c.toAsset }
  | fiat f => fiat { f with toAsset := g f.toAsset }

/-- The call `asset->updateCurrentPrice(price)` on a `std::shared_ptr<Asset>`:
`Asset::updateCurrentPrice` is not virtual, so it is the function that runs whatever the
dynamic type of the object is. -/
def updateCurrentPrice (sqrt : ℚ → ℚ) (now : String) (h : Holding) (price : ℚ) : Holding :=
  h.viaBase (fun a => a.updateCurrentPrice sqrt now price)

/-- The virtual call `asset->getAnalysis()`: the override of the dynamic type runs. -/
def getAnalysis (toString formatCurrency : ℚ → String) : Holding → String
  | asset a => a.getAnalysis toString
  | sip s => s.getAnalysis toString
  | forex f => f.getAnalysis toString
  | crypto c => c.getAnalysis toString formatCurrency
  | commodity c => c.getAnalysis toString
  | fiat f => f.getAnalysis toString

end Holding

namespace PortfolioManager

/-- The second loop of `PortfolioManager::updatePrices` on the map `assets` of base handles;
`newPrices` is the snapshot returned by the market-data fetcher and `now` the value of
`Utils::getCurrentDate()`. -/
def updatePrices (sqrt : ℚ → ℚ) (now : String) (assets : StdMap Holding)
    (newPrices : StdMap ℚ) : StdMap Holding :=
  newPrices.entries.foldl
    (fun assets e =>
      match assets.find e.1 with
      | some asset => assets.assign e.1 (asset.updateCurrentPrice sqrt now e.2)
      | none => assets)
    assets

end PortfolioManager

/-! ## Sequences of calls on a RiskAnalyzer -/

/-- A call of one of the mutating member functions of `RiskAnalyzer`. -/
inductive RiskOp where
  | setRiskScore (newRiskScore : ℚ)
  | updateIdealAllocation
  | adjustRiskScoreForMarketConditions (vix btcVolatility : ℚ)

namespace RiskAnalyzer

/-- The state after one call. -/
def step (r : RiskAnalyzer) : RiskOp → RiskAnalyzer
  | RiskOp.setRiskScore v => r.setRiskScore v
  | RiskOp.updateIdealAllocation => r.updateIdealAllocation
  | RiskOp.adjustRiskScoreForMarketConditions vix btcVolatility =>
    r.adjustRiskScoreForMarketConditions vix btcVolatility

/-- The state after a sequence of calls, first call first. -/
def run (r : RiskAnalyzer) (ops : List RiskOp) : RiskAnalyzer := ops.foldl step r

end RiskAnalyzer

/-! ## The trend and tier rules, written from the specification -/

/-- Spec: the trend of a forex asset after a price update: Neutral below five observations,
otherwise Bullish above 1.02 times the mean of the last five observed prices, Bearish below
0.98 times that mean, and Neutral in between. -/
def specTrend (priceHistory : List (String × ℚ)) (price : ℚ) : String :=
  if priceHistory.length < 5 then "Neutral"
  else
    let mean := ((priceHistory.drop (priceHistory.length - 5)).map Prod.snd).sum / 5
    if price > 102 / 100 * mean then "Bullish"
    else if price < 98 / 100 * mean then "Bearish"
    else "Neutral"

/-- Spec: the volatility-tier sentence of section 4.1: below 5 low, below 15 medium, else
high. -/
def specTierSentence (volatility : ℚ) : String :=
  if volatility < 5 then "  Low volatility: This asset has been stable recently.\n"
  else if volatility < 15 then
    "  Medium volatility: This asset shows moderate price movements.\n"
  else "  High volatility: This asset has significant price fluctuations.\n"

/-! ## Further sample data -/

/-- The pair EUR/USD with four observations at price 1, trend Neutral as constructed. -/
def eurusd : Forex :=
  { name := "EUR to USD", symbol := "EUR/USD", currentPrice := 1, quantity := 100,
    initialInvestment := 100,
    priceHistory :=
      [("2024-01-01", 1), ("2024-01-02", 1), ("2024-01-03", 1), ("2024-01-04", 1)],
    volatility := 0, baseCurrency := "EUR", quoteCurrency := "USD",
    spreadPercentage := 1 / 10, trend := "Neutral" }

/-- The pair after `Asset::updateCurrentPrice` has run on its base-class part with the new
price 2: what the call through the base handle leaves behind. -/
def eurusdUpdatedViaBase : Forex :=
  { eurusd with toAsset := eurusd.toAsset.updateCurrentPrice qsqrt "2024-01-05" 2 }

/-- A portfolio of base handles that holds the pair under its symbol. -/
def forexPortfolio : StdMap Holding := ⟨[("EUR/USD", Holding.forex eurusd)]⟩

/-- A price snapshot that doubles the price of the pair. -/
def eurusdSnapshot : StdMap ℚ := ⟨[("EUR/USD", 2)]⟩

/-- An asset with three observations at the same price 7. -/
def flatAsset : Asset :=
  { name := "US Dollar", symbol := "USD", currentPrice := 7, quantity := 10,
    initialInvestment := 70,
    priceHistory := [("2024-01-01", 7), ("2024-01-02", 7), ("2024-01-03", 7)],
    volatility := 3 }

/-- A manager that holds nothing. -/
def emptyManager : PortfolioManager :=
  { assets := StdMap.empty, riskAnalyzer := sampleAnalyzer, sipManager := sampleSIPManager,
    historicalValues := [], initialInvestment := 0, lastRebalanceDate := "" }

/-! ## Double arithmetic with rounding -/

/-- The integer nearest to `x`, the even one of the two when `x` lies halfway. -/
def roundHalfEven (x : ℚ) : ℤ :=
  let f : ℤ := ⌊x⌋
  let r : ℚ := x - f
  if r < 1 / 2 then f else if 1 / 2 < r then f + 1 else if f % 2 = 0 then f else f + 1

/-- The rounding of IEEE binary64 arithmetic in its default mode: the nearest number with a
significand of 53 bits, ties to even.  The exponent range is not bounded, so there is no
overflow and no underflow. -/
def roundDouble (q : ℚ) : ℚ :=
  if q = 0 then 0
  else
    let e : ℤ := Int.log 2 |q| - 52
    (roundHalfEven (q / 2 ^ e) : ℚ) * 2 ^ e

/-! ## The rebalancer and the composition with every double operation rounded

The functions below are `getCurrentValue`, `recommendRebalancing`, `getTotalValue` and
`getPortfolioComposition` with the result of every arithmetic operation on doubles passed
through a rounding function `fl`.  With `fl = roundDouble` they compute what the program
computes on finite numbers; with `fl = id` the arithmetic is exact, and `recommendRebalancing`
and `getTotalValue` are the functions of the same name defined above. -/

namespace Rounded

/-- `Asset::getCurrentValue`. -/
def getCurrentValue (fl : ℚ → ℚ) (a : Asset) : ℚ := fl (a.currentPrice * a.quantity)

/-- The first loop of `RiskAnalyzer::recommendRebalancing`. -/
def totalValue (fl : ℚ → ℚ) (assets : StdMap Asset) : ℚ :=
  assets.entries.foldl (fun total e => fl (total + getCurrentValue fl e.2)) 0

/-- The map `currentAllocation` filled by the second loop of `recommendRebalancing`. -/
def currentAllocation (fl : ℚ → ℚ) (assets : StdMap Asset) (totalValue : ℚ) : StdMap ℚ :=
  assets.entries.foldl
    (fun current e => current.assign e.1 (fl (fl (getCurrentValue fl e.2 / totalValue) * 100)))
    StdMap.empty

/-- `RiskAnalyzer::recommendRebalancing`. -/
def recommendRebalancing (fl : ℚ → ℚ) (r : RiskAnalyzer) (assets : StdMap Asset) : StdMap ℚ :=
  let recommendations : StdMap ℚ := StdMap.empty
  let totalValue := totalValue fl assets
  if totalValue ≤ 0 then recommendations
  else
    let currentAllocation := currentAllocation fl assets totalValue
    r.idealAllocation.entries.foldl
      (fun recommendations e =>
        let currentPercent : ℚ :=
          match currentAllocation.find e.1 with
          | some percent => percent
          | none => 0
        let difference := fl (e.2 - currentPercent)
        if |difference| ≥ 5 then recommendations.assign e.1 difference
        else recommendations)
      recommendations

/-- `PortfolioManager::getTotalValue`. -/
def getTotalValue (fl : ℚ → ℚ) (pm : PortfolioManager) : ℚ :=
  pm.assets.entries.foldl (fun total e => fl (total + getCurrentValue fl e.2)) 0

/-- `PortfolioManager::getPortfolioComposition`. -/
def getPortfolioComposition (fl : ℚ → ℚ) (pm : PortfolioManager) : StdMap ℚ :=
  let composition : StdMap ℚ := StdMap.empty
  let totalValue := getTotalValue fl pm
  if totalValue ≤ 0 then composition
  else
    pm.assets.entries.foldl
      (fun composition e =>
        composition.assign e.1 (fl (fl (getCurrentValue fl e.2 / totalValue) * 100)))
      composition

end Rounded

/-! ## Shares with rounding, written from the specification -/

/-- Spec: the sum of a list of values as double arithmetic accumulates it, the values added one
by one to `acc` and every partial sum rounded. -/
def specRoundedSum (fl : ℚ → ℚ) : List ℚ → ℚ → ℚ
  | [], acc => acc
  | v :: vs, acc => specRoundedSum fl vs (fl (acc + v))

/-- Spec: the values `currentPrice * quantity` of the assets, each rounded. -/
def specValues (fl : ℚ → ℚ) (assets : StdMap Asset) : List ℚ :=
  assets.entries.map fun e => fl (e.2.currentPrice * e.2.quantity)

/-- Spec: `current[s]`, the percentage share of the asset held under `s` in the total value,
computed in double arithmetic (value divided by total, times 100), 0 when no asset is held
under `s`. -/
def specRoundedShare (fl : ℚ → ℚ) (assets : StdMap Asset) (s : String) : ℚ :=
  match assets.find s with
  | some a =>
    fl (fl (fl (a.currentPrice * a.quantity) / specRoundedSum fl (specValues fl assets) 0) * 100)
  | none => 0

/-! ## Sample data for the rounded functions -/

/-- An asset named after its key, at price 1 and with the given quantity. -/
def unitAsset (symbol : String) (quantity : ℚ) : Asset :=
  { name := symbol, symbol := symbol, currentPrice := 1, quantity := quantity,
    initialInvestment := quantity, priceHistory := [("2024-01-01", 1)], volatility := 0 }

/-- A portfolio worth 100 whose SIP holding is worth 55. -/
def boundaryPortfolio : StdMap Asset :=
  ⟨[("BTC", unitAsset "BTC" 10), ("EUR/USD", unitAsset "EUR/USD" 5),
    ("SIP", unitAsset "SIP" 55), ("USD", unitAsset "USD" 20),
    ("XAU/USD", unitAsset "XAU/USD" 10)]⟩

/-- The analyzer constructed with score 25: SIP 60, USD 20, XAU/USD 10, EUR/USD 5, BTC 5. -/
def lowRiskAnalyzer : RiskAnalyzer := RiskAnalyzer.new 25 15

/-- A manager with three holdings of equal value. -/
def thirdsManager : PortfolioManager :=
  { assets := ⟨[("BTC", unitAsset "BTC" 1), ("SIP", unitAsset "SIP" 1),
      ("USD", unitAsset "USD" 1)]⟩,
    riskAnalyzer := sampleAnalyzer, sipManager := sampleSIPManager,
    historicalValues := [], initialInvestment := 3, lastRebalanceDate := "" }

/-- An allocation of the doubles nearest to 8.4 and 91.61: they sum to less than 100.01, and
their double sum is more than 100.01. -/
def nearBoundaryAllocation : StdMap ℚ :=
  ⟨[("BTC", 4728779608739021 / 562949953421312), ("SIP", 6446480654115799 / 70368744177664)]⟩

/-! ## Auxiliary lemmas -/

/-- `qsqrt` inverts squaring on the non-negative rationals. -/
theorem qsqrt_mul_self (x : ℚ) (hx : 0 ≤ x) : qsqrt (x * x) = x := by
  unfold qsqrt
  rw [Rat.mul_self_num, Rat.mul_self_den]
  obtain ⟨n, hn⟩ := Int.eq_ofNat_of_zero_le (Rat.num_nonneg.mpr hx)
  have hsq : (x.num * x.num).toNat * (x.den * x.den) = (n * x.den) * (n * x.den) := by
    have hnn : ((n : ℤ) * (n : ℤ)).toNat = n * n := by
      rw [← Int.natCast_mul, Int.toNat_natCast]
    rw [hn, hnn]
    ring
  have hd : (x.den : ℚ) ≠ 0 := by exact_mod_cast x.den_nz
  have hx' : x * (x.den : ℚ) = (n : ℚ) := by
    rw [Rat.mul_den_eq_num, hn]
    simp
  rw [hsq, Nat.sqrt_eq]
  push_cast
  rw [div_eq_iff (mul_ne_zero hd hd), ← hx']
  ring

/-- A loop that pushes `g i` at the back for each `i` computes a `map`. -/
theorem foldl_push_eq_map {α β : Type} (g : α → β) (l : List α) (init : List β) :
    l.foldl (fun acc i => acc ++ [g i]) init = init ++ l.map g := by
  induction l generalizing init with
  | nil => simp
  | cons x xs ih => simp [ih]

/-- An accumulation loop adding `f r` for each element computes the sum of the images. -/
theorem foldl_add_eq_sum {α : Type} (f : α → ℚ) (l : List α) (init : ℚ) :
    l.foldl (fun acc r => acc + f r) init = init + (l.map f).sum := by
  induction l generalizing init with
  | nil => simp
  | cons x xs ih => simp [ih, add_assoc]

/-- The returns loop of the code computes the returns of the specification. -/
theorem dailyReturns_eq_specReturns (h : List (String × ℚ)) :
    Asset.dailyReturns h = specReturns (h.map Prod.snd) := by
  unfold Asset.dailyReturns specReturns
  rw [foldl_push_eq_map, List.nil_append]
  apply List.ext_getElem
  · simp
  · intro i h1 h2
    simp only [List.length_map, List.length_range'] at h1
    have hi : i < h.length := by omega
    have hi1 : 1 + i < h.length := by omega
    simp only [List.getElem_map, List.getElem_range', List.getElem_zipWith, List.getElem_tail,
      one_mul, Nat.add_sub_cancel_left, List.getD_eq_getElem _ _ hi, List.getD_eq_getElem _ _ hi1]
    simp [Nat.add_comm]

/-- The code of `updateVolatility` changes only the volatility field and stores the volatility
of the specification there. -/
theorem updateVolatility_eq (sqrt : ℚ → ℚ) (a : Asset) :
    a.updateVolatility sqrt = { a with volatility := specVolatility sqrt a.priceHistory } := by
  unfold Asset.updateVolatility specVolatility
  split
  · rfl
  · have hmean : ∀ rs : List ℚ, rs.foldl (fun acc r => acc + r) 0 / rs.length = specMean rs := by
      intro rs
      have := foldl_add_eq_sum (fun r => r) rs 0
      simp only [List.map_id', zero_add] at this
      rw [this, specMean]
    have hsq : ∀ (rs : List ℚ) (m : ℚ),
        rs.foldl (fun acc ret => acc + (ret - m) * (ret - m)) 0 =
          (rs.map fun r => (r - m) ^ 2).sum := by
      intro rs m
      rw [foldl_add_eq_sum (fun ret => (ret - m) * (ret - m)) rs 0, zero_add]
      congr 1
      apply List.map_congr_left
      intro r _
      ring
    simp only [dailyReturns_eq_specReturns, hmean, hsq]
    rw [mul_comm]
    rfl

/-- The two library calls of `setRiskScore` compute the clamp to `[0, 100]`. -/
theorem stdClamp_eq (v : ℚ) : stdMin 100 (stdMax 0 v) = min 100 (max 0 v) := by
  unfold stdMin stdMax
  by_cases h0 : (0 : ℚ) < v
  · by_cases h1 : v < 100
    · rw [if_pos h0, if_pos h1, max_eq_right h0.le, min_eq_right h1.le]
    · rw [if_pos h0, if_neg h1, max_eq_right h0.le, min_eq_left (not_lt.mp h1)]
  · have h1 : (0 : ℚ) < 100 := by norm_num
    rw [if_neg h0, if_pos h1, max_eq_left (not_lt.mp h0), min_eq_right h1.le]

/-- Clamping to `[0, 100]` twice is clamping once. -/
theorem clamp_clamp (v : ℚ) : min 100 (max 0 (min 100 (max 0 v))) = min 100 (max 0 v) := by
  have h1 : (0 : ℚ) ≤ min 100 (max 0 v) := le_min (by norm_num) (le_max_left _ _)
  rw [max_eq_right h1, min_eq_right (min_le_left _ _)]

/-- The score is not touched by `updateIdealAllocation`. -/
theorem riskScore_updateIdealAllocation (r : RiskAnalyzer) :
    r.updateIdealAllocation.riskScore = r.riskScore := by
  unfold RiskAnalyzer.updateIdealAllocation
  split_ifs <;> rfl

/-- The allocation stored before `updateIdealAllocation` has no influence on its result. -/
theorem updateIdealAllocation_overwrite (r : RiskAnalyzer) (s : ℚ) :
    ({ r.updateIdealAllocation with riskScore := s } : RiskAnalyzer).updateIdealAllocation =
      ({ r with riskScore := s } : RiskAnalyzer).updateIdealAllocation := by
  unfold RiskAnalyzer.updateIdealAllocation
  split_ifs <;> rfl

/-- The allocation derived by `updateIdealAllocation` is the table of the specification. -/
theorem updateIdealAllocation_entries (r : RiskAnalyzer) :
    r.updateIdealAllocation.idealAllocation.entries = specIdealAllocation r.riskScore := by
  unfold RiskAnalyzer.updateIdealAllocation specIdealAllocation
  split_ifs <;> rfl

/-- Looking up the key just assigned finds the assigned value. -/
theorem findEntries_assignEntries_self {β : Type} (l : List (String × β)) (k : String) (v : β) :
    StdMap.findEntries (StdMap.assignEntries l k v) k = some v := by
  induction l with
  | nil => simp [StdMap.assignEntries, StdMap.findEntries]
  | cons e rest ih =>
    obtain ⟨k', v'⟩ := e
    unfold StdMap.assignEntries
    split_ifs with h1 h2
    · simp [StdMap.findEntries]
    · simp [StdMap.findEntries]
    · have hne : ¬ k' = k := fun h => h2 h.symm
      simp only [StdMap.findEntries, if_neg hne]
      exact ih

/-- Assigning one key does not change what is found under another key. -/
theorem findEntries_assignEntries_ne {β : Type} (l : List (String × β)) (k k' : String) (v : β)
    (hk : k ≠ k') :
    StdMap.findEntries (StdMap.assignEntries l k v) k' = StdMap.findEntries l k' := by
  induction l with
  | nil => simp [StdMap.assignEntries, StdMap.findEntries, hk]
  | cons e rest ih =>
    obtain ⟨k1, v1⟩ := e
    unfold StdMap.assignEntries
    split_ifs with h1 h2
    · simp [StdMap.findEntries, hk]
    · subst h2
      simp [StdMap.findEntries, hk]
    · by_cases h3 : k1 = k'
      · simp [StdMap.findEntries, h3]
      · simp only [StdMap.findEntries, if_neg h3]
        exact ih

/-- A key that occurs in no entry is not found. -/
theorem findEntries_eq_none {β : Type} (l : List (String × β)) (k : String)
    (hk : k ∉ l.map Prod.fst) : StdMap.findEntries l k = none := by
  induction l with
  | nil => rfl
  | cons e rest ih =>
    obtain ⟨k1, v1⟩ := e
    simp only [List.map_cons, List.mem_cons, not_or] at hk
    have hne : ¬ k1 = k := fun h => hk.1 h.symm
    simp only [StdMap.findEntries, if_neg hne]
    exact ih hk.2

/-- With distinct keys, every entry of the list is what its key finds. -/
theorem findEntries_of_mem {β : Type} (l : List (String × β)) (hl : (l.map Prod.fst).Nodup)
    (k : String) (v : β) (hmem : (k, v) ∈ l) : StdMap.findEntries l k = some v := by
  induction l with
  | nil => simp at hmem
  | cons e rest ih =>
    obtain ⟨k1, v1⟩ := e
    simp only [List.map_cons, List.nodup_cons] at hl
    rcases List.mem_cons.mp hmem with h | h
    · cases h
      simp [StdMap.findEntries]
    · have hne : ¬ k1 = k := by
        intro heq
        apply hl.1
        rw [heq]
        exact List.mem_map.mpr ⟨(k, v), h, rfl⟩
      simp only [StdMap.findEntries, if_neg hne]
      exact ih hl.2 h

/-- The keys of a well-formed map are distinct. -/
theorem StdMap.WF.nodup_keys {β : Type} {m : StdMap β} (h : m.WF) :
    (m.entries.map Prod.fst).Nodup := by
  unfold StdMap.WF at h
  rw [List.Nodup, List.pairwise_map]
  refine h.imp ?_
  intro e e' hlt heq
  rw [heq, ← String.lt_iff_toList_lt] at hlt
  exact lt_irrefl _ hlt

/-- What the allocation loop of `recommendRebalancing` stores under a key: the image of the
asset held under that key, or what was there before when no asset is held under it. -/
theorem find_foldl_assign {α β : Type} (f : α → β) (l : List (String × α))
    (hl : (l.map Prod.fst).Nodup) (m0 : StdMap β) (k : String) :
    (l.foldl (fun current e => current.assign e.1 (f e.2)) m0).find k =
      match StdMap.findEntries l k with
      | some a => some (f a)
      | none => m0.find k := by
  induction l generalizing m0 with
  | nil => rfl
  | cons e rest ih =>
    obtain ⟨k1, v1⟩ := e
    simp only [List.map_cons, List.nodup_cons] at hl
    rw [List.foldl_cons, ih hl.2]
    by_cases h : k1 = k
    · subst h
      simp only [StdMap.findEntries, if_true, findEntries_eq_none rest k1 hl.1]
      exact findEntries_assignEntries_self _ _ _
    · simp only [StdMap.findEntries, if_neg h]
      cases StdMap.findEntries rest k with
      | some a => rfl
      | none => exact findEntries_assignEntries_ne _ _ _ _ h

/-- What the comparison loop of `recommendRebalancing` stores under a key. -/
theorem find_foldl_recommend (cur : String → ℚ) (l : List (String × ℚ))
    (hl : (l.map Prod.fst).Nodup) (m0 : StdMap ℚ) (k : String) :
    (l.foldl
      (fun (recs : StdMap ℚ) e =>
        if |e.2 - cur e.1| ≥ 5 then recs.assign e.1 (e.2 - cur e.1) else recs) m0).find k =
      match StdMap.findEntries l k with
      | some ideal => if 5 ≤ |ideal - cur k| then some (ideal - cur k) else m0.find k
      | none => m0.find k := by
  induction l generalizing m0 with
  | nil => rfl
  | cons e rest ih =>
    obtain ⟨k1, v1⟩ := e
    simp only [List.map_cons, List.nodup_cons] at hl
    rw [List.foldl_cons, ih hl.2]
    by_cases h : k1 = k
    · subst h
      simp only [StdMap.findEntries, if_true, findEntries_eq_none rest k1 hl.1]
      by_cases hd : 5 ≤ |v1 - cur k1|
      · simp only [ge_iff_le, if_pos hd]
        exact findEntries_assignEntries_self _ _ _
      · simp only [ge_iff_le, if_neg hd]
    · simp only [StdMap.findEntries, if_neg h]
      have hm0 : StdMap.find
          (if |v1 - cur k1| ≥ 5 then m0.assign k1 (v1 - cur k1) else m0) k = m0.find k := by
        split_ifs
        · exact findEntries_assignEntries_ne _ _ _ _ h
        · rfl
      rw [hm0]

/-- The share looked up by the comparison loop is the share of the specification. -/
theorem currentPercent_eq_specCurrentShare (assets : StdMap Asset) (hA : assets.WF)
    (s : String) :
    (match (RiskAnalyzer.currentAllocation assets (RiskAnalyzer.totalValue assets)).find s with
      | some percent => percent
      | none => 0) = specCurrentShare assets s := by
  unfold RiskAnalyzer.currentAllocation specCurrentShare
  rw [find_foldl_assign (fun a : Asset => a.getCurrentValue / RiskAnalyzer.totalValue assets * 100)
    assets.entries hA.nodup_keys StdMap.empty s]
  unfold StdMap.find
  cases StdMap.findEntries assets.entries s with
  | some a => rfl
  | none => rfl

/-- With a positive total value, the result of `recommendRebalancing` under any key. -/
theorem find_recommendRebalancing (r : RiskAnalyzer) (assets : StdMap Asset)
    (hI : r.idealAllocation.WF) (hA : assets.WF) (hT : 0 < RiskAnalyzer.totalValue assets)
    (s : String) :
    (r.recommendRebalancing assets).find s =
      match r.idealAllocation.find s with
      | some ideal =>
        if 5 ≤ |ideal - specCurrentShare assets s| then some (ideal - specCurrentShare assets s)
        else none
      | none => none := by
  unfold RiskAnalyzer.recommendRebalancing
  simp only [if_neg (not_le.mpr hT), currentPercent_eq_specCurrentShare assets hA]
  exact find_foldl_recommend (specCurrentShare assets) r.idealAllocation.entries hI.nodup_keys
    StdMap.empty s

/-- The sample portfolio is worth 1000. -/
theorem totalValue_samplePortfolio : RiskAnalyzer.totalValue samplePortfolio = 1000 := by
  norm_num [RiskAnalyzer.totalValue, samplePortfolio, Asset.getCurrentValue]

/-- The sample portfolio has a positive total value. -/
theorem totalValue_samplePortfolio_pos : 0 < RiskAnalyzer.totalValue samplePortfolio := by
  rw [totalValue_samplePortfolio]
  norm_num

/-- A key is not below itself. -/
theorem key_lt_irrefl (a : String) : ¬ a.toList < a.toList := by
  rw [← String.lt_iff_toList_lt]
  exact lt_irrefl a

/-- Two keys are not below each other. -/
theorem key_lt_asymm {a b : String} (hab : a.toList < b.toList) : ¬ b.toList < a.toList := by
  rw [← String.lt_iff_toList_lt] at *
  exact lt_asymm hab

/-- The sample analyzer on the portfolio that holds only ETH: the total is 1000. -/
theorem totalValue_ethPortfolio : RiskAnalyzer.totalValue ethPortfolio = 1000 := by
  norm_num [RiskAnalyzer.totalValue, ethPortfolio, Asset.getCurrentValue]

/-- The shares of the sample portfolio are 60 percent under BTC and 40 percent under SIP. -/
theorem specCurrentShare_samplePortfolio :
    specCurrentShare samplePortfolio "BTC" = 60 ∧ specCurrentShare samplePortfolio "SIP" = 40 := by
  have hbtc : samplePortfolio.find "BTC" = some btcHolding := rfl
  have hsip : samplePortfolio.find "SIP" = some sipHolding := rfl
  unfold specCurrentShare
  rw [totalValue_samplePortfolio, hbtc, hsip]
  constructor <;> norm_num [btcHolding, sipHolding, Asset.getCurrentValue]

/-- The recommendations for the sample manager: sell 55 under BTC, buy 20 under SIP. -/
theorem recommendRebalancing_sampleManager :
    (sampleManager.riskAnalyzer.recommendRebalancing sampleManager.assets).find "BTC"
      = some (-55) ∧
    (sampleManager.riskAnalyzer.recommendRebalancing sampleManager.assets).find "SIP"
      = some 20 := by
  have hI : sampleManager.riskAnalyzer.idealAllocation.WF := by decide
  have hA : sampleManager.assets.WF := by decide
  have hbtc : sampleManager.riskAnalyzer.idealAllocation.find "BTC" = some 5 := rfl
  have hsip : sampleManager.riskAnalyzer.idealAllocation.find "SIP" = some 60 := rfl
  constructor
  · rw [find_recommendRebalancing _ _ hI hA totalValue_samplePortfolio_pos, hbtc]
    simp only [sampleManager, specCurrentShare_samplePortfolio.1]
    norm_num [abs_of_neg]
  · rw [find_recommendRebalancing _ _ hI hA totalValue_samplePortfolio_pos, hsip]
    simp only [sampleManager, specCurrentShare_samplePortfolio.2]
    norm_num

/-- With a positive total value, the loop of `calculatePortfolioVolatility` computes the
value-weighted sum of the volatilities. -/
theorem calculatePortfolioVolatility_eq (assets : StdMap Asset)
    (hT : 0 < RiskAnalyzer.totalValue assets) :
    RiskAnalyzer.calculatePortfolioVolatility assets =
      specWeightedSum assets Asset.volatility := by
  unfold RiskAnalyzer.calculatePortfolioVolatility specWeightedSum
  have hT' : ¬ assets.entries.foldl (fun total e => total + e.2.getCurrentValue) 0 ≤ 0 :=
    not_le.mpr hT
  simp only [if_neg hT']
  rw [foldl_add_eq_sum (fun e : String × Asset =>
    e.2.getCurrentValue /
      assets.entries.foldl (fun total e => total + e.2.getCurrentValue) 0 * e.2.volatility),
    zero_add]
  rfl

/-- The total value of the scenario portfolio is 1000. -/
theorem totalValue_volatilityPortfolio : RiskAnalyzer.totalValue volatilityPortfolio = 1000 := by
  norm_num [RiskAnalyzer.totalValue, volatilityPortfolio, Asset.getCurrentValue]

/-- A power with a non-negative exponent is a finite number. -/
theorem powFinite_of_nonneg (x : ℚ) (n : ℤ) (hn : 0 ≤ n) : powFinite x n = some (x ^ n) := by
  unfold powFinite
  rw [if_neg]
  rintro ⟨_, h⟩
  exact absurd hn (not_le.mpr h)

/-- A quotient by a non-zero divisor is a finite number. -/
theorem divFinite_of_ne_zero (x y : ℚ) (hy : y ≠ 0) : divFinite x y = some (x / y) := by
  unfold divFinite
  rw [if_neg hy]

/-- A quotient by zero is not a finite number. -/
theorem divFinite_zero (x : ℚ) : divFinite x 0 = none := by
  unfold divFinite
  rw [if_pos rfl]

/-- Assigning a key above all the keys of the list puts the entry at the end. -/
theorem assignEntries_of_keys_lt {β : Type} (l : List (String × β)) (k : String) (v : β)
    (h : ∀ e ∈ l, e.1.toList < k.toList) : StdMap.assignEntries l k v = l ++ [(k, v)] := by
  induction l with
  | nil => rfl
  | cons e rest ih =>
    obtain ⟨k1, v1⟩ := e
    have hk1 : k1.toList < k.toList := h (k1, v1) (List.mem_cons_self _ _)
    have hne : ¬ k = k1 := by
      intro heq
      rw [heq] at hk1
      exact key_lt_irrefl k1 hk1
    unfold StdMap.assignEntries
    rw [if_neg (key_lt_asymm hk1), if_neg hne, ih (fun e he => h e (List.mem_cons_of_mem _ he))]
    rfl

/-- Copying a map entry by entry, with the values transformed by `g`, into a map whose keys
are all below: the entries arrive in the same order. -/
theorem foldl_assign_sorted {α β : Type} (g : α → β) (l : List (String × α))
    (hl : l.Pairwise (fun e e' => e.1.toList < e'.1.toList)) (acc : List (String × β))
    (hacc : ∀ a ∈ acc, ∀ e ∈ l, a.1.toList < e.1.toList) :
    l.foldl (fun (m : StdMap β) e => m.assign e.1 (g e.2)) ⟨acc⟩ =
      ⟨acc ++ l.map (fun e => (e.1, g e.2))⟩ := by
  induction l generalizing acc with
  | nil => simp
  | cons e rest ih =>
    rw [List.pairwise_cons] at hl
    have hstep : (StdMap.mk acc).assign e.1 (g e.2) = ⟨acc ++ [(e.1, g e.2)]⟩ := by
      unfold StdMap.assign
      rw [assignEntries_of_keys_lt acc e.1 (g e.2)
        (fun a ha => hacc a ha e (List.mem_cons_self _ _))]
    rw [List.foldl_cons, hstep, ih hl.2]
    · simp
    · intro a ha e' he'
      rcases List.mem_append.mp ha with h | h
      · exact hacc a h e' (List.mem_cons_of_mem _ he')
      · rw [List.mem_singleton] at h
        rw [h]
        exact hl.1 e' he'

/-- Lookup commutes with a transformation of the values. -/
theorem findEntries_map_value {α β : Type} (f : α → β) (l : List (String × α)) (s : String) :
    StdMap.findEntries (l.map fun e => (e.1, f e.2)) s = (StdMap.findEntries l s).map f := by
  induction l with
  | nil => rfl
  | cons e rest ih =>
    obtain ⟨k1, v1⟩ := e
    by_cases hk : k1 = s
    · simp [StdMap.findEntries, hk]
    · simp only [List.map_cons, StdMap.findEntries, if_neg hk]
      exact ih

/-- The sum of the rescaled percentages is the rescaled sum. -/
theorem sum_map_rescale (l : List (String × ℚ)) (k : ℚ) :
    (l.map fun e => k * e.2).sum = k * (l.map Prod.snd).sum := by
  induction l with
  | nil => simp
  | cons e rest ih =>
    simp only [List.map_cons, List.sum_cons, ih]
    ring

/-- With a zero expected return and a positive contribution, `projectGrowth` divides by the
zero monthly rate: the result is no finite number, whatever the fund and the horizon. -/
theorem projectGrowth_zero_rate (s : SIP) (years : ℤ) (c : ℚ)
    (hr : s.expectedAnnualReturn = 0) (hc : c > 0) : s.projectGrowth years c = none := by
  unfold SIP.projectGrowth
  simp only [hr, zero_div, add_zero, if_pos hc]
  cases powFinite 1 (years * 12) with
  | none => rfl
  | some g => simp [divFinite_zero]

/-- With a zero annual rate, `calculateProjectedGrowth` divides by the zero monthly rate: the
result is no finite number, whatever the plan and the horizon. -/
theorem calculateProjectedGrowth_zero_rate (m : SIPManager) (months : ℤ) :
    m.calculateProjectedGrowth months 0 = none := by
  unfold SIPManager.calculateProjectedGrowth
  simp only [zero_div, add_zero]
  cases powFinite 1 months with
  | none => rfl
  | some g => simp [divFinite_zero]

/-- Every state produced by `updateIdealAllocation` carries the table of its own score. -/
theorem table_updateIdealAllocation (r : RiskAnalyzer) :
    r.updateIdealAllocation.idealAllocation.entries =
      specIdealAllocation r.updateIdealAllocation.riskScore := by
  rw [updateIdealAllocation_entries, riskScore_updateIdealAllocation]

/-- Every call of a mutating member function ends in `updateIdealAllocation`, so the state
after it carries the table of its score. -/
theorem table_step (r : RiskAnalyzer) (op : RiskOp) :
    (r.step op).idealAllocation.entries = specIdealAllocation (r.step op).riskScore := by
  cases op with
  | setRiskScore v => exact table_updateIdealAllocation _
  | updateIdealAllocation => exact table_updateIdealAllocation _
  | adjustRiskScoreForMarketConditions vix btc => exact table_updateIdealAllocation _

/-- Every state reached from a constructed analyzer carries the table of its score. -/
theorem table_run (s t : ℚ) (ops : List RiskOp) :
    ((RiskAnalyzer.new s t).run ops).idealAllocation.entries =
      specIdealAllocation ((RiskAnalyzer.new s t).run ops).riskScore := by
  have hgen : ∀ (ops : List RiskOp) (r : RiskAnalyzer),
      r.idealAllocation.entries = specIdealAllocation r.riskScore →
      (r.run ops).idealAllocation.entries = specIdealAllocation (r.run ops).riskScore := by
    intro ops
    induction ops with
    | nil => exact fun r h => h
    | cons op rest ih => exact fun r _ => ih (r.step op) (table_step r op)
  exact hgen ops _ (table_updateIdealAllocation _)

/-- Every percentage of the three-tier table lies between 5 and 60. -/
theorem specIdealAllocation_bounds (x : ℚ) (e : String × ℚ) (he : e ∈ specIdealAllocation x) :
    5 ≤ e.2 ∧ e.2 ≤ 60 := by
  unfold specIdealAllocation at he
  split_ifs at he <;>
    · simp only [List.mem_cons, List.mem_singleton, List.not_mem_nil, or_false] at he
      rcases he with h | h | h | h | h <;> rw [h] <;> norm_num

/-- The three-tier table has strictly increasing keys. -/
theorem specIdealAllocation_WF (x : ℚ) : (StdMap.mk (specIdealAllocation x)).WF := by
  unfold specIdealAllocation
  split_ifs <;> decide

/-- An entry that a lookup finds is an entry of the list. -/
theorem mem_of_findEntries {β : Type} (l : List (String × β)) (k : String) (v : β)
    (h : StdMap.findEntries l k = some v) : (k, v) ∈ l := by
  induction l with
  | nil => simp [StdMap.findEntries] at h
  | cons e rest ih =>
    obtain ⟨k1, v1⟩ := e
    unfold StdMap.findEntries at h
    split_ifs at h with hk
    · cases h
      rw [hk]
      exact List.mem_cons_self _ _
    · exact List.mem_cons_of_mem _ (ih h)

/-- The sum of the values divided by `T` and scaled by `c` is the scaled quotient of the
sum. -/
theorem sum_map_div_mul {α : Type} (f : α → ℚ) (l : List α) (T c : ℚ) :
    (l.map fun e => f e / T * c).sum = (l.map f).sum / T * c := by
  induction l with
  | nil => simp
  | cons e rest ih =>
    simp only [List.map_cons, List.sum_cons, ih]
    ring

/-- The total value computed by the loops is the sum of the current values. -/
theorem totalValue_eq_sum (assets : StdMap Asset) :
    RiskAnalyzer.totalValue assets =
      (assets.entries.map fun e => e.2.getCurrentValue).sum := by
  unfold RiskAnalyzer.totalValue
  rw [foldl_add_eq_sum (fun e : String × Asset => e.2.getCurrentValue), zero_add]

/-- With non-negative values, no asset is worth more than the total. -/
theorem value_le_totalValue (assets : StdMap Asset)
    (hnn : ∀ e ∈ assets.entries, 0 ≤ e.2.getCurrentValue) (e : String × Asset)
    (he : e ∈ assets.entries) : e.2.getCurrentValue ≤ RiskAnalyzer.totalValue assets := by
  rw [totalValue_eq_sum]
  apply List.single_le_sum
  · intro x hx
    obtain ⟨e', he', rfl⟩ := List.mem_map.mp hx
    exact hnn e' he'
  · exact List.mem_map.mpr ⟨e, he, rfl⟩

/-- With non-negative values and a positive total, every share lies between 0 and 100. -/
theorem specCurrentShare_bounds (assets : StdMap Asset)
    (hnn : ∀ e ∈ assets.entries, 0 ≤ e.2.getCurrentValue)
    (hT : 0 < RiskAnalyzer.totalValue assets) (s : String) :
    0 ≤ specCurrentShare assets s ∧ specCurrentShare assets s ≤ 100 := by
  unfold specCurrentShare
  cases hfind : assets.find s with
  | none => simp
  | some a =>
    have hmem : (s, a) ∈ assets.entries := mem_of_findEntries _ _ _ hfind
    have h0 : 0 ≤ a.getCurrentValue := hnn (s, a) hmem
    have h1 : a.getCurrentValue ≤ RiskAnalyzer.totalValue assets :=
      value_le_totalValue assets hnn (s, a) hmem
    constructor
    · exact mul_nonneg (div_nonneg h0 hT.le) (by norm_num)
    · have : a.getCurrentValue / RiskAnalyzer.totalValue assets ≤ 1 :=
        (div_le_one hT).mpr h1
      simp only
      linarith

/-- Every element of a `zipWith` is the image of an element of each list. -/
theorem mem_zipWith_elim {α β γ : Type} (f : α → β → γ) (l1 : List α) (l2 : List β) (r : γ)
    (hr : r ∈ List.zipWith f l1 l2) : ∃ x ∈ l1, ∃ y ∈ l2, r = f x y := by
  induction l1 generalizing l2 with
  | nil => simp at hr
  | cons x xs ih =>
    cases l2 with
    | nil => simp at hr
    | cons y ys =>
      rw [List.zipWith_cons_cons, List.mem_cons] at hr
      rcases hr with h | h
      · exact ⟨x, List.mem_cons_self _ _, y, List.mem_cons_self _ _, h⟩
      · obtain ⟨x', hx', y', hy', heq⟩ := ih ys h
        exact ⟨x', List.mem_cons_of_mem _ hx', y', List.mem_cons_of_mem _ hy', heq⟩

/-- A number closer than one half to an integer rounds to that integer. -/
theorem roundHalfEven_eq (x : ℚ) (m : ℤ) (h : |x - m| < 1 / 2) : roundHalfEven x = m := by
  rw [abs_lt] at h
  unfold roundHalfEven
  by_cases hx : (m : ℚ) ≤ x
  · have hf : ⌊x⌋ = m := by
      rw [Int.floor_eq_iff]
      exact ⟨hx, by linarith [h.2]⟩
    simp only [hf]
    rw [if_pos (by linarith [h.2])]
  · have hf : ⌊x⌋ = m - 1 := by
      rw [Int.floor_eq_iff]
      push_cast
      exact ⟨by linarith [h.1], by linarith [not_le.mp hx]⟩
    simp only [hf]
    push_cast
    rw [if_neg (by linarith [h.1]), if_pos (by linarith [h.1])]
    ring

/-- Rounding to an integer moves a number by at most one half. -/
theorem roundHalfEven_error (x : ℚ) : |(roundHalfEven x : ℚ) - x| ≤ 1 / 2 := by
  have h1 : (⌊x⌋ : ℚ) ≤ x := Int.floor_le x
  have h2 : x < ⌊x⌋ + 1 := Int.lt_floor_add_one x
  unfold roundHalfEven
  simp only
  rw [abs_le]
  split_ifs with ha hb hc
  · constructor <;> linarith
  · push_cast
    constructor <;> linarith
  · constructor <;> linarith
  · push_cast
    constructor <;> linarith

/-- The binary logarithm of a number of the binade `[2 ^ k, 2 ^ (k + 1))` is `k`. -/
theorem log_two_eq (q : ℚ) (k : ℤ) (hlo : (2 : ℚ) ^ k ≤ q) (hhi : q < (2 : ℚ) ^ (k + 1)) :
    Int.log 2 q = k := by
  have hq : 0 < q := lt_of_lt_of_le (by positivity) hlo
  have h2 : (1 : ℕ) < 2 := by norm_num
  have h1 : k ≤ Int.log 2 q :=
    (Int.zpow_le_iff_le_log h2 hq).mp (by exact_mod_cast hlo)
  have h3 : Int.log 2 q < k + 1 :=
    (Int.lt_zpow_iff_log_lt h2 hq).mp (by exact_mod_cast hhi)
  omega

/-- How a double is computed: for `q` in the binade whose spacing is `2 ^ e`, the result is
`m * 2 ^ e` when `q / 2 ^ e` is closer than one half to the integer `m`. -/
theorem roundDouble_eq (q : ℚ) (e m : ℤ) (hlo : (2 : ℚ) ^ (e + 52) ≤ |q|)
    (hhi : |q| < (2 : ℚ) ^ (e + 52 + 1)) (hm : |q / 2 ^ e - m| < 1 / 2) :
    roundDouble q = m * 2 ^ e := by
  have hq : q ≠ 0 := by
    intro h
    rw [h, abs_zero] at hlo
    exact absurd hlo (not_le.mpr (by positivity))
  unfold roundDouble
  rw [if_neg hq]
  simp only [log_two_eq _ _ hlo hhi, add_sub_cancel_right]
  rw [roundHalfEven_eq _ m hm]

/-- The standard model of double arithmetic: the rounding has a relative error of at most
`2 ^ (-53)`. -/
theorem roundDouble_error (q : ℚ) : |roundDouble q - q| ≤ 2 ^ (-53 : ℤ) * |q| := by
  by_cases hq : q = 0
  · simp [roundDouble, hq]
  · unfold roundDouble
    rw [if_neg hq]
    simp only
    have habs : 0 < |q| := abs_pos.mpr hq
    have hlog : (2 : ℚ) ^ Int.log 2 |q| ≤ |q| := by
      have h2 : (1 : ℕ) < 2 := by norm_num
      have := Int.zpow_log_le_self h2 habs
      exact_mod_cast this
    have hpos : (0 : ℚ) < 2 ^ (Int.log 2 |q| - 52) := by positivity
    have herr := roundHalfEven_error (q / 2 ^ (Int.log 2 |q| - 52))
    have hfactor : (roundHalfEven (q / 2 ^ (Int.log 2 |q| - 52)) : ℚ) * 2 ^ (Int.log 2 |q| - 52) - q
        = ((roundHalfEven (q / 2 ^ (Int.log 2 |q| - 52)) : ℚ) - q / 2 ^ (Int.log 2 |q| - 52))
          * 2 ^ (Int.log 2 |q| - 52) := by
      field_simp
    rw [hfactor, abs_mul, abs_of_pos hpos]
    have hsplit : (2 : ℚ) ^ (Int.log 2 |q| - 52) = 2 ^ Int.log 2 |q| * 2 ^ (-52 : ℤ) := by
      rw [← zpow_add₀ (by norm_num : (2 : ℚ) ≠ 0)]
      rfl
    calc |(roundHalfEven (q / 2 ^ (Int.log 2 |q| - 52)) : ℚ) - q / 2 ^ (Int.log 2 |q| - 52)|
          * 2 ^ (Int.log 2 |q| - 52)
        ≤ 1 / 2 * 2 ^ (Int.log 2 |q| - 52) := mul_le_mul_of_nonneg_right herr hpos.le
      _ = 2 ^ (-53 : ℤ) * 2 ^ Int.log 2 |q| := by
        rw [hsplit]
        norm_num
        ring
      _ ≤ 2 ^ (-53 : ℤ) * |q| := mul_le_mul_of_nonneg_left hlog (by positivity)

/-- The total accumulated by the loops of the rounded functions is the rounded sum of the
rounded values. -/
theorem totalValue_rounded_eq (fl : ℚ → ℚ) (assets : StdMap Asset) :
    Rounded.totalValue fl assets = specRoundedSum fl (specValues fl assets) 0 := by
  have hgen : ∀ (l : List (String × Asset)) (acc : ℚ),
      l.foldl (fun total e => fl (total + Rounded.getCurrentValue fl e.2)) acc =
        specRoundedSum fl (l.map fun e => fl (e.2.currentPrice * e.2.quantity)) acc := by
    intro l
    induction l with
    | nil => exact fun acc => rfl
    | cons e rest ih =>
      intro acc
      rw [List.foldl_cons, ih]
      rfl
  exact hgen _ 0

/-- With exact arithmetic the rounded sum is the sum. -/
theorem specRoundedSum_id (vs : List ℚ) (acc : ℚ) : specRoundedSum id vs acc = acc + vs.sum := by
  induction vs generalizing acc with
  | nil => simp [specRoundedSum]
  | cons v rest ih =>
    rw [specRoundedSum, ih, List.sum_cons]
    simp only [id]
    ring

/-- What the comparison loop stores under a key, for any way `d` of computing the difference
of an entry. -/
theorem find_foldl_recommend_with (d : String → ℚ → ℚ) (l : List (String × ℚ))
    (hl : (l.map Prod.fst).Nodup) (m0 : StdMap ℚ) (k : String) :
    (l.foldl
      (fun (recs : StdMap ℚ) e =>
        if |d e.1 e.2| ≥ 5 then recs.assign e.1 (d e.1 e.2) else recs) m0).find k =
      match StdMap.findEntries l k with
      | some ideal => if 5 ≤ |d k ideal| then some (d k ideal) else m0.find k
      | none => m0.find k := by
  induction l generalizing m0 with
  | nil => rfl
  | cons e rest ih =>
    obtain ⟨k1, v1⟩ := e
    simp only [List.map_cons, List.nodup_cons] at hl
    rw [List.foldl_cons, ih hl.2]
    by_cases h : k1 = k
    · subst h
      simp only [StdMap.findEntries, if_true, findEntries_eq_none rest k1 hl.1]
      by_cases hd : 5 ≤ |d k1 v1|
      · simp only [ge_iff_le, if_pos hd]
        exact findEntries_assignEntries_self _ _ _
      · simp only [ge_iff_le, if_neg hd]
    · simp only [StdMap.findEntries, if_neg h]
      have hm0 : StdMap.find
          (if |d k1 v1| ≥ 5 then m0.assign k1 (d k1 v1) else m0) k = m0.find k := by
        split_ifs
        · exact findEntries_assignEntries_ne _ _ _ _ h
        · rfl
      rw [hm0]

/-- The entries the comparison loop produces from a sorted table: those of the table whose
difference reaches the threshold, in the same order, with the difference as value. -/
theorem foldl_recommend_entries (d : String → ℚ → ℚ) (l : List (String × ℚ))
    (hl : l.Pairwise (fun e e' => e.1.toList < e'.1.toList)) (acc : List (String × ℚ))
    (hacc : ∀ a ∈ acc, ∀ e ∈ l, a.1.toList < e.1.toList) :
    l.foldl
      (fun (recs : StdMap ℚ) e =>
        if |d e.1 e.2| ≥ 5 then recs.assign e.1 (d e.1 e.2) else recs) ⟨acc⟩ =
      ⟨acc ++ l.filterMap fun e => if 5 ≤ |d e.1 e.2| then some (e.1, d e.1 e.2) else none⟩ := by
  induction l generalizing acc with
  | nil => simp
  | cons e rest ih =>
    rw [List.pairwise_cons] at hl
    rw [List.foldl_cons]
    by_cases hd : 5 ≤ |d e.1 e.2|
    · have hstep : (StdMap.mk acc).assign e.1 (d e.1 e.2) = ⟨acc ++ [(e.1, d e.1 e.2)]⟩ := by
        unfold StdMap.assign
        rw [assignEntries_of_keys_lt acc e.1 (d e.1 e.2)
          (fun a ha => hacc a ha e (List.mem_cons_self _ _))]
      rw [if_pos hd, hstep, ih hl.2]
      · simp [List.filterMap_cons, hd]
      · intro a ha e' he'
        rcases List.mem_append.mp ha with h | h
        · exact hacc a h e' (List.mem_cons_of_mem _ he')
        · rw [List.mem_singleton] at h
          rw [h]
          exact hl.1 e' he'
    · rw [if_neg hd, ih hl.2 acc (fun a ha e' he' => hacc a ha e' (List.mem_cons_of_mem _ he'))]
      simp [List.filterMap_cons, hd]

/-- The share looked up by the comparison loop of the rounded `recommendRebalancing` is the
rounded share of the specification. -/
theorem currentPercent_rounded (fl : ℚ → ℚ) (assets : StdMap Asset) (hA : assets.WF)
    (s : String) :
    (match (Rounded.currentAllocation fl assets (Rounded.totalValue fl assets)).find s with
      | some percent => percent
      | none => 0) = specRoundedShare fl assets s := by
  unfold Rounded.currentAllocation specRoundedShare
  rw [find_foldl_assign
    (fun a : Asset => fl (fl (Rounded.getCurrentValue fl a / Rounded.totalValue fl assets) * 100))
    assets.entries hA.nodup_keys StdMap.empty s, totalValue_rounded_eq]
  unfold StdMap.find
  cases StdMap.findEntries assets.entries s with
  | some a => rfl
  | none => rfl

/-- With a positive total, the result of the rounded `recommendRebalancing` under any key. -/
theorem find_recommendRebalancing_rounded (fl : ℚ → ℚ) (r : RiskAnalyzer)
    (assets : StdMap Asset) (hI : r.idealAllocation.WF) (hA : assets.WF)
    (hT : 0 < specRoundedSum fl (specValues fl assets) 0) (s : String) :
    (Rounded.recommendRebalancing fl r assets).find s =
      match r.idealAllocation.find s with
      | some ideal =>
        if 5 ≤ |fl (ideal - specRoundedShare fl assets s)| then
          some (fl (ideal - specRoundedShare fl assets s))
        else none
      | none => none := by
  have hT' : ¬ Rounded.totalValue fl assets ≤ 0 := by
    rw [totalValue_rounded_eq]
    exact not_le.mpr hT
  unfold Rounded.recommendRebalancing
  simp only [if_neg hT', currentPercent_rounded fl assets hA]
  exact find_foldl_recommend_with (fun k ideal => fl (ideal - specRoundedShare fl assets k))
    r.idealAllocation.entries hI.nodup_keys StdMap.empty s

/-- With a positive total, the entries of the rounded `recommendRebalancing`: the symbols of
the ideal allocation whose rounded difference reaches 5, each with that difference. -/
theorem recommendRebalancing_rounded_entries (fl : ℚ → ℚ) (r : RiskAnalyzer)
    (assets : StdMap Asset) (hI : r.idealAllocation.WF) (hA : assets.WF)
    (hT : 0 < specRoundedSum fl (specValues fl assets) 0) :
    (Rounded.recommendRebalancing fl r assets).entries =
      r.idealAllocation.entries.filterMap fun e =>
        if 5 ≤ |fl (e.2 - specRoundedShare fl assets e.1)| then
          some (e.1, fl (e.2 - specRoundedShare fl assets e.1))
        else none := by
  have hT' : ¬ Rounded.totalValue fl assets ≤ 0 := by
    rw [totalValue_rounded_eq]
    exact not_le.mpr hT
  unfold Rounded.recommendRebalancing
  simp only [if_neg hT', currentPercent_rounded fl assets hA]
  have h := foldl_recommend_entries (fun k ideal => fl (ideal - specRoundedShare fl assets k))
    r.idealAllocation.entries hI [] (fun a ha => absurd ha (List.not_mem_nil _))
  simp only [List.nil_append] at h
  exact congrArg StdMap.entries h

/-! ### Values of `roundDouble` -/

/-- The integer 1 is a double. -/
theorem roundDouble_int_1 :
    roundDouble (1 : ℚ) = (1 : ℚ) := by
  rw [roundDouble_eq (1 : ℚ) (-52) (4503599627370496)
    (by norm_num [abs_of_pos]) (by norm_num [abs_of_pos]) (by norm_num [abs_lt])]
  norm_num

/-- The integer 2 is a double. -/
theorem roundDouble_int_2 :
    roundDouble (2 : ℚ) = (2 : ℚ) := by
  rw [roundDouble_eq (2 : ℚ) (-51) (4503599627370496)
    (by norm_num [abs_of_pos]) (by norm_num [abs_of_pos]) (by norm_num [abs_lt])]
  norm_num

/-- The integer 3 is a double. -/
theorem roundDouble_int_3 :
    roundDouble (3 : ℚ) = (3 : ℚ) := by
  rw [roundDouble_eq (3 : ℚ) (-51) (6755399441055744)
    (by norm_num [abs_of_pos]) (by norm_num [abs_of_pos]) (by norm_num [abs_lt])]
  norm_num

/-- The integer 5 is a double. -/
theorem roundDouble_int_5 :
    roundDouble (5 : ℚ) = (5 : ℚ) := by
  rw [roundDouble_eq (5 : ℚ) (-50) (5629499534213120)
    (by norm_num [abs_of_pos]) (by norm_num [abs_of_pos]) (by norm_num [abs_lt])]
  norm_num

/-- The integer 10 is a double. -/
theorem roundDouble_int_10 :
    roundDouble (10 : ℚ) = (10 : ℚ) := by
  rw [roundDouble_eq (10 : ℚ) (-49) (5629499534213120)
    (by norm_num [abs_of_pos]) (by norm_num [abs_of_pos]) (by norm_num [abs_lt])]
  norm_num

/-- The integer 15 is a double. -/
theorem roundDouble_int_15 :
    roundDouble (15 : ℚ) = (15 : ℚ) := by
  rw [roundDouble_eq (15 : ℚ) (-49) (8444249301319680)
    (by norm_num [abs_of_pos]) (by norm_num [abs_of_pos]) (by norm_num [abs_lt])]
  norm_num

/-- The integer 20 is a double. -/
theorem roundDouble_int_20 :
    roundDouble (20 : ℚ) = (20 : ℚ) := by
  rw [roundDouble_eq (20 : ℚ) (-48) (5629499534213120)
    (by norm_num [abs_of_pos]) (by norm_num [abs_of_pos]) (by norm_num [abs_lt])]
  norm_num

/-- The integer 55 is a double. -/
theorem roundDouble_int_55 :
    roundDouble (55 : ℚ) = (55 : ℚ) := by
  rw [roundDouble_eq (55 : ℚ) (-47) (7740561859543040)
    (by norm_num [abs_of_pos]) (by norm_num [abs_of_pos]) (by norm_num [abs_lt])]
  norm_num

/-- The integer 70 is a double. -/
theorem roundDouble_int_70 :
    roundDouble (70 : ℚ) = (70 : ℚ) := by
  rw [roundDouble_eq (70 : ℚ) (-46) (4925812092436480)
    (by norm_num [abs_of_pos]) (by norm_num [abs_of_pos]) (by norm_num [abs_lt])]
  norm_num

/-- The integer 90 is a double. -/
theorem roundDouble_int_90 :
    roundDouble (90 : ℚ) = (90 : ℚ) := by
  rw [roundDouble_eq (90 : ℚ) (-46) (6333186975989760)
    (by norm_num [abs_of_pos]) (by norm_num [abs_of_pos]) (by norm_num [abs_lt])]
  norm_num

/-- The integer 100 is a double. -/
theorem roundDouble_int_100 :
    roundDouble (100 : ℚ) = (100 : ℚ) := by
  rw [roundDouble_eq (100 : ℚ) (-46) (7036874417766400)
    (by norm_num [abs_of_pos]) (by norm_num [abs_of_pos]) (by norm_num [abs_lt])]
  norm_num

/-- The integer -5 is a double. -/
theorem roundDouble_neg_5 :
    roundDouble (-5 : ℚ) = (-5 : ℚ) := by
  rw [roundDouble_eq (-5 : ℚ) (-50) (-5629499534213120)
    (by norm_num [abs_of_neg]) (by norm_num [abs_of_neg]) (by norm_num [abs_lt])]
  norm_num

/-- The integer -100 is a double. -/
theorem roundDouble_neg_100 :
    roundDouble (-100 : ℚ) = (-100 : ℚ) := by
  rw [roundDouble_eq (-100 : ℚ) (-46) (-7036874417766400)
    (by norm_num [abs_of_neg]) (by norm_num [abs_of_neg]) (by norm_num [abs_lt])]
  norm_num

/-- The double nearest to 1/10. -/
theorem roundDouble_tenth :
    roundDouble (1 / 10 : ℚ) = (3602879701896397 / 36028797018963968 : ℚ) := by
  rw [roundDouble_eq (1 / 10 : ℚ) (-56) (7205759403792794)
    (by norm_num [abs_of_pos]) (by norm_num [abs_of_pos]) (by norm_num [abs_lt])]
  norm_num

/-- The double nearest to 1/20. -/
theorem roundDouble_twentieth :
    roundDouble (1 / 20 : ℚ) = (3602879701896397 / 72057594037927936 : ℚ) := by
  rw [roundDouble_eq (1 / 20 : ℚ) (-57) (7205759403792794)
    (by norm_num [abs_of_pos]) (by norm_num [abs_of_pos]) (by norm_num [abs_lt])]
  norm_num

/-- The double nearest to 11/20. -/
theorem roundDouble_eleven_twentieths :
    roundDouble (11 / 20 : ℚ) = (2476979795053773 / 4503599627370496 : ℚ) := by
  rw [roundDouble_eq (11 / 20 : ℚ) (-53) (4953959590107546)
    (by norm_num [abs_of_pos]) (by norm_num [abs_of_pos]) (by norm_num [abs_lt])]
  norm_num

/-- The double nearest to 1/5. -/
theorem roundDouble_fifth :
    roundDouble (1 / 5 : ℚ) = (3602879701896397 / 18014398509481984 : ℚ) := by
  rw [roundDouble_eq (1 / 5 : ℚ) (-55) (7205759403792794)
    (by norm_num [abs_of_pos]) (by norm_num [abs_of_pos]) (by norm_num [abs_lt])]
  norm_num

/-- The double nearest to 1/3. -/
theorem roundDouble_third :
    roundDouble (1 / 3 : ℚ) = (6004799503160661 / 18014398509481984 : ℚ) := by
  rw [roundDouble_eq (1 / 3 : ℚ) (-54) (6004799503160661)
    (by norm_num [abs_of_pos]) (by norm_num [abs_of_pos]) (by norm_num [abs_lt])]
  norm_num

/-- The double nearest to 1/100. -/
theorem roundDouble_hundredth :
    roundDouble (1 / 100 : ℚ) = (5764607523034235 / 576460752303423488 : ℚ) := by
  rw [roundDouble_eq (1 / 100 : ℚ) (-59) (5764607523034235)
    (by norm_num [abs_of_pos]) (by norm_num [abs_of_pos]) (by norm_num [abs_lt])]
  norm_num

/-- The double product of the double nearest to 1/10 with 100. -/
theorem roundDouble_tenth_times_100 :
    roundDouble (90071992547409925 / 9007199254740992 : ℚ) = (10 : ℚ) := by
  rw [roundDouble_eq (90071992547409925 / 9007199254740992 : ℚ) (-49) (5629499534213120)
    (by norm_num [abs_of_pos]) (by norm_num [abs_of_pos]) (by norm_num [abs_lt])]
  norm_num

/-- The double product of the double nearest to 1/20 with 100. -/
theorem roundDouble_twentieth_times_100 :
    roundDouble (90071992547409925 / 18014398509481984 : ℚ) = (5 : ℚ) := by
  rw [roundDouble_eq (90071992547409925 / 18014398509481984 : ℚ) (-50) (5629499534213120)
    (by norm_num [abs_of_pos]) (by norm_num [abs_of_pos]) (by norm_num [abs_lt])]
  norm_num

/-- The double product of the double nearest to 11/20 with 100. -/
theorem roundDouble_eleven_twentieths_times_100 :
    roundDouble (61924494876344325 / 1125899906842624 : ℚ) = (7740561859543041 / 140737488355328 : ℚ) := by
  rw [roundDouble_eq (61924494876344325 / 1125899906842624 : ℚ) (-47) (7740561859543041)
    (by norm_num [abs_of_pos]) (by norm_num [abs_of_pos]) (by norm_num [abs_lt])]
  norm_num

/-- The double product of the double nearest to 1/5 with 100. -/
theorem roundDouble_fifth_times_100 :
    roundDouble (90071992547409925 / 4503599627370496 : ℚ) = (20 : ℚ) := by
  rw [roundDouble_eq (90071992547409925 / 4503599627370496 : ℚ) (-48) (5629499534213120)
    (by norm_num [abs_of_pos]) (by norm_num [abs_of_pos]) (by norm_num [abs_lt])]
  norm_num

/-- The double product of the double nearest to 1/3 with 100. -/
theorem roundDouble_third_times_100 :
    roundDouble (150119987579016525 / 4503599627370496 : ℚ) = (2345624805922133 / 70368744177664 : ℚ) := by
  rw [roundDouble_eq (150119987579016525 / 4503599627370496 : ℚ) (-47) (4691249611844266)
    (by norm_num [abs_of_pos]) (by norm_num [abs_of_pos]) (by norm_num [abs_lt])]
  norm_num

/-- The double difference of 60 and the share computed for 55 of 100. -/
theorem roundDouble_sixty_minus_share :
    roundDouble (703687441776639 / 140737488355328 : ℚ) = (703687441776639 / 140737488355328 : ℚ) := by
  rw [roundDouble_eq (703687441776639 / 140737488355328 : ℚ) (-50) (5629499534213112)
    (by norm_num [abs_of_pos]) (by norm_num [abs_of_pos]) (by norm_num [abs_lt])]
  norm_num

/-- The double nearest to 8.4 is a double. -/
theorem roundDouble_input_a :
    roundDouble (4728779608739021 / 562949953421312 : ℚ) = (4728779608739021 / 562949953421312 : ℚ) := by
  rw [roundDouble_eq (4728779608739021 / 562949953421312 : ℚ) (-49) (4728779608739021)
    (by norm_num [abs_of_pos]) (by norm_num [abs_of_pos]) (by norm_num [abs_lt])]
  norm_num

/-- The double sum of the doubles nearest to 8.4 and 91.61. -/
theorem roundDouble_sum_ab :
    roundDouble (56300624841665413 / 562949953421312 : ℚ) = (7037578105208177 / 70368744177664 : ℚ) := by
  rw [roundDouble_eq (56300624841665413 / 562949953421312 : ℚ) (-46) (7037578105208177)
    (by norm_num [abs_of_pos]) (by norm_num [abs_of_pos]) (by norm_num [abs_lt])]
  norm_num

/-- The double difference of that sum and 100. -/
theorem roundDouble_sum_ab_minus_100 :
    roundDouble (703687441777 / 70368744177664 : ℚ) = (703687441777 / 70368744177664 : ℚ) := by
  rw [roundDouble_eq (703687441777 / 70368744177664 : ℚ) (-59) (5764607523037184)
    (by norm_num [abs_of_pos]) (by norm_num [abs_of_pos]) (by norm_num [abs_lt])]
  norm_num

/-- The double quotient of the double nearest to 8.4 by that sum. -/
theorem roundDouble_a_div_sum :
    roundDouble (4728779608739021 / 56300624841665416 : ℚ) = (6052232675918355 / 72057594037927936 : ℚ) := by
  rw [roundDouble_eq (4728779608739021 / 56300624841665416 : ℚ) (-56) (6052232675918355)
    (by norm_num [abs_of_pos]) (by norm_num [abs_of_pos]) (by norm_num [abs_lt])]
  norm_num

/-- The double quotient of the double nearest to 91.61 by that sum. -/
theorem roundDouble_b_div_sum :
    roundDouble (6446480654115799 / 7037578105208177 : ℚ) = (8250670170251197 / 9007199254740992 : ℚ) := by
  rw [roundDouble_eq (6446480654115799 / 7037578105208177 : ℚ) (-53) (8250670170251197)
    (by norm_num [abs_of_pos]) (by norm_num [abs_of_pos]) (by norm_num [abs_lt])]
  norm_num

/-- The double product of the first quotient with 100. -/
theorem roundDouble_a_share :
    roundDouble (151305816897958875 / 18014398509481984 : ℚ) = (4728306778061215 / 562949953421312 : ℚ) := by
  rw [roundDouble_eq (151305816897958875 / 18014398509481984 : ℚ) (-49) (4728306778061215)
    (by norm_num [abs_of_pos]) (by norm_num [abs_of_pos]) (by norm_num [abs_lt])]
  norm_num

/-- The double product of the second quotient with 100. -/
theorem roundDouble_b_share :
    roundDouble (206266754256279925 / 2251799813685248 : ℚ) = (1611459017627187 / 17592186044416 : ℚ) := by
  rw [roundDouble_eq (206266754256279925 / 2251799813685248 : ℚ) (-46) (6445836070508748)
    (by norm_num [abs_of_pos]) (by norm_num [abs_of_pos]) (by norm_num [abs_lt])]
  norm_num

/-! ### The rounded functions on the sample data, and error bounds -/

/-- Zero is a double. -/
theorem roundDouble_zero : roundDouble 0 = 0 := by
  simp [roundDouble]

/-- The rounded values of the boundary portfolio. -/
theorem specValues_boundaryPortfolio :
    specValues roundDouble boundaryPortfolio = [10, 5, 55, 20, 10] := by
  simp [specValues, boundaryPortfolio, unitAsset, roundDouble_int_10, roundDouble_int_5,
    roundDouble_int_55, roundDouble_int_20]

/-- The rounded total of the boundary portfolio is 100. -/
theorem specRoundedSum_boundaryPortfolio :
    specRoundedSum roundDouble (specValues roundDouble boundaryPortfolio) 0 = 100 := by
  rw [specValues_boundaryPortfolio]
  norm_num [specRoundedSum, roundDouble_int_10, roundDouble_int_15, roundDouble_int_70,
    roundDouble_int_90, roundDouble_int_100]

/-- The shares of the boundary portfolio as double arithmetic computes them: the share of the
SIP holding is the double next above 55. -/
theorem specRoundedShare_boundaryPortfolio :
    specRoundedShare roundDouble boundaryPortfolio "BTC" = 10 ∧
    specRoundedShare roundDouble boundaryPortfolio "EUR/USD" = 5 ∧
    specRoundedShare roundDouble boundaryPortfolio "SIP" =
      7740561859543041 / 140737488355328 ∧
    specRoundedShare roundDouble boundaryPortfolio "USD" = 20 ∧
    specRoundedShare roundDouble boundaryPortfolio "XAU/USD" = 10 := by
  have hbtc : boundaryPortfolio.find "BTC" = some (unitAsset "BTC" 10) := rfl
  have heur : boundaryPortfolio.find "EUR/USD" = some (unitAsset "EUR/USD" 5) := rfl
  have hsip : boundaryPortfolio.find "SIP" = some (unitAsset "SIP" 55) := rfl
  have husd : boundaryPortfolio.find "USD" = some (unitAsset "USD" 20) := rfl
  have hxau : boundaryPortfolio.find "XAU/USD" = some (unitAsset "XAU/USD" 10) := rfl
  unfold specRoundedShare
  rw [specRoundedSum_boundaryPortfolio, hbtc, heur, hsip, husd, hxau]
  refine ⟨?_, ?_, ?_, ?_, ?_⟩ <;>
    norm_num [unitAsset, roundDouble_int_10, roundDouble_int_5, roundDouble_int_55,
      roundDouble_int_20, roundDouble_tenth, roundDouble_twentieth,
      roundDouble_eleven_twentieths, roundDouble_fifth, roundDouble_tenth_times_100,
      roundDouble_twentieth_times_100, roundDouble_eleven_twentieths_times_100,
      roundDouble_fifth_times_100]

/-- The recommendations the double arithmetic yields for the boundary portfolio: one entry,
under BTC. -/
theorem recommendRebalancing_boundaryPortfolio :
    (Rounded.recommendRebalancing roundDouble lowRiskAnalyzer boundaryPortfolio).entries =
      [("BTC", -5)] := by
  have hI : lowRiskAnalyzer.idealAllocation.WF := by decide
  have hA : boundaryPortfolio.WF := by decide
  have hE : lowRiskAnalyzer.idealAllocation.entries =
      [("BTC", 5), ("EUR/USD", 5), ("SIP", 60), ("USD", 20), ("XAU/USD", 10)] := rfl
  rw [recommendRebalancing_rounded_entries roundDouble lowRiskAnalyzer boundaryPortfolio hI hA
    (by rw [specRoundedSum_boundaryPortfolio]; norm_num), hE]
  simp only [List.filterMap_cons, List.filterMap_nil, specRoundedShare_boundaryPortfolio.1,
    specRoundedShare_boundaryPortfolio.2.1, specRoundedShare_boundaryPortfolio.2.2.1,
    specRoundedShare_boundaryPortfolio.2.2.2.1, specRoundedShare_boundaryPortfolio.2.2.2.2]
  norm_num [roundDouble_zero, roundDouble_neg_5, roundDouble_sixty_minus_share, abs_of_pos]

/-- A rounding with relative error at most `u` keeps a non-negative number between
`(1 - u) * x` and `(1 + u) * x`. -/
theorem fl_bounds (fl : ℚ → ℚ) (u : ℚ) (hfl : ∀ x, |fl x - x| ≤ u * |x|) (x : ℚ) (hx : 0 ≤ x) :
    (1 - u) * x ≤ fl x ∧ fl x ≤ (1 + u) * x := by
  have h := hfl x
  rw [abs_of_nonneg hx, abs_le] at h
  constructor <;> linarith [h.1, h.2]

/-- A sum accumulated with a rounding of relative error at most `u` lies within the factors
`(1 - u) ^ n` and `(1 + u) ^ n` of the exact sum, `n` being the number of additions. -/
theorem specRoundedSum_bounds (fl : ℚ → ℚ) (u : ℚ) (hfl : ∀ x, |fl x - x| ≤ u * |x|)
    (hu0 : 0 ≤ u) (hu1 : u < 1) (vs : List ℚ) (hvs : ∀ v ∈ vs, 0 ≤ v) (acc : ℚ)
    (hacc : 0 ≤ acc) :
    0 ≤ specRoundedSum fl vs acc ∧
    (1 - u) ^ vs.length * (acc + vs.sum) ≤ specRoundedSum fl vs acc ∧
    specRoundedSum fl vs acc ≤ (1 + u) ^ vs.length * (acc + vs.sum) := by
  induction vs generalizing acc with
  | nil => simp [specRoundedSum, hacc]
  | cons v rest ih =>
    have hv : 0 ≤ v := hvs v (List.mem_cons_self _ _)
    have hrest : ∀ w ∈ rest, 0 ≤ w := fun w hw => hvs w (List.mem_cons_of_mem _ hw)
    have hsum : 0 ≤ rest.sum := List.sum_nonneg hrest
    have hb := fl_bounds fl u hfl (acc + v) (add_nonneg hacc hv)
    have hlo : 0 ≤ 1 - u := by linarith
    have hfl0 : 0 ≤ fl (acc + v) := le_trans (mul_nonneg hlo (add_nonneg hacc hv)) hb.1
    obtain ⟨h0, h1, h2⟩ := ih hrest (fl (acc + v)) hfl0
    rw [specRoundedSum, List.length_cons, List.sum_cons, pow_succ, pow_succ]
    refine ⟨h0, le_trans ?_ h1, le_trans h2 ?_⟩
    · rw [mul_assoc]
      apply mul_le_mul_of_nonneg_left _ (pow_nonneg hlo _)
      nlinarith [hb.1, mul_nonneg hu0 hsum]
    · rw [mul_assoc]
      apply mul_le_mul_of_nonneg_left _ (pow_nonneg (by linarith) _)
      nlinarith [hb.2, mul_nonneg hu0 hsum]

/-- The total of the rounded composition is the rounded sum of the rounded values. -/
theorem getTotalValue_rounded_eq (fl : ℚ → ℚ) (pm : PortfolioManager) :
    Rounded.getTotalValue fl pm = specRoundedSum fl (specValues fl pm.assets) 0 :=
  totalValue_rounded_eq fl pm.assets

/-- With a positive total, the rounded composition has one entry per asset, in the order of
the assets. -/
theorem getPortfolioComposition_rounded_entries (fl : ℚ → ℚ) (pm : PortfolioManager)
    (hA : pm.assets.WF) (hT : 0 < specRoundedSum fl (specValues fl pm.assets) 0) :
    (Rounded.getPortfolioComposition fl pm).entries =
      pm.assets.entries.map fun e =>
        (e.1, fl (fl (fl (e.2.currentPrice * e.2.quantity) /
          specRoundedSum fl (specValues fl pm.assets) 0) * 100)) := by
  unfold Rounded.getPortfolioComposition
  simp only [getTotalValue_rounded_eq, if_neg (not_le.mpr hT)]
  have h := foldl_assign_sorted
    (fun a : Asset => fl (fl (Rounded.getCurrentValue fl a /
      specRoundedSum fl (specValues fl pm.assets) 0) * 100))
    pm.assets.entries hA [] (fun a ha => absurd ha (List.not_mem_nil _))
  simp only [List.nil_append] at h
  exact congrArg StdMap.entries h

/-- Percentages computed as `fl (fl (v / T) * 100)` from non-negative values `v` and a positive
total `T` sum to `100 * Σ v / T` within the factors `(1 - u) ^ 2` and `(1 + u) ^ 2`. -/
theorem sum_rounded_shares_bounds (fl : ℚ → ℚ) (u : ℚ) (hfl : ∀ x, |fl x - x| ≤ u * |x|)
    (hu0 : 0 ≤ u) (hu1 : u < 1) (T : ℚ) (hT : 0 < T) (vs : List ℚ) (hvs : ∀ v ∈ vs, 0 ≤ v) :
    (1 - u) ^ 2 * (100 * (vs.sum / T)) ≤ (vs.map fun v => fl (fl (v / T) * 100)).sum ∧
    (vs.map fun v => fl (fl (v / T) * 100)).sum ≤ (1 + u) ^ 2 * (100 * (vs.sum / T)) := by
  induction vs with
  | nil => simp
  | cons v rest ih =>
    have hv : 0 ≤ v := hvs v (List.mem_cons_self _ _)
    obtain ⟨h1, h2⟩ := ih (fun w hw => hvs w (List.mem_cons_of_mem _ hw))
    have hq : 0 ≤ v / T := div_nonneg hv hT.le
    have hb1 := fl_bounds fl u hfl (v / T) hq
    have hlo : 0 ≤ 1 - u := by linarith
    have hq' : 0 ≤ fl (v / T) := le_trans (mul_nonneg hlo hq) hb1.1
    have hb2 := fl_bounds fl u hfl (fl (v / T) * 100) (mul_nonneg hq' (by norm_num))
    simp only [List.map_cons, List.sum_cons, add_div]
    constructor
    · have : (1 - u) ^ 2 * (100 * (v / T)) ≤ fl (fl (v / T) * 100) := by
        refine le_trans ?_ hb2.1
        have : (1 - u) * (v / T) * 100 ≤ fl (v / T) * 100 := by linarith [hb1.1]
        nlinarith [mul_le_mul_of_nonneg_left this hlo]
      linarith
    · have : fl (fl (v / T) * 100) ≤ (1 + u) ^ 2 * (100 * (v / T)) := by
        refine le_trans hb2.2 ?_
        have : fl (v / T) * 100 ≤ (1 + u) * (v / T) * 100 := by linarith [hb1.2]
        nlinarith [mul_le_mul_of_nonneg_left this (by linarith : (0 : ℚ) ≤ 1 + u)]
      linarith

/-- Percentages computed from non-negative values and their rounded total, which is positive:
with a rounding of relative error at most `u` they sum to 100 within the factors
`(1 - u) ^ 2 / (1 + u) ^ n` and `(1 + u) ^ 2 / (1 - u) ^ n`, `n` being the number of values. -/
theorem rounded_percentages_sum_bounds (fl : ℚ → ℚ) (u : ℚ)
    (hfl : ∀ x, |fl x - x| ≤ u * |x|) (hu0 : 0 ≤ u) (hu1 : u < 1) (vs : List ℚ)
    (hvs : ∀ v ∈ vs, 0 ≤ v) (hT : 0 < specRoundedSum fl vs 0) :
    100 * (1 - u) ^ 2 ≤
      (1 + u) ^ vs.length *
        (vs.map fun v => fl (fl (v / specRoundedSum fl vs 0) * 100)).sum ∧
    (1 - u) ^ vs.length *
        (vs.map fun v => fl (fl (v / specRoundedSum fl vs 0) * 100)).sum ≤
      100 * (1 + u) ^ 2 := by
  have hlo : 0 ≤ 1 - u := by linarith
  obtain ⟨_, hT1, hT2⟩ := specRoundedSum_bounds fl u hfl hu0 hu1 vs hvs 0 le_rfl
  rw [zero_add] at hT1 hT2
  obtain ⟨hS1, hS2⟩ := sum_rounded_shares_bounds fl u hfl hu0 hu1 _ hT vs hvs
  set T := specRoundedSum fl vs 0 with hTdef
  set V := vs.sum with hVdef
  set S := (vs.map fun v => fl (fl (v / T) * 100)).sum with hSdef
  set n := vs.length with hn
  have hpos : 0 < (1 + u) ^ n := pow_pos (by linarith) n
  have hposm : 0 ≤ (1 - u) ^ n := pow_nonneg hlo n
  have h1 : 1 ≤ (1 + u) ^ n * (V / T) := by
    rw [← mul_div_assoc, le_div_iff₀ hT]
    linarith
  have h2 : (1 - u) ^ n * (V / T) ≤ 1 := by
    rw [← mul_div_assoc, div_le_iff₀ hT]
    linarith
  have hsq1 : 0 ≤ (1 - u) ^ 2 := sq_nonneg _
  have hsq2 : 0 ≤ (1 + u) ^ 2 := sq_nonneg _
  constructor
  · calc 100 * (1 - u) ^ 2 ≤ 100 * (1 - u) ^ 2 * ((1 + u) ^ n * (V / T)) :=
          le_mul_of_one_le_right (by positivity) h1
      _ = (1 + u) ^ n * ((1 - u) ^ 2 * (100 * (V / T))) := by ring
      _ ≤ (1 + u) ^ n * S := mul_le_mul_of_nonneg_left hS1 hpos.le
  · calc (1 - u) ^ n * S ≤ (1 - u) ^ n * ((1 + u) ^ 2 * (100 * (V / T))) :=
          mul_le_mul_of_nonneg_left hS2 hposm
      _ = 100 * (1 + u) ^ 2 * ((1 - u) ^ n * (V / T)) := by ring
      _ ≤ 100 * (1 + u) ^ 2 := mul_le_of_le_one_right (by positivity) h2

/-- The sum of the percentages of the rounded composition: with a rounding of relative error
at most `u`, non-negative values and a positive total, it is 100 within the factors
`(1 - u) ^ 2 / (1 + u) ^ n` and `(1 + u) ^ 2 / (1 - u) ^ n`, `n` being the number of assets. -/
theorem getPortfolioComposition_rounded_sum (fl : ℚ → ℚ) (u : ℚ)
    (hfl : ∀ x, |fl x - x| ≤ u * |x|) (hu0 : 0 ≤ u) (hu1 : u < 1) (pm : PortfolioManager)
    (hA : pm.assets.WF) (hnn : ∀ e ∈ pm.assets.entries, 0 ≤ e.2.currentPrice * e.2.quantity)
    (hT : 0 < specRoundedSum fl (specValues fl pm.assets) 0) :
    100 * (1 - u) ^ 2 ≤
      (1 + u) ^ pm.assets.entries.length *
        specPercentSum (Rounded.getPortfolioComposition fl pm) ∧
    (1 - u) ^ pm.assets.entries.length *
        specPercentSum (Rounded.getPortfolioComposition fl pm) ≤ 100 * (1 + u) ^ 2 := by
  have hlo : 0 ≤ 1 - u := by linarith
  have hvs : ∀ v ∈ specValues fl pm.assets, 0 ≤ v := by
    intro v hv
    obtain ⟨e, he, rfl⟩ := List.mem_map.mp hv
    exact le_trans (mul_nonneg hlo (hnn e he)) (fl_bounds fl u hfl _ (hnn e he)).1
  have hlen : (specValues fl pm.assets).length = pm.assets.entries.length := by
    simp [specValues]
  have hsum : specPercentSum (Rounded.getPortfolioComposition fl pm) =
      ((specValues fl pm.assets).map fun v =>
        fl (fl (v / specRoundedSum fl (specValues fl pm.assets) 0) * 100)).sum := by
    unfold specPercentSum
    rw [getPortfolioComposition_rounded_entries fl pm hA hT]
    simp only [specValues, List.map_map]
    rfl
  rw [hsum, ← hlen]
  exact rounded_percentages_sum_bounds fl u hfl hu0 hu1 _ hvs hT

/-- The composition that double arithmetic yields for three holdings of equal value: three
times the double nearest to `100 / 3` computed by way of the double nearest to `1 / 3`. -/
theorem getPortfolioComposition_thirdsManager :
    (Rounded.getPortfolioComposition roundDouble thirdsManager).entries =
      [("BTC", 2345624805922133 / 70368744177664), ("SIP", 2345624805922133 / 70368744177664),
        ("USD", 2345624805922133 / 70368744177664)] := by
  have hA : thirdsManager.assets.WF := by decide
  have hV : specValues roundDouble thirdsManager.assets = [1, 1, 1] := by
    simp [specValues, thirdsManager, unitAsset, roundDouble_int_1]
  have hS : specRoundedSum roundDouble (specValues roundDouble thirdsManager.assets) 0 = 3 := by
    rw [hV]
    norm_num [specRoundedSum, roundDouble_int_1, roundDouble_int_2, roundDouble_int_3]
  rw [getPortfolioComposition_rounded_entries roundDouble thirdsManager hA
    (by rw [hS]; norm_num), hS]
  norm_num [thirdsManager, unitAsset, roundDouble_int_1, roundDouble_third,
    roundDouble_third_times_100]

/-- The total accumulated by the loop of `setAllocation` is the rounded sum of the
percentages. -/
theorem setAllocation_total_eq (fl : ℚ → ℚ) (l : List (String × ℚ)) (acc : ℚ) :
    l.foldl (fun total e => fl (total + e.2)) acc = specRoundedSum fl (l.map Prod.snd) acc := by
  induction l generalizing acc with
  | nil => rfl
  | cons e rest ih =>
    rw [List.foldl_cons, ih]
    rfl

/-- With a total other than zero every quotient of the adjusting loop is finite, and the loop
is the fold that stores `fl (fl (percentage / total) * 100)`. -/
theorem foldlM_adjust_of_ne_zero (fl : ℚ → ℚ) (T : ℚ) (hT : T ≠ 0) (l : List (String × ℚ))
    (m0 : StdMap ℚ) :
    l.foldlM
      (fun (allocation : StdMap ℚ) e =>
        (divFinite e.2 T).map fun quotient => allocation.assign e.1 (fl (fl quotient * 100)))
      m0 =
    some (l.foldl (fun (allocation : StdMap ℚ) e =>
      allocation.assign e.1 (fl (fl (e.2 / T) * 100))) m0) := by
  induction l generalizing m0 with
  | nil => rfl
  | cons e rest ih =>
    have hq : divFinite e.2 T = some (e.2 / T) := if_neg hT
    simp only [List.foldlM_cons, List.foldl_cons]
    rw [hq]
    simp only [Option.map_some', Option.some_bind]
    exact ih _

/-- With a total of zero the first quotient of the adjusting loop is not finite. -/
theorem foldlM_adjust_of_zero (fl : ℚ → ℚ) (e : String × ℚ) (rest : List (String × ℚ))
    (m0 : StdMap ℚ) :
    (e :: rest).foldlM
      (fun (allocation : StdMap ℚ) e =>
        (divFinite e.2 0).map fun quotient => allocation.assign e.1 (fl (fl quotient * 100)))
      m0 = none := by
  rw [List.foldlM_cons]
  simp [divFinite]

/-- What `setAllocation` stores when the computed total is not zero: the percentages
`fl (fl (percentage / total) * 100)` when the test `|total - 100| > 0.01` holds as computed, the
input otherwise. -/
theorem setAllocation_of_ne_zero (fl : ℚ → ℚ) (m : SIPManager) (input : StdMap ℚ)
    (hW : input.WF) (hT : specRoundedSum fl (input.entries.map Prod.snd) 0 ≠ 0) :
    SIPManager.setAllocation fl m input =
      some { m with allocation :=
        (if |fl (specRoundedSum fl (input.entries.map Prod.snd) 0 - 100)| > fl (1 / 100) then
          ⟨input.entries.map fun e =>
            (e.1, fl (fl (e.2 / specRoundedSum fl (input.entries.map Prod.snd) 0) * 100))⟩
        else input) } := by
  unfold SIPManager.setAllocation
  simp only [setAllocation_total_eq]
  split_ifs with h
  · rw [foldlM_adjust_of_ne_zero fl _ hT]
    have hfold := foldl_assign_sorted
      (fun p : ℚ => fl (fl (p / specRoundedSum fl (input.entries.map Prod.snd) 0) * 100))
      input.entries hW [] (fun a ha => absurd ha (List.not_mem_nil _))
    simp only [List.nil_append] at hfold
    simp only [StdMap.empty, hfold, Option.map_some']
  · rfl

/-- On the allocation BTC 0, SIP 0 `setAllocation` divides by the total 0, in double arithmetic
and in exact arithmetic. -/
theorem setAllocation_zeroAllocation :
    SIPManager.setAllocation roundDouble sampleSIPManager zeroAllocation = none ∧
    SIPManager.setAllocation id sampleSIPManager zeroAllocation = none := by
  constructor
  · unfold SIPManager.setAllocation
    have htotal : zeroAllocation.entries.foldl (fun total e => roundDouble (total + e.2)) 0
        = 0 := by
      norm_num [zeroAllocation, roundDouble_zero]
    have hpos : (0 : ℚ) < 5764607523034235 / 576460752303423488 := by norm_num
    simp only [htotal, zero_sub, roundDouble_neg_100, roundDouble_hundredth, abs_neg]
    rw [if_pos (by rw [abs_of_pos (by norm_num : (0 : ℚ) < 100)]; norm_num)]
    simp only [zeroAllocation, foldlM_adjust_of_zero, Option.map_none']
  · unfold SIPManager.setAllocation
    have htotal : zeroAllocation.entries.foldl (fun total e => id (total + e.2)) 0 = 0 := by
      norm_num [zeroAllocation]
    simp only [htotal, zero_sub, abs_neg]
    rw [if_pos (by simp only [id, abs_neg]; rw [abs_of_pos (by norm_num : (0 : ℚ) < 100)]; norm_num)]
    simp only [zeroAllocation, foldlM_adjust_of_zero, Option.map_none']

/-- The double sum of the doubles nearest to 8.4 and 91.61. -/
theorem specRoundedSum_nearBoundaryAllocation :
    specRoundedSum roundDouble (nearBoundaryAllocation.entries.map Prod.snd) 0 =
      7037578105208177 / 70368744177664 := by
  norm_num [nearBoundaryAllocation, specRoundedSum, roundDouble_input_a, roundDouble_sum_ab]

/-! ## Theorems -/

/-- C1: for `0 < p ≤ 100`, `sell p` returns `quantity * (p/100) * currentPrice` computed from the
quantity before the call, and afterwards quantity and initialInvestment are the old values
times `1 - p/100`. -/
theorem sell_in_range (a : Asset) (p : ℚ) (h0 : 0 < p) (h100 : p ≤ 100) :
    (a.sell p).1 = a.quantity * (p / 100) * a.currentPrice ∧
    (a.sell p).2.quantity = a.quantity * (1 - p / 100) ∧
    (a.sell p).2.initialInvestment = a.initialInvestment * (1 - p / 100) := by
  have hg : ¬ (p ≤ 0 ∨ p > 100) := by
    rintro (h | h)
    · exact absurd h0 (not_lt.mpr h)
    · exact absurd h100 (not_le.mpr h)
  simp only [Asset.sell, if_neg hg]
  refine ⟨trivial, ?_, trivial⟩
  ring

/-- Witness of C1 on the sample asset with 25 percent. -/
theorem sell_in_range_witness :
    (0 : ℚ) < 25 ∧ (25 : ℚ) ≤ 100 ∧
    (sampleAsset.sell 25).1 = sampleAsset.quantity * (25 / 100) * sampleAsset.currentPrice ∧
    (sampleAsset.sell 25).2.quantity = sampleAsset.quantity * (1 - 25 / 100) ∧
    (sampleAsset.sell 25).2.initialInvestment =
      sampleAsset.initialInvestment * (1 - 25 / 100) :=
  ⟨by norm_num, by norm_num, sell_in_range sampleAsset 25 (by norm_num) (by norm_num)⟩

/-- C2: for `p ≤ 0` or `p > 100`, `sell p` returns 0 and the asset is unchanged in every
field. -/
theorem sell_out_of_range (a : Asset) (p : ℚ) (h : p ≤ 0 ∨ p > 100) :
    a.sell p = (0, a) := by
  simp only [Asset.sell, if_pos h]

/-- Witness of C2 on the sample asset with 150 percent and with -1 percent. -/
theorem sell_out_of_range_witness :
    ((150 : ℚ) ≤ 0 ∨ (150 : ℚ) > 100) ∧ sampleAsset.sell 150 = (0, sampleAsset) ∧
    ((-1 : ℚ) ≤ 0 ∨ (-1 : ℚ) > 100) ∧ sampleAsset.sell (-1) = (0, sampleAsset) :=
  ⟨Or.inr (by norm_num), sell_out_of_range sampleAsset 150 (Or.inr (by norm_num)),
   Or.inl (by norm_num), sell_out_of_range sampleAsset (-1) (Or.inl (by norm_num))⟩

/-- C3: with `currentPrice > 0` and `amount ≥ 0`, `buy amount` adds `amount / currentPrice` to the
quantity and `amount` to initialInvestment; `buy 0` leaves both unchanged. -/
theorem buy_nonneg (a : Asset) (amount : ℚ) (hp : 0 < a.currentPrice) (ha : 0 ≤ amount) :
    (a.buy amount).quantity - a.quantity = amount / a.currentPrice ∧
    (a.buy amount).initialInvestment - a.initialInvestment = amount ∧
    0 ≤ amount / a.currentPrice ∧
    (a.buy 0).quantity = a.quantity ∧
    (a.buy 0).initialInvestment = a.initialInvestment := by
  refine ⟨?_, ?_, div_nonneg ha hp.le, ?_, ?_⟩ <;> simp [Asset.buy]

/-- Witness of C3 on the sample asset with amount 50. -/
theorem buy_nonneg_witness :
    0 < sampleAsset.currentPrice ∧ (0 : ℚ) ≤ 50 ∧
    (sampleAsset.buy 50).quantity - sampleAsset.quantity = 50 / sampleAsset.currentPrice :=
  ⟨by norm_num [sampleAsset], by norm_num,
   (buy_nonneg sampleAsset 50 (by norm_num [sampleAsset]) (by norm_num)).1⟩

/-- C4 as stated fails: buying `-10` on the sample asset is applied, the quantity drops from
100 to 95 and initialInvestment from 200 to 190. -/
theorem buy_negative_is_applied :
    (sampleAsset.buy (-10)).quantity = 95 ∧ (sampleAsset.buy (-10)).initialInvestment = 190 ∧
    (sampleAsset.buy (-10)).quantity ≠ sampleAsset.quantity ∧
    (sampleAsset.buy (-10)).initialInvestment ≠ sampleAsset.initialInvestment := by
  norm_num [Asset.buy, sampleAsset]

/-- C4 amended: for `amount < 0`, `buy amount` has no failure path and applies the same
arithmetic as for any other amount: the quantity becomes `quantity + amount / currentPrice` and
initialInvestment becomes `initialInvestment + amount`, which is strictly smaller than before;
the other fields are unchanged. -/
theorem buy_negative (a : Asset) (amount : ℚ) (h : amount < 0) :
    a.buy amount =
      { a with
        quantity := a.quantity + amount / a.currentPrice
        initialInvestment := a.initialInvestment + amount } ∧
    (a.buy amount).initialInvestment < a.initialInvestment := by
  refine ⟨rfl, ?_⟩
  simp only [Asset.buy]
  linarith

/-- Witness of the amended C4 on the sample asset with amount `-10`. -/
theorem buy_negative_witness :
    (-10 : ℚ) < 0 ∧ (sampleAsset.buy (-10)).initialInvestment < sampleAsset.initialInvestment :=
  ⟨by norm_num, (buy_negative sampleAsset (-10) (by norm_num)).2⟩

/-- C5: `updateVolatility` changes only the volatility field and sets it to the volatility of
the specification: 0 below two observations and otherwise 100 times the population standard
deviation (squared deviations divided by the number of returns) of the period-over-period
returns.  On the history 40000, 44000, 41800 the returns are 0.10 and -0.05, their mean is
0.025, the population variance is 0.075 squared, and with a square root that is exact on
squares the volatility is 7.5. -/
theorem updateVolatility_eq_specVolatility (sqrt : ℚ → ℚ) :
    (∀ a : Asset,
      a.updateVolatility sqrt = { a with volatility := specVolatility sqrt a.priceHistory }) ∧
    (∀ a : Asset, a.priceHistory.length < 2 → (a.updateVolatility sqrt).volatility = 0) ∧
    Asset.dailyReturns btcHistory = [1 / 10, -1 / 20] ∧
    specMean (Asset.dailyReturns btcHistory) = 1 / 40 ∧
    specPopulationVariance (Asset.dailyReturns btcHistory) = (3 / 40) * (3 / 40) ∧
    ((∀ x : ℚ, 0 ≤ x → sqrt (x * x) = x) →
      ∀ a : Asset, a.priceHistory = btcHistory → (a.updateVolatility sqrt).volatility = 15 / 2) := by
  have hgen := updateVolatility_eq sqrt
  have hret : Asset.dailyReturns btcHistory = [1 / 10, -1 / 20] := by
    rw [dailyReturns_eq_specReturns]
    norm_num [specReturns, btcHistory]
  refine ⟨hgen, ?_, hret, ?_, ?_, ?_⟩
  · intro a ha
    rw [hgen]
    simp [specVolatility, ha]
  · rw [hret]
    norm_num [specMean]
  · rw [hret]
    norm_num [specPopulationVariance, specMean]
  · intro hs a ha
    have h40 : sqrt ((3 / 40) * (3 / 40)) = 3 / 40 := hs (3 / 40) (by norm_num)
    rw [hgen]
    simp only [specVolatility, ha]
    rw [← dailyReturns_eq_specReturns, hret]
    have hv : specPopulationVariance [1 / 10, -1 / 20] = (3 / 40) * (3 / 40) := by
      norm_num [specPopulationVariance, specMean]
    rw [hv, h40]
    norm_num [btcHistory]

/-- Witness of C5: with the computable square root `qsqrt`, the asset holding the BTC history
gets volatility 7.5, and the sample asset with its single observation gets volatility 0. -/
theorem updateVolatility_eq_specVolatility_witness :
    (∀ x : ℚ, 0 ≤ x → qsqrt (x * x) = x) ∧
    ({ sampleAsset with priceHistory := btcHistory } : Asset).priceHistory = btcHistory ∧
    (Asset.updateVolatility qsqrt { sampleAsset with priceHistory := btcHistory }).volatility
      = 15 / 2 ∧
    sampleAsset.priceHistory.length < 2 ∧
    (sampleAsset.updateVolatility qsqrt).volatility = 0 :=
  ⟨qsqrt_mul_self, rfl,
   (updateVolatility_eq_specVolatility qsqrt).2.2.2.2.2 qsqrt_mul_self _ rfl,
   by decide,
   (updateVolatility_eq_specVolatility qsqrt).2.1 sampleAsset (by decide)⟩

/-- C6: after `updateCurrentPrice newPrice` (for every `newPrice`, in particular every positive
one) the current price is `newPrice`, the history is the old history with the one observation
`(now, newPrice)` appended at the end, the stored volatility is the volatility of the whole new
history (recomputing it changes nothing), and name, symbol, quantity and initialInvestment are
unchanged. -/
theorem updateCurrentPrice_spec (sqrt : ℚ → ℚ) (now : String) (a : Asset) (newPrice : ℚ) :
    a.updateCurrentPrice sqrt now newPrice =
      { a with
        currentPrice := newPrice
        priceHistory := a.priceHistory ++ [(now, newPrice)]
        volatility := specVolatility sqrt (a.priceHistory ++ [(now, newPrice)]) } ∧
    (a.updateCurrentPrice sqrt now newPrice).volatility =
      specVolatility sqrt (a.updateCurrentPrice sqrt now newPrice).priceHistory ∧
    (a.updateCurrentPrice sqrt now newPrice).priceHistory.dropLast = a.priceHistory ∧
    (a.updateCurrentPrice sqrt now newPrice).priceHistory.getLast? = some (now, newPrice) ∧
    (a.updateCurrentPrice sqrt now newPrice).updateVolatility sqrt =
      a.updateCurrentPrice sqrt now newPrice := by
  have h : a.updateCurrentPrice sqrt now newPrice =
      { a with
        currentPrice := newPrice
        priceHistory := a.priceHistory ++ [(now, newPrice)]
        volatility := specVolatility sqrt (a.priceHistory ++ [(now, newPrice)]) } := by
    unfold Asset.updateCurrentPrice Asset.addPricePoint
    rw [updateVolatility_eq]
  rw [h, updateVolatility_eq]
  simp

/-- C7: `setRiskScore v` stores `min 100 (max 0 v)`, yields the same state as
`setRiskScore (min 100 (max 0 v))`, gives the same allocation for 150 and for 100, and applying
it twice equals applying it once. -/
theorem setRiskScore_clamp_idempotent (r : RiskAnalyzer) (v : ℚ) :
    (r.setRiskScore v).riskScore = min 100 (max 0 v) ∧
    r.setRiskScore v = r.setRiskScore (min 100 (max 0 v)) ∧
    (r.setRiskScore 150).idealAllocation = (r.setRiskScore 100).idealAllocation ∧
    r.setRiskScore 150 = r.setRiskScore 100 ∧
    (r.setRiskScore v).setRiskScore v = r.setRiskScore v := by
  have hscore : ∀ (r : RiskAnalyzer) (v : ℚ),
      (r.setRiskScore v).riskScore = min 100 (max 0 v) := by
    intro r v
    rw [← stdClamp_eq]
    exact riskScore_updateIdealAllocation _
  have hclamp : ∀ v : ℚ, r.setRiskScore v = r.setRiskScore (min 100 (max 0 v)) := by
    intro v
    unfold RiskAnalyzer.setRiskScore
    rw [stdClamp_eq, stdClamp_eq, clamp_clamp]
  have h150 : r.setRiskScore 150 = r.setRiskScore 100 := by
    rw [hclamp 150]
    norm_num
  refine ⟨hscore r v, hclamp v, by rw [h150], h150, ?_⟩
  unfold RiskAnalyzer.setRiskScore
  simp only [updateIdealAllocation_overwrite]

/-- C8: the allocation derived by `updateIdealAllocation` from the stored score `s` has exactly
the entries SIP 60, USD 20, XAU/USD 10, EUR/USD 5, BTC 5 when `s < 30`, exactly SIP 40, USD 10,
XAU/USD 15, EUR/USD 20, BTC 15 when `30 ≤ s < 70`, and exactly SIP 20, USD 10, XAU/USD 10,
EUR/USD 30, BTC 30 when `70 ≤ s`; score 25 yields the first table. -/
theorem updateIdealAllocation_three_tiers (r : RiskAnalyzer) :
    (r.riskScore < 30 →
      r.updateIdealAllocation.idealAllocation.entries =
        [("BTC", 5), ("EUR/USD", 5), ("SIP", 60), ("USD", 20), ("XAU/USD", 10)]) ∧
    (30 ≤ r.riskScore → r.riskScore < 70 →
      r.updateIdealAllocation.idealAllocation.entries =
        [("BTC", 15), ("EUR/USD", 20), ("SIP", 40), ("USD", 10), ("XAU/USD", 15)]) ∧
    (70 ≤ r.riskScore →
      r.updateIdealAllocation.idealAllocation.entries =
        [("BTC", 30), ("EUR/USD", 30), ("SIP", 20), ("USD", 10), ("XAU/USD", 10)]) ∧
    (RiskAnalyzer.updateIdealAllocation { r with riskScore := 25 }).idealAllocation.entries =
      [("BTC", 5), ("EUR/USD", 5), ("SIP", 60), ("USD", 20), ("XAU/USD", 10)] := by
  refine ⟨?_, ?_, ?_, ?_⟩
  · intro h
    rw [updateIdealAllocation_entries, specIdealAllocation, if_pos h]
  · intro h30 h70
    rw [updateIdealAllocation_entries, specIdealAllocation, if_neg (not_lt.mpr h30), if_pos h70]
  · intro h70
    have h30 : (30 : ℚ) ≤ r.riskScore := le_trans (by norm_num) h70
    rw [updateIdealAllocation_entries, specIdealAllocation, if_neg (not_lt.mpr h30),
      if_neg (not_lt.mpr h70)]
  · rw [updateIdealAllocation_entries, specIdealAllocation, if_pos (by norm_num)]

/-- Witness of C8: one analyzer state in each tier (scores 25, 50 and 75). -/
theorem updateIdealAllocation_three_tiers_witness :
    ((25 : ℚ) < 30 ∧
      (RiskAnalyzer.updateIdealAllocation
        { sampleAnalyzer with riskScore := 25 }).idealAllocation.entries =
        [("BTC", 5), ("EUR/USD", 5), ("SIP", 60), ("USD", 20), ("XAU/USD", 10)]) ∧
    ((30 : ℚ) ≤ 50 ∧ (50 : ℚ) < 70 ∧
      (RiskAnalyzer.updateIdealAllocation
        { sampleAnalyzer with riskScore := 50 }).idealAllocation.entries =
        [("BTC", 15), ("EUR/USD", 20), ("SIP", 40), ("USD", 10), ("XAU/USD", 15)]) ∧
    ((70 : ℚ) ≤ 75 ∧
      (RiskAnalyzer.updateIdealAllocation
        { sampleAnalyzer with riskScore := 75 }).idealAllocation.entries =
        [("BTC", 30), ("EUR/USD", 30), ("SIP", 20), ("USD", 10), ("XAU/USD", 10)]) :=
  ⟨⟨by norm_num,
    (updateIdealAllocation_three_tiers { sampleAnalyzer with riskScore := 25 }).1
      (by norm_num)⟩,
   ⟨by norm_num, by norm_num,
    (updateIdealAllocation_three_tiers { sampleAnalyzer with riskScore := 50 }).2.1
      (by norm_num) (by norm_num)⟩,
   ⟨by norm_num,
    (updateIdealAllocation_three_tiers { sampleAnalyzer with riskScore := 75 }).2.2.1
      (by norm_num)⟩⟩

/-- C9: `adjustRiskScoreForMarketConditions vix btcVolatility` sets the score to
`min 100 (max 0 (s + a + b))`, where `a` is -10 if `vix > 30`, +5 if `vix < 15` and 0 otherwise,
and `b` is -5 if `btcVolatility > 20` and 0 otherwise, and the allocation becomes the three-tier
table of the new score; the threshold is unchanged. -/
theorem adjustRiskScoreForMarketConditions_spec (r : RiskAnalyzer) (vix btcVolatility : ℚ) :
    (r.adjustRiskScoreForMarketConditions vix btcVolatility).riskScore =
      min 100 (max 0 (r.riskScore
        + (if vix > 30 then -10 else if vix < 15 then 5 else 0)
        + (if btcVolatility > 20 then -5 else 0))) ∧
    (r.adjustRiskScoreForMarketConditions vix btcVolatility).idealAllocation.entries =
      specIdealAllocation (r.adjustRiskScoreForMarketConditions vix btcVolatility).riskScore ∧
    (r.adjustRiskScoreForMarketConditions vix btcVolatility).volatilityThreshold =
      r.volatilityThreshold := by
  have hstate : r.adjustRiskScoreForMarketConditions vix btcVolatility =
      RiskAnalyzer.updateIdealAllocation
        { r with riskScore := min 100 (max 0 (r.riskScore
          + (if vix > 30 then -10 else if vix < 15 then 5 else 0)
          + (if btcVolatility > 20 then -5 else 0))) } := by
    unfold RiskAnalyzer.adjustRiskScoreForMarketConditions RiskAnalyzer.setRiskScore
    simp only [stdClamp_eq, clamp_clamp]
    congr 4
    split_ifs <;> ring
  refine ⟨?_, ?_, ?_⟩
  · rw [hstate, riskScore_updateIdealAllocation]
  · rw [hstate, updateIdealAllocation_entries, riskScore_updateIdealAllocation]
  · rw [hstate]
    unfold RiskAnalyzer.updateIdealAllocation
    split_ifs <;> rfl

/-- C10 as stated fails: a portfolio worth 100 holds 55 under SIP and the ideal share of SIP
is 60, so that `|ideal - current| = 5` reaches the threshold; yet `recommendRebalancing`, run in
double arithmetic, has no entry under SIP.  The share `55 / 100 * 100` is computed as the double
next above 55, the difference as a double below 5, and the only entry of the result is the one
under BTC. -/
theorem recommendRebalancing_boundary_entry_missing :
    0 < (boundaryPortfolio.entries.map fun e => e.2.currentPrice * e.2.quantity).sum ∧
    lowRiskAnalyzer.idealAllocation.find "SIP" = some 60 ∧
    (boundaryPortfolio.find "SIP").map
      (fun a => a.currentPrice * a.quantity /
        (boundaryPortfolio.entries.map fun e => e.2.currentPrice * e.2.quantity).sum * 100)
      = some 55 ∧
    (5 : ℚ) ≤ |60 - 55| ∧
    specRoundedShare roundDouble boundaryPortfolio "SIP" = 7740561859543041 / 140737488355328 ∧
    roundDouble (60 - specRoundedShare roundDouble boundaryPortfolio "SIP") =
      703687441776639 / 140737488355328 ∧
    (Rounded.recommendRebalancing roundDouble lowRiskAnalyzer boundaryPortfolio).find "SIP"
      = none ∧
    (Rounded.recommendRebalancing roundDouble lowRiskAnalyzer boundaryPortfolio).entries
      = [("BTC", -5)] := by
  have hsum : (boundaryPortfolio.entries.map fun e => e.2.currentPrice * e.2.quantity).sum
      = 100 := by
    norm_num [boundaryPortfolio, unitAsset]
  have hsip : boundaryPortfolio.find "SIP" = some (unitAsset "SIP" 55) := rfl
  have hfind : ∀ m : StdMap ℚ, m.entries = [("BTC", -5)] → m.find "SIP" = none := by
    intro m hm
    unfold StdMap.find
    rw [hm]
    rfl
  refine ⟨by rw [hsum]; norm_num, rfl, ?_, by norm_num, specRoundedShare_boundaryPortfolio.2.2.1,
    ?_, hfind _ recommendRebalancing_boundaryPortfolio, recommendRebalancing_boundaryPortfolio⟩
  · rw [hsum, hsip]
    norm_num [unitAsset]
  · rw [specRoundedShare_boundaryPortfolio.2.2.1]
    norm_num [roundDouble_sixty_minus_share]

/-- C10 amended: for every rounding `fl` of the double operations, every portfolio whose
computed total value is positive and every symbol `s` of the ideal allocation,
`recommendRebalancing` has an entry under `s` if and only if `|d| ≥ 5`, where `d` is the
difference `ideal[s] - current[s]` as the code computes it, `current[s]` being the computed
percentage share of the asset (value divided by total, times 100; 0 if the portfolio has no
asset `s`), and the value of that entry is `d`; hence the result is empty if `|d| < 5` for every
symbol.  With exact arithmetic (`fl = id`) the share is `value / Σ values * 100`, the difference
is `ideal[s] - current[s]`, and the function is the exact `recommendRebalancing`. -/
theorem recommendRebalancing_deadband_computed (fl : ℚ → ℚ) (r : RiskAnalyzer)
    (assets : StdMap Asset) (hI : r.idealAllocation.WF) (hA : assets.WF)
    (hT : 0 < specRoundedSum fl (specValues fl assets) 0) :
    (∀ s ideal, r.idealAllocation.find s = some ideal →
      ((∃ d, (Rounded.recommendRebalancing fl r assets).find s = some d) ↔
        5 ≤ |fl (ideal - specRoundedShare fl assets s)|) ∧
      (∀ d, (Rounded.recommendRebalancing fl r assets).find s = some d →
        d = fl (ideal - specRoundedShare fl assets s))) ∧
    ((∀ s ideal, r.idealAllocation.find s = some ideal →
        |fl (ideal - specRoundedShare fl assets s)| < 5) →
      Rounded.recommendRebalancing fl r assets = StdMap.empty) ∧
    (∀ s, specRoundedShare id assets s =
      match assets.find s with
      | some a =>
        a.currentPrice * a.quantity /
          (assets.entries.map fun e => e.2.currentPrice * e.2.quantity).sum * 100
      | none => 0) ∧
    Rounded.recommendRebalancing id r assets = r.recommendRebalancing assets := by
  refine ⟨?_, ?_, ?_, rfl⟩
  · intro s ideal hs
    rw [find_recommendRebalancing_rounded fl r assets hI hA hT s, hs]
    by_cases hd : 5 ≤ |fl (ideal - specRoundedShare fl assets s)|
    · simp only [if_pos hd]
      exact ⟨⟨fun _ => hd, fun _ => ⟨_, rfl⟩⟩, fun d h => (Option.some.inj h).symm⟩
    · simp only [if_neg hd]
      exact ⟨⟨fun ⟨d, h⟩ => (by cases h), fun h => absurd h hd⟩, fun d h => (by cases h)⟩
  · intro hall
    have hentries := recommendRebalancing_rounded_entries fl r assets hI hA hT
    have hnone : (r.idealAllocation.entries.filterMap fun e =>
        if 5 ≤ |fl (e.2 - specRoundedShare fl assets e.1)| then
          some (e.1, fl (e.2 - specRoundedShare fl assets e.1))
        else none) = [] := by
      rw [List.filterMap_eq_nil_iff]
      intro e he
      have hfind : r.idealAllocation.find e.1 = some e.2 :=
        findEntries_of_mem _ hI.nodup_keys e.1 e.2 he
      rw [if_neg (not_le.mpr (hall e.1 e.2 hfind))]
    rw [hnone] at hentries
    cases hres : Rounded.recommendRebalancing fl r assets with
    | mk entries =>
      rw [hres] at hentries
      simp only at hentries
      rw [hentries]
      rfl
  · intro s
    unfold specRoundedShare
    rw [specRoundedSum_id]
    simp only [specValues, id, zero_add]

/-- Witness of the amended C10: the boundary portfolio in double arithmetic.  Under BTC the
ideal share is 5 and the computed share 10, and the entry is `-5`; under SIP the ideal share is
60 and the computed share the double next above 55, and there is no entry. -/
theorem recommendRebalancing_deadband_computed_witness :
    lowRiskAnalyzer.idealAllocation.WF ∧ boundaryPortfolio.WF ∧
    0 < specRoundedSum roundDouble (specValues roundDouble boundaryPortfolio) 0 ∧
    (lowRiskAnalyzer.idealAllocation.find "BTC" = some 5 ∧
      specRoundedShare roundDouble boundaryPortfolio "BTC" = 10 ∧
      (Rounded.recommendRebalancing roundDouble lowRiskAnalyzer boundaryPortfolio).find "BTC"
        = some (-5)) ∧
    (lowRiskAnalyzer.idealAllocation.find "SIP" = some 60 ∧
      specRoundedShare roundDouble boundaryPortfolio "SIP" =
        7740561859543041 / 140737488355328 ∧
      ¬ ∃ d, (Rounded.recommendRebalancing roundDouble lowRiskAnalyzer boundaryPortfolio).find
        "SIP" = some d) := by
  have hI : lowRiskAnalyzer.idealAllocation.WF := by decide
  have hA : boundaryPortfolio.WF := by decide
  have hT : 0 < specRoundedSum roundDouble (specValues roundDouble boundaryPortfolio) 0 := by
    rw [specRoundedSum_boundaryPortfolio]
    norm_num
  have h := (recommendRebalancing_deadband_computed roundDouble lowRiskAnalyzer
    boundaryPortfolio hI hA hT).1
  have hbtc : roundDouble (5 - specRoundedShare roundDouble boundaryPortfolio "BTC") = -5 := by
    rw [specRoundedShare_boundaryPortfolio.1]
    norm_num [roundDouble_neg_5]
  have hsip : ¬ 5 ≤ |roundDouble (60 - specRoundedShare roundDouble boundaryPortfolio "SIP")| := by
    rw [specRoundedShare_boundaryPortfolio.2.2.1]
    norm_num [roundDouble_sixty_minus_share, abs_of_pos]
  refine ⟨hI, hA, hT, ⟨rfl, specRoundedShare_boundaryPortfolio.1, ?_⟩,
    ⟨rfl, specRoundedShare_boundaryPortfolio.2.2.1, fun hex => hsip ((h "SIP" 60 rfl).1.mp hex)⟩⟩
  obtain ⟨d, hd⟩ := (h "BTC" 5 rfl).1.mpr (by rw [hbtc]; norm_num)
  rw [hd, (h "BTC" 5 rfl).2 d hd, hbtc]

/-- C11 as stated fails: the portfolio holding only ETH has total value 1000, ETH is held,
is absent from the ideal allocation and has the share 100, yet `recommendRebalancing` has no
entry for ETH (the claim expects the entry -100). -/
theorem recommendRebalancing_skips_unlisted_symbol :
    0 < RiskAnalyzer.totalValue ethPortfolio ∧
    (ethPortfolio.find "ETH").isSome = true ∧
    sampleAnalyzer.idealAllocation.find "ETH" = none ∧
    specCurrentShare ethPortfolio "ETH" = 100 ∧
    (sampleAnalyzer.recommendRebalancing ethPortfolio).find "ETH" = none ∧
    (sampleAnalyzer.recommendRebalancing ethPortfolio).find "ETH" ≠
      some (-specCurrentShare ethPortfolio "ETH") := by
  have hT : 0 < RiskAnalyzer.totalValue ethPortfolio := by
    rw [totalValue_ethPortfolio]
    norm_num
  have hnone : (sampleAnalyzer.recommendRebalancing ethPortfolio).find "ETH" = none := by
    rw [find_recommendRebalancing sampleAnalyzer ethPortfolio (by decide) (by decide) hT]
    rfl
  refine ⟨hT, rfl, rfl, ?_, hnone, ?_⟩
  · unfold specCurrentShare
    rw [totalValue_ethPortfolio]
    norm_num [ethPortfolio, StdMap.find, StdMap.findEntries, Asset.getCurrentValue]
  · rw [hnone]
    exact fun h => Option.noConfusion h

/-- C11 amended: for a portfolio with total value > 0 and a symbol `s` that is held in the
portfolio but absent from the ideal allocation, `recommendRebalancing` emits no recommendation
for `s`, whatever its share `currentValue / T * 100` is: the difference is computed for the
symbols of the ideal allocation only. -/
theorem recommendRebalancing_only_ideal_symbols (r : RiskAnalyzer) (assets : StdMap Asset)
    (hI : r.idealAllocation.WF) (hA : assets.WF) (hT : 0 < RiskAnalyzer.totalValue assets)
    (s : String) (a : Asset) (hheld : assets.find s = some a)
    (habsent : r.idealAllocation.find s = none) :
    (r.recommendRebalancing assets).find s = none ∧
    specCurrentShare assets s = a.getCurrentValue / RiskAnalyzer.totalValue assets * 100 := by
  constructor
  · rw [find_recommendRebalancing r assets hI hA hT s, habsent]
  · rw [specCurrentShare, hheld]

/-- Witness of the amended C11: ETH in the portfolio that holds only ETH. -/
theorem recommendRebalancing_only_ideal_symbols_witness :
    sampleAnalyzer.idealAllocation.WF ∧ ethPortfolio.WF ∧
    0 < RiskAnalyzer.totalValue ethPortfolio ∧
    ethPortfolio.find "ETH" = some ethHolding ∧
    sampleAnalyzer.idealAllocation.find "ETH" = none ∧
    (sampleAnalyzer.recommendRebalancing ethPortfolio).find "ETH" = none :=
  ⟨by decide, by decide, by rw [totalValue_ethPortfolio]; norm_num, rfl, rfl,
   (recommendRebalancing_only_ideal_symbols sampleAnalyzer ethPortfolio (by decide) (by decide)
     (by rw [totalValue_ethPortfolio]; norm_num) "ETH" ethHolding rfl rfl).1⟩

/-- C13: for assets whose total current value `T` is positive,
`calculatePortfolioVolatility` returns the sum over the assets of
`(currentValue_i / T) * volatility_i`; two assets worth 600 at volatility 4 and 400 at
volatility 20 give 10.4. -/
theorem calculatePortfolioVolatility_weighted (assets : StdMap Asset)
    (hT : 0 < RiskAnalyzer.totalValue assets) :
    RiskAnalyzer.calculatePortfolioVolatility assets =
      (assets.entries.map fun e =>
        e.2.getCurrentValue / RiskAnalyzer.totalValue assets * e.2.volatility).sum ∧
    RiskAnalyzer.calculatePortfolioVolatility volatilityPortfolio = 52 / 5 := by
  have hvT : 0 < RiskAnalyzer.totalValue volatilityPortfolio := by
    rw [totalValue_volatilityPortfolio]
    norm_num
  refine ⟨calculatePortfolioVolatility_eq assets hT, ?_⟩
  rw [calculatePortfolioVolatility_eq _ hvT, specWeightedSum, totalValue_volatilityPortfolio]
  norm_num [volatilityPortfolio, Asset.getCurrentValue]

/-- Witness of C13 on the scenario portfolio. -/
theorem calculatePortfolioVolatility_weighted_witness :
    0 < RiskAnalyzer.totalValue volatilityPortfolio ∧
    RiskAnalyzer.calculatePortfolioVolatility volatilityPortfolio =
      (volatilityPortfolio.entries.map fun e =>
        e.2.getCurrentValue / RiskAnalyzer.totalValue volatilityPortfolio *
          e.2.volatility).sum :=
  ⟨by rw [totalValue_volatilityPortfolio]; norm_num,
   (calculatePortfolioVolatility_weighted volatilityPortfolio
      (by rw [totalValue_volatilityPortfolio]; norm_num)).1⟩

/-- C15 fails on the code: with a zero rate both projections divide by the zero monthly rate
and return no finite number.  The fund worth 200 with expected annual return 0 projects one
year with contribution 100 to no finite value (the claim expects 1400), and the plan of 100 per
month projects 12 months at rate 0 to no finite value (the claim expects 1200). -/
theorem growth_projection_zero_rate_not_finite :
    zeroRateSIP.expectedAnnualReturn = 0 ∧
    zeroRateSIP.toAsset.getCurrentValue + 100 * 12 * 1 = 1400 ∧
    zeroRateSIP.projectGrowth 1 100 = none ∧
    zeroRateSIP.projectGrowth 1 100 ≠ some (zeroRateSIP.toAsset.getCurrentValue + 100 * 12 * 1) ∧
    sampleSIPManager.monthlyAmount * 12 = 1200 ∧
    sampleSIPManager.calculateProjectedGrowth 12 0 = none ∧
    sampleSIPManager.calculateProjectedGrowth 12 0 ≠ some (sampleSIPManager.monthlyAmount * 12) := by
  have h1 : zeroRateSIP.projectGrowth 1 100 = none :=
    projectGrowth_zero_rate zeroRateSIP 1 100 rfl (by norm_num)
  have h2 : sampleSIPManager.calculateProjectedGrowth 12 0 = none :=
    calculateProjectedGrowth_zero_rate sampleSIPManager 12
  refine ⟨rfl, ?_, h1, ?_, ?_, h2, ?_⟩
  · norm_num [zeroRateSIP, sampleSIP, Asset.getCurrentValue]
  · rw [h1]
    exact fun h => Option.noConfusion h
  · norm_num [sampleSIPManager]
  · rw [h2]
    exact fun h => Option.noConfusion h

/-- C17: for every monthly amount, every number of months `n ≥ 0` and every annual rate whose
monthly rate `r = annualReturnRate / 12 / 100` is not zero, `calculateProjectedGrowth` is the
finite number `monthlyAmount * ((1 + r) ^ n - 1) / r * (1 + r)`. -/
theorem calculateProjectedGrowth_closed_form (m : SIPManager) (n : ℤ) (annualReturnRate : ℚ)
    (hn : 0 ≤ n) (hr : annualReturnRate / 12 / 100 ≠ 0) :
    m.calculateProjectedGrowth n annualReturnRate =
      some (m.monthlyAmount * ((1 + annualReturnRate / 12 / 100) ^ n - 1)
        / (annualReturnRate / 12 / 100) * (1 + annualReturnRate / 12 / 100)) := by
  unfold SIPManager.calculateProjectedGrowth
  simp only [powFinite_of_nonneg _ _ hn, divFinite_of_ne_zero _ _ hr, Option.bind_eq_bind,
    Option.some_bind, Option.pure_def]
  rw [mul_div_assoc]

/-- Witness of C17: 100 per month for 2 months at 12 percent per year gives 203.01. -/
theorem calculateProjectedGrowth_closed_form_witness :
    (0 : ℤ) ≤ 2 ∧ (12 : ℚ) / 12 / 100 ≠ 0 ∧
    sampleSIPManager.calculateProjectedGrowth 2 12 =
      some (sampleSIPManager.monthlyAmount * ((1 + (12 : ℚ) / 12 / 100) ^ (2 : ℤ) - 1)
        / ((12 : ℚ) / 12 / 100) * (1 + (12 : ℚ) / 12 / 100)) :=
  ⟨by norm_num, by norm_num,
   calculateProjectedGrowth_closed_form sampleSIPManager 2 12 (by norm_num) (by norm_num)⟩

/-- C18 as stated fails: the allocation BTC 0, SIP 0 sums to 0, which is not 100, and
`setAllocation` divides each percentage by that total: the percentages it stores are not finite
numbers (`0 / 0`), in double arithmetic and in exact arithmetic alike.  No allocation
proportional to this input sums to 100 within 0.01. -/
theorem setAllocation_zero_total_not_finite :
    zeroAllocation.WF ∧ specPercentSum zeroAllocation = 0 ∧ specPercentSum zeroAllocation ≠ 100 ∧
    SIPManager.setAllocation roundDouble sampleSIPManager zeroAllocation = none ∧
    SIPManager.setAllocation id sampleSIPManager zeroAllocation = none ∧
    (∀ k : ℚ, ¬ |(zeroAllocation.entries.map fun e => k * e.2).sum - 100| ≤ 1 / 100) := by
  have hsum : specPercentSum zeroAllocation = 0 := by
    norm_num [specPercentSum, zeroAllocation]
  refine ⟨by decide, hsum, by rw [hsum]; norm_num, setAllocation_zeroAllocation.1,
    setAllocation_zeroAllocation.2, ?_⟩
  intro k
  rw [sum_map_rescale]
  change ¬ |k * specPercentSum zeroAllocation - 100| ≤ 1 / 100
  rw [hsum]
  norm_num

/-- C18 amended: for every allocation input whose percentages sum to a total that is neither
100 nor 0 (inputs with total within 0.01 of 100 included), after `setAllocation` the stored
allocation has the same symbols as the input, its percentages sum to 100 within 0.01, and there
is a single constant `k` such that every stored percentage equals `k` times the input
percentage of the same symbol: this is the second part, for exact arithmetic, and it needs no
hypothesis `total ≠ 100`.  The first part is about the code with every double operation rounded
by any `fl`: when the total it computes is not 0, the stored allocation has the same symbols as
the input, and each percentage `p` is stored as `fl (fl (p / total) * 100)` when the test
`|total - 100| > 0.01` holds as computed and as `p` otherwise. -/
theorem setAllocation_renormalizes_nonzero_total (fl : ℚ → ℚ) (m : SIPManager)
    (input : StdMap ℚ) (hW : input.WF) :
    (specRoundedSum fl (input.entries.map Prod.snd) 0 ≠ 0 →
      ∃ stored : SIPManager, SIPManager.setAllocation fl m input = some stored ∧
        stored.allocation.entries.map Prod.fst = input.entries.map Prod.fst ∧
        ∀ (s : String) (p : ℚ), input.find s = some p →
          stored.allocation.find s = some
            (if |fl (specRoundedSum fl (input.entries.map Prod.snd) 0 - 100)| > fl (1 / 100)
              then fl (fl (p / specRoundedSum fl (input.entries.map Prod.snd) 0) * 100)
              else p)) ∧
    ((input.entries.map Prod.snd).sum ≠ 0 →
      ∃ stored : SIPManager, SIPManager.setAllocation id m input = some stored ∧
        stored.allocation.entries.map Prod.fst = input.entries.map Prod.fst ∧
        |(stored.allocation.entries.map Prod.snd).sum - 100| ≤ 1 / 100 ∧
        ∃ k : ℚ, ∀ (s : String) (p : ℚ), input.find s = some p →
          stored.allocation.find s = some (k * p)) := by
  constructor
  · intro hT
    refine ⟨_, setAllocation_of_ne_zero fl m input hW hT, ?_, ?_⟩
    · simp only
      split_ifs
      · simp only [List.map_map]
        rfl
      · rfl
    · intro s p hs
      simp only
      split_ifs
      · unfold StdMap.find at hs ⊢
        simp only
        rw [findEntries_map_value
          (fun q => fl (fl (q / specRoundedSum fl (input.entries.map Prod.snd) 0) * 100)), hs]
        rfl
      · exact hs
  · intro hS
    have hid : specRoundedSum id (input.entries.map Prod.snd) 0 =
        (input.entries.map Prod.snd).sum := by
      rw [specRoundedSum_id, zero_add]
    have hT : specRoundedSum id (input.entries.map Prod.snd) 0 ≠ 0 := by
      rw [hid]
      exact hS
    refine ⟨_, setAllocation_of_ne_zero id m input hW hT, ?_⟩
    simp only [hid, id]
    split_ifs with hfar
    · refine ⟨?_, ?_, 100 / (input.entries.map Prod.snd).sum, ?_⟩
      · simp only [List.map_map]
        rfl
      · have hsum : ((input.entries.map fun e : String × ℚ =>
            (e.1, e.2 / (input.entries.map Prod.snd).sum * 100)).map Prod.snd).sum = 100 := by
          rw [List.map_map]
          change (input.entries.map fun e : String × ℚ =>
            e.2 / (input.entries.map Prod.snd).sum * 100).sum = 100
          rw [sum_map_div_mul (fun e : String × ℚ => e.2)]
          change (input.entries.map Prod.snd).sum / (input.entries.map Prod.snd).sum * 100 = 100
          rw [div_self hS]
          norm_num
        rw [hsum]
        norm_num
      · intro s p hs
        unfold StdMap.find at hs ⊢
        simp only
        rw [findEntries_map_value (fun q => q / (input.entries.map Prod.snd).sum * 100), hs]
        simp only [Option.map_some']
        congr 1
        ring
    · refine ⟨rfl, not_lt.mp hfar, 1, ?_⟩
      intro s p hs
      rw [one_mul]
      exact hs

/-- Witness of the amended C18 at two inputs.  In double arithmetic the doubles nearest to 8.4 and 91.61
have the total 100.01000000000000512, the test `|total - 100| > 0.01` holds, and they are stored
as 8.399160083991601 and 91.6008399160084.  In exact arithmetic BTC 10, SIP 40 is stored with
the same symbols, a sum within 0.01 of 100 and a single factor. -/
theorem setAllocation_renormalizes_nonzero_total_witness :
    nearBoundaryAllocation.WF ∧
    specRoundedSum roundDouble (nearBoundaryAllocation.entries.map Prod.snd) 0 ≠ 0 ∧
    (∃ stored : SIPManager,
      SIPManager.setAllocation roundDouble sampleSIPManager nearBoundaryAllocation
        = some stored ∧
      stored.allocation.entries.map Prod.fst = ["BTC", "SIP"] ∧
      stored.allocation.find "BTC" = some (4728306778061215 / 562949953421312) ∧
      stored.allocation.find "SIP" = some (1611459017627187 / 17592186044416)) ∧
    halfAllocation.WF ∧ (halfAllocation.entries.map Prod.snd).sum ≠ 0 ∧
    (∃ stored : SIPManager,
      SIPManager.setAllocation id sampleSIPManager halfAllocation = some stored ∧
      stored.allocation.entries.map Prod.fst = halfAllocation.entries.map Prod.fst ∧
      |(stored.allocation.entries.map Prod.snd).sum - 100| ≤ 1 / 100 ∧
      ∃ k : ℚ, ∀ (s : String) (p : ℚ), halfAllocation.find s = some p →
        stored.allocation.find s = some (k * p)) := by
  have hW : nearBoundaryAllocation.WF := by decide
  have hT : specRoundedSum roundDouble (nearBoundaryAllocation.entries.map Prod.snd) 0 ≠ 0 := by
    rw [specRoundedSum_nearBoundaryAllocation]
    norm_num
  have hS : (halfAllocation.entries.map Prod.snd).sum ≠ 0 := by
    norm_num [halfAllocation]
  obtain ⟨stored, hstored, hkeys, hfind⟩ :=
    (setAllocation_renormalizes_nonzero_total roundDouble sampleSIPManager
      nearBoundaryAllocation hW).1 hT
  have htest : |roundDouble (7037578105208177 / 70368744177664 - 100)| >
      roundDouble (1 / 100) := by
    norm_num [roundDouble_sum_ab_minus_100, roundDouble_hundredth, abs_of_pos]
  refine ⟨hW, hT, ⟨stored, hstored, hkeys, ?_, ?_⟩, by decide, hS,
    (setAllocation_renormalizes_nonzero_total id sampleSIPManager halfAllocation
      (by decide)).2 hS⟩
  · rw [hfind "BTC" _ rfl, specRoundedSum_nearBoundaryAllocation, if_pos htest]
    norm_num [roundDouble_a_div_sum, roundDouble_a_share]
  · rw [hfind "SIP" _ rfl, specRoundedSum_nearBoundaryAllocation, if_pos htest]
    norm_num [roundDouble_b_div_sum, roundDouble_b_share]

/-- C19: `getReturnPercentage` returns 0 when initialInvestment is 0 and otherwise
`(currentPrice * quantity - initialInvestment) / initialInvestment * 100`. -/
theorem getReturnPercentage_spec (a : Asset) :
    (a.initialInvestment = 0 → a.getReturnPercentage = 0) ∧
    (a.initialInvestment ≠ 0 →
      a.getReturnPercentage =
        (a.currentPrice * a.quantity - a.initialInvestment) / a.initialInvestment * 100) := by
  constructor
  · intro h
    rw [Asset.getReturnPercentage, if_pos h]
  · intro h
    rw [Asset.getReturnPercentage, if_neg h, Asset.getCurrentValue]

/-- Witness of C19: the sample asset with cost basis 0, and with its cost basis 200. -/
theorem getReturnPercentage_spec_witness :
    (({ sampleAsset with initialInvestment := 0 } : Asset).initialInvestment = 0 ∧
      Asset.getReturnPercentage { sampleAsset with initialInvestment := 0 } = 0) ∧
    (sampleAsset.initialInvestment ≠ 0 ∧
      sampleAsset.getReturnPercentage =
        (sampleAsset.currentPrice * sampleAsset.quantity - sampleAsset.initialInvestment)
          / sampleAsset.initialInvestment * 100) :=
  ⟨⟨rfl, (getReturnPercentage_spec { sampleAsset with initialInvestment := 0 }).1 rfl⟩,
   ⟨by norm_num [sampleAsset],
    (getReturnPercentage_spec sampleAsset).2 (by norm_num [sampleAsset])⟩⟩

/-- C20: with `currentPrice > 0` and `amount ≥ 0`, `buy amount` followed by `sell 100` returns
the quantity after the purchase times the current price, which is the value before the
purchase plus `amount`, and leaves quantity 0 and initialInvestment 0. -/
theorem buy_then_sell_all (a : Asset) (amount : ℚ) (hp : 0 < a.currentPrice)
    (ha : 0 ≤ amount) :
    ((a.buy amount).sell 100).1 = (a.buy amount).quantity * (a.buy amount).currentPrice ∧
    ((a.buy amount).sell 100).1 = a.getCurrentValue + amount ∧
    a.getCurrentValue ≤ ((a.buy amount).sell 100).1 ∧
    ((a.buy amount).sell 100).2.quantity = 0 ∧
    ((a.buy amount).sell 100).2.initialInvestment = 0 := by
  have hg : ¬ ((100 : ℚ) ≤ 0 ∨ (100 : ℚ) > 100) := by norm_num
  have hproceeds : ((a.buy amount).sell 100).1 = a.getCurrentValue + amount := by
    simp only [Asset.sell, if_neg hg, Asset.buy, Asset.getCurrentValue]
    field_simp
    ring
  refine ⟨?_, hproceeds, ?_, ?_, ?_⟩
  · simp only [Asset.sell, if_neg hg, Asset.buy]
    norm_num
  · rw [hproceeds]
    linarith
  · simp only [Asset.sell, if_neg hg, Asset.buy]
    norm_num
  · simp only [Asset.sell, if_neg hg, Asset.buy]
    norm_num

/-- Witness of C20: the sample asset, a purchase worth 50, then the sale of everything. -/
theorem buy_then_sell_all_witness :
    0 < sampleAsset.currentPrice ∧ (0 : ℚ) ≤ 50 ∧
    ((sampleAsset.buy 50).sell 100).2.quantity = 0 :=
  ⟨by norm_num [sampleAsset], by norm_num,
   (buy_then_sell_all sampleAsset 50 (by norm_num [sampleAsset]) (by norm_num)).2.2.2.1⟩

/-- C21 fails on the code: `updatePrices` reaches the forex asset through its base handle,
`Asset::updateCurrentPrice` is not virtual, and `Forex::updateTrend` never runs.  The pair with
four observations at price 1 and trend Neutral receives the price 2: afterwards it has five
observations and current price 2, the rule of the claim gives Bullish (2 is above 1.02 times
the mean 1.2), and so would `Forex::updateCurrentPrice`, but the stored trend is still
Neutral. -/
theorem updatePrices_does_not_update_forex_trend :
    (PortfolioManager.updatePrices qsqrt "2024-01-05" forexPortfolio eurusdSnapshot).find "EUR/USD"
      = some (Holding.forex eurusdUpdatedViaBase) ∧
    eurusdUpdatedViaBase.priceHistory.length = 5 ∧
    eurusdUpdatedViaBase.currentPrice = 2 ∧
    eurusdUpdatedViaBase.trend = "Neutral" ∧
    specTrend eurusdUpdatedViaBase.priceHistory eurusdUpdatedViaBase.currentPrice = "Bullish" ∧
    (Forex.updateCurrentPrice qsqrt "2024-01-05" eurusd 2).trend = "Bullish" ∧
    eurusdUpdatedViaBase.trend ≠
      specTrend eurusdUpdatedViaBase.priceHistory eurusdUpdatedViaBase.currentPrice := by
  have hhist : eurusdUpdatedViaBase.priceHistory =
      [("2024-01-01", 1), ("2024-01-02", 1), ("2024-01-03", 1), ("2024-01-04", 1),
        ("2024-01-05", 2)] := rfl
  have hprice : eurusdUpdatedViaBase.currentPrice = 2 := rfl
  have hspec :
      specTrend eurusdUpdatedViaBase.priceHistory eurusdUpdatedViaBase.currentPrice
        = "Bullish" := by
    rw [hhist, hprice]
    norm_num [specTrend]
  have hforex : (Forex.updateCurrentPrice qsqrt "2024-01-05" eurusd 2).trend = "Bullish" := by
    have hupd : Forex.updateCurrentPrice qsqrt "2024-01-05" eurusd 2 =
        eurusdUpdatedViaBase.updateTrend := rfl
    rw [hupd]
    unfold Forex.updateTrend
    rw [hhist, hprice]
    norm_num [List.range', List.getD]
  refine ⟨rfl, by rw [hhist]; rfl, hprice, rfl, hspec, hforex, ?_⟩
  rw [hspec]
  decide

/-- C22 as stated fails: three holdings of value 1 each, total 3 > 0.  The percentages that
`getPortfolioComposition` computes in double arithmetic are three times the double
33.33333333333333 (`1 / 3` rounded, times 100, rounded), and their sum is below 100: it is not
exactly 100. -/
theorem getPortfolioComposition_thirds_not_100 :
    (∀ e ∈ thirdsManager.assets.entries, 0 ≤ e.2.currentPrice * e.2.quantity) ∧
    (thirdsManager.assets.entries.map fun e => e.2.currentPrice * e.2.quantity).sum = 3 ∧
    (Rounded.getPortfolioComposition roundDouble thirdsManager).entries =
      [("BTC", 2345624805922133 / 70368744177664), ("SIP", 2345624805922133 / 70368744177664),
        ("USD", 2345624805922133 / 70368744177664)] ∧
    specPercentSum (Rounded.getPortfolioComposition roundDouble thirdsManager) =
      7036874417766399 / 70368744177664 ∧
    specPercentSum (Rounded.getPortfolioComposition roundDouble thirdsManager) < 100 ∧
    specPercentSum (Rounded.getPortfolioComposition roundDouble thirdsManager) ≠ 100 := by
  have hsum : specPercentSum (Rounded.getPortfolioComposition roundDouble thirdsManager) =
      7036874417766399 / 70368744177664 := by
    unfold specPercentSum
    rw [getPortfolioComposition_thirdsManager]
    norm_num
  refine ⟨?_, ?_, getPortfolioComposition_thirdsManager, hsum, ?_, ?_⟩
  · intro e he
    simp only [thirdsManager, List.mem_cons, List.mem_singleton, List.not_mem_nil,
      or_false] at he
    rcases he with rfl | rfl | rfl <;> norm_num [unitAsset]
  · norm_num [thirdsManager, unitAsset]
  · rw [hsum]
    norm_num
  · rw [hsum]
    norm_num

/-- C22 amended: for every portfolio whose computed total value is > 0,
`getPortfolioComposition` has one entry per held asset, each equal to
`currentValue_i / totalValue * 100` as computed in double arithmetic (every operation rounded by
`fl`); when the asset values are non-negative and the rounding has relative error at most `u`
(`u = 2 ^ (-53)` for doubles), the percentages sum to 100 up to rounding,
`100 * (1 - u) ^ 2 / (1 + u) ^ n ≤ sum ≤ 100 * (1 + u) ^ 2 / (1 - u) ^ n` for `n` assets; when
the total value is ≤ 0 the composition is empty.  In exact arithmetic (`fl = id`) each entry is
`price_i * quantity_i / Σ price * quantity * 100` and the sum is exactly 100. -/
theorem getPortfolioComposition_computed (fl : ℚ → ℚ) (u : ℚ)
    (hfl : ∀ x, |fl x - x| ≤ u * |x|) (hu0 : 0 ≤ u) (hu1 : u < 1) (pm : PortfolioManager)
    (hA : pm.assets.WF) :
    (0 < specRoundedSum fl (specValues fl pm.assets) 0 →
      (Rounded.getPortfolioComposition fl pm).entries =
        pm.assets.entries.map fun e =>
          (e.1, fl (fl (fl (e.2.currentPrice * e.2.quantity) /
            specRoundedSum fl (specValues fl pm.assets) 0) * 100))) ∧
    (0 < specRoundedSum fl (specValues fl pm.assets) 0 →
      (∀ e ∈ pm.assets.entries, 0 ≤ e.2.currentPrice * e.2.quantity) →
      100 * (1 - u) ^ 2 ≤
        (1 + u) ^ pm.assets.entries.length *
          specPercentSum (Rounded.getPortfolioComposition fl pm) ∧
      (1 - u) ^ pm.assets.entries.length *
        specPercentSum (Rounded.getPortfolioComposition fl pm) ≤ 100 * (1 + u) ^ 2) ∧
    (specRoundedSum fl (specValues fl pm.assets) 0 ≤ 0 →
      Rounded.getPortfolioComposition fl pm = StdMap.empty) ∧
    (0 < (pm.assets.entries.map fun e => e.2.currentPrice * e.2.quantity).sum →
      (Rounded.getPortfolioComposition id pm).entries =
        (pm.assets.entries.map fun e =>
          (e.1, e.2.currentPrice * e.2.quantity /
            (pm.assets.entries.map fun e => e.2.currentPrice * e.2.quantity).sum * 100)) ∧
      specPercentSum (Rounded.getPortfolioComposition id pm) = 100) := by
  refine ⟨fun hT => getPortfolioComposition_rounded_entries fl pm hA hT,
    fun hT hnn => getPortfolioComposition_rounded_sum fl u hfl hu0 hu1 pm hA hnn hT, ?_, ?_⟩
  · intro hT
    unfold Rounded.getPortfolioComposition
    simp only [getTotalValue_rounded_eq, if_pos hT]
  · intro hT
    have hid : specRoundedSum id (specValues id pm.assets) 0 =
        (pm.assets.entries.map fun e => e.2.currentPrice * e.2.quantity).sum := by
      rw [specRoundedSum_id, zero_add]
      simp only [specValues, id]
    have hentries := getPortfolioComposition_rounded_entries id pm hA (by rw [hid]; exact hT)
    rw [hid] at hentries
    simp only [id] at hentries
    refine ⟨hentries, ?_⟩
    unfold specPercentSum
    rw [hentries, List.map_map]
    have hcomp : (Prod.snd ∘ fun e : String × Asset =>
        (e.1, e.2.currentPrice * e.2.quantity /
          (pm.assets.entries.map fun e => e.2.currentPrice * e.2.quantity).sum * 100)) =
        fun e => e.2.currentPrice * e.2.quantity /
          (pm.assets.entries.map fun e => e.2.currentPrice * e.2.quantity).sum * 100 := rfl
    rw [hcomp, sum_map_div_mul (fun e : String × Asset => e.2.currentPrice * e.2.quantity),
      div_self (ne_of_gt hT)]
    norm_num

/-- Witness of the amended C22 in double arithmetic, `u = 2 ^ (-53)`: the three percentages of
three holdings of equal value sum to 100 within the rounding bounds for `n = 3`, and the manager
that holds nothing has the empty composition. -/
theorem getPortfolioComposition_computed_witness :
    (∀ x, |roundDouble x - x| ≤ 2 ^ (-53 : ℤ) * |x|) ∧
    (0 : ℚ) ≤ 2 ^ (-53 : ℤ) ∧ (2 : ℚ) ^ (-53 : ℤ) < 1 ∧ thirdsManager.assets.WF ∧
    0 < specRoundedSum roundDouble (specValues roundDouble thirdsManager.assets) 0 ∧
    (∀ e ∈ thirdsManager.assets.entries, 0 ≤ e.2.currentPrice * e.2.quantity) ∧
    100 * (1 - 2 ^ (-53 : ℤ)) ^ 2 ≤
      (1 + 2 ^ (-53 : ℤ)) ^ 3 *
        specPercentSum (Rounded.getPortfolioComposition roundDouble thirdsManager) ∧
    (1 - 2 ^ (-53 : ℤ)) ^ 3 *
      specPercentSum (Rounded.getPortfolioComposition roundDouble thirdsManager) ≤
        100 * (1 + 2 ^ (-53 : ℤ)) ^ 2 ∧
    emptyManager.assets.WF ∧
    specRoundedSum roundDouble (specValues roundDouble emptyManager.assets) 0 ≤ 0 ∧
    Rounded.getPortfolioComposition roundDouble emptyManager = StdMap.empty := by
  have hu0 : (0 : ℚ) ≤ 2 ^ (-53 : ℤ) := by positivity
  have hu1 : (2 : ℚ) ^ (-53 : ℤ) < 1 := by norm_num
  have hA : thirdsManager.assets.WF := by decide
  have hT : 0 < specRoundedSum roundDouble (specValues roundDouble thirdsManager.assets) 0 := by
    norm_num [specValues, specRoundedSum, thirdsManager, unitAsset, roundDouble_int_1,
      roundDouble_int_2, roundDouble_int_3]
  have hnn : ∀ e ∈ thirdsManager.assets.entries, 0 ≤ e.2.currentPrice * e.2.quantity := by
    intro e he
    simp only [thirdsManager, List.mem_cons, List.mem_singleton, List.not_mem_nil,
      or_false] at he
    rcases he with rfl | rfl | rfl <;> norm_num [unitAsset]
  have hE : emptyManager.assets.WF := by decide
  have hT0 : specRoundedSum roundDouble (specValues roundDouble emptyManager.assets) 0 ≤ 0 :=
    le_refl 0
  have hsum := (getPortfolioComposition_computed roundDouble (2 ^ (-53 : ℤ)) roundDouble_error
    hu0 hu1 thirdsManager hA).2.1 hT hnn
  exact ⟨roundDouble_error, hu0, hu1, hA, hT, hnn, hsum.1, hsum.2, hE, hT0,
    (getPortfolioComposition_computed roundDouble (2 ^ (-53 : ℤ)) roundDouble_error hu0 hu1
      emptyManager hE).2.2.1 hT0⟩

/-- C23 fails on the code: the constructor stores its argument without clamping it, so the
state constructed from 150 and followed by no call has riskScore 150, above 100, while
`setRiskScore` brings every argument into the range. -/
theorem constructor_does_not_clamp_riskScore :
    ((RiskAnalyzer.new 150 15).run []).riskScore = 150 ∧
    ¬ ((RiskAnalyzer.new 150 15).run []).riskScore ≤ 100 ∧
    ((RiskAnalyzer.new (-20) 15).run []).riskScore = -20 ∧
    ¬ 0 ≤ ((RiskAnalyzer.new (-20) 15).run []).riskScore ∧
    (∀ (r : RiskAnalyzer) (v : ℚ),
      0 ≤ (r.setRiskScore v).riskScore ∧ (r.setRiskScore v).riskScore ≤ 100) := by
  have hnew : ∀ s t : ℚ, ((RiskAnalyzer.new s t).run []).riskScore = s := by
    intro s t
    unfold RiskAnalyzer.run RiskAnalyzer.new
    rw [List.foldl_nil, riskScore_updateIdealAllocation]
  have h150 : ((RiskAnalyzer.new 150 15).run []).riskScore = 150 := hnew 150 15
  have h20 : ((RiskAnalyzer.new (-20) 15).run []).riskScore = -20 := hnew (-20) 15
  refine ⟨h150, ?_, h20, ?_, ?_⟩
  · rw [h150]
    norm_num
  · rw [h20]
    norm_num
  · intro r v
    have hscore : (r.setRiskScore v).riskScore = min 100 (max 0 v) := by
      rw [← stdClamp_eq]
      exact riskScore_updateIdealAllocation _
    rw [hscore]
    exact ⟨le_min (by norm_num) (le_max_left _ _), min_le_left _ _⟩

/-- C24: in every state reached by the constructor followed by any sequence of calls of
`setRiskScore`, `updateIdealAllocation` and `adjustRiskScoreForMarketConditions`, the ideal
allocation is non-empty, every percentage is positive, and the percentages sum to exactly
100. -/
theorem idealAllocation_invariant (s t : ℚ) (ops : List RiskOp) :
    ((RiskAnalyzer.new s t).run ops).idealAllocation.entries ≠ [] ∧
    (∀ e ∈ ((RiskAnalyzer.new s t).run ops).idealAllocation.entries, 0 < e.2) ∧
    specPercentSum ((RiskAnalyzer.new s t).run ops).idealAllocation = 100 := by
  have htable := table_run s t ops
  refine ⟨?_, ?_, ?_⟩
  · rw [htable]
    unfold specIdealAllocation
    split_ifs <;> exact List.cons_ne_nil _ _
  · intro e he
    rw [htable] at he
    have := (specIdealAllocation_bounds _ e he).1
    linarith
  · rw [specPercentSum, htable]
    unfold specIdealAllocation
    split_ifs <;> norm_num

/-- Witness of C24: the state constructed with score 50 and then moved by three calls holds
BTC with a positive percentage. -/
theorem idealAllocation_invariant_witness :
    ("BTC", (30 : ℚ)) ∈
      ((RiskAnalyzer.new 50 15).run
        [RiskOp.setRiskScore 80, RiskOp.adjustRiskScoreForMarketConditions 10 5,
          RiskOp.updateIdealAllocation]).idealAllocation.entries ∧
    (0 : ℚ) < 30 :=
  have hmem : ("BTC", (30 : ℚ)) ∈
      ((RiskAnalyzer.new 50 15).run
        [RiskOp.setRiskScore 80, RiskOp.adjustRiskScoreForMarketConditions 10 5,
          RiskOp.updateIdealAllocation]).idealAllocation.entries := by
    rw [table_run]
    have hscore : ((RiskAnalyzer.new 50 15).run
        [RiskOp.setRiskScore 80, RiskOp.adjustRiskScoreForMarketConditions 10 5,
          RiskOp.updateIdealAllocation]).riskScore = 85 := by
      simp only [RiskAnalyzer.run, List.foldl_cons, List.foldl_nil, RiskAnalyzer.step,
        riskScore_updateIdealAllocation, RiskAnalyzer.adjustRiskScoreForMarketConditions,
        RiskAnalyzer.setRiskScore, stdClamp_eq, clamp_clamp]
      norm_num
    rw [hscore]
    norm_num [specIdealAllocation]
  ⟨hmem, (idealAllocation_invariant 50 15 _).2.1 _ hmem⟩

/-- C25: on an asset with `currentPrice > 0`, `quantity ≥ 0` and `initialInvestment ≥ 0`,
the same three facts hold again after `buy amount` for every `amount ≥ 0`, after `sell p` for
every `p`, in range or not, and after `updateCurrentPrice newPrice` for every
`newPrice > 0`. -/
theorem asset_invariant_preserved (sqrt : ℚ → ℚ) (now : String) (a : Asset)
    (hp : 0 < a.currentPrice) (hq : 0 ≤ a.quantity) (hi : 0 ≤ a.initialInvestment) :
    (∀ amount : ℚ, 0 ≤ amount →
      0 < (a.buy amount).currentPrice ∧ 0 ≤ (a.buy amount).quantity ∧
      0 ≤ (a.buy amount).initialInvestment) ∧
    (∀ p : ℚ,
      0 < (a.sell p).2.currentPrice ∧ 0 ≤ (a.sell p).2.quantity ∧
      0 ≤ (a.sell p).2.initialInvestment) ∧
    (∀ newPrice : ℚ, 0 < newPrice →
      0 < (a.updateCurrentPrice sqrt now newPrice).currentPrice ∧
      0 ≤ (a.updateCurrentPrice sqrt now newPrice).quantity ∧
      0 ≤ (a.updateCurrentPrice sqrt now newPrice).initialInvestment) := by
  refine ⟨?_, ?_, ?_⟩
  · intro amount ha
    simp only [Asset.buy]
    exact ⟨hp, add_nonneg hq (div_nonneg ha hp.le), add_nonneg hi ha⟩
  · intro p
    unfold Asset.sell
    split_ifs with hg
    · exact ⟨hp, hq, hi⟩
    · have h0 : 0 < p := not_le.mp (fun h => hg (Or.inl h))
      have h100 : p ≤ 100 := not_lt.mp (fun h => hg (Or.inr h))
      have hf : 0 ≤ 1 - p / 100 := by linarith
      refine ⟨hp, ?_, mul_nonneg hi hf⟩
      have : a.quantity - a.quantity * (p / 100) = a.quantity * (1 - p / 100) := by ring
      simp only
      rw [this]
      exact mul_nonneg hq hf
  · intro newPrice hn
    unfold Asset.updateCurrentPrice Asset.addPricePoint
    rw [updateVolatility_eq]
    exact ⟨hn, hq, hi⟩

/-- Witness of C25 on the sample asset: a purchase worth 50, the sale of 25 percent and the
new price 3. -/
theorem asset_invariant_preserved_witness :
    0 < sampleAsset.currentPrice ∧ 0 ≤ sampleAsset.quantity ∧
    0 ≤ sampleAsset.initialInvestment ∧ (0 : ℚ) ≤ 50 ∧ (0 : ℚ) < 3 ∧
    0 ≤ (sampleAsset.buy 50).quantity ∧ 0 ≤ (sampleAsset.sell 25).2.quantity ∧
    0 ≤ (sampleAsset.updateCurrentPrice qsqrt "2024-01-02" 3).quantity :=
  have hp : 0 < sampleAsset.currentPrice := by norm_num [sampleAsset]
  have hq : 0 ≤ sampleAsset.quantity := by norm_num [sampleAsset]
  have hi : 0 ≤ sampleAsset.initialInvestment := by norm_num [sampleAsset]
  ⟨hp, hq, hi, by norm_num, by norm_num,
   ((asset_invariant_preserved qsqrt "2024-01-02" sampleAsset hp hq hi).1 50
      (by norm_num)).2.1,
   ((asset_invariant_preserved qsqrt "2024-01-02" sampleAsset hp hq hi).2.1 25).2.1,
   ((asset_invariant_preserved qsqrt "2024-01-02" sampleAsset hp hq hi).2.2 3
      (by norm_num)).2.1⟩

/-- C26: for an asset whose price history has two or more observations, all at the same
non-zero price, no return divides by zero, every return is 0, and the volatility computed by
`updateVolatility` is exactly 0, for a square root with `sqrt 0 = 0`. -/
theorem updateVolatility_constant_history (sqrt : ℚ → ℚ) (hs : sqrt 0 = 0) (a : Asset) (p : ℚ)
    (hp : p ≠ 0) (hlen : 2 ≤ a.priceHistory.length)
    (hall : ∀ e ∈ a.priceHistory, e.2 = p) :
    (a.updateVolatility sqrt).volatility = 0 ∧
    (∀ e ∈ a.priceHistory, e.2 ≠ 0) ∧
    (∀ r ∈ Asset.dailyReturns a.priceHistory, r = 0) := by
  have hprice : ∀ x ∈ a.priceHistory.map Prod.snd, x = p := by
    intro x hx
    obtain ⟨e, he, heq⟩ := List.mem_map.mp hx
    rw [← heq]
    exact hall e he
  have hret : ∀ r ∈ specReturns (a.priceHistory.map Prod.snd), r = 0 := by
    intro r hr
    obtain ⟨x, hx, y, hy, rfl⟩ := mem_zipWith_elim _ _ _ r hr
    rw [hprice x hx, hprice y (List.mem_of_mem_tail hy), sub_self, zero_div]
  have hzero : ∀ l : List ℚ, (∀ r ∈ l, r = 0) → specPopulationVariance l = 0 := by
    intro l hl
    have hsum : l.sum = 0 := List.sum_eq_zero hl
    have hmean : specMean l = 0 := by rw [specMean, hsum, zero_div]
    unfold specPopulationVariance
    rw [hmean]
    have : (l.map fun r => (r - 0) ^ 2).sum = 0 := by
      apply List.sum_eq_zero
      intro x hx
      obtain ⟨r, hr, rfl⟩ := List.mem_map.mp hx
      rw [hl r hr]
      norm_num
    rw [this, zero_div]
  refine ⟨?_, ?_, ?_⟩
  · rw [updateVolatility_eq]
    simp only [specVolatility, if_neg (not_lt.mpr hlen), hzero _ hret, hs, mul_zero]
  · intro e he
    rw [hall e he]
    exact hp
  · rw [dailyReturns_eq_specReturns]
    exact hret

/-- Witness of C26: the asset with three observations at price 7, with `qsqrt`. -/
theorem updateVolatility_constant_history_witness :
    qsqrt 0 = 0 ∧ (7 : ℚ) ≠ 0 ∧ 2 ≤ flatAsset.priceHistory.length ∧
    (∀ e ∈ flatAsset.priceHistory, e.2 = 7) ∧
    (flatAsset.updateVolatility qsqrt).volatility = 0 :=
  have hs : qsqrt 0 = 0 := by
    have := qsqrt_mul_self 0 (le_refl _)
    rwa [mul_zero] at this
  have hall : ∀ e ∈ flatAsset.priceHistory, e.2 = 7 := by
    intro e he
    simp only [flatAsset, List.mem_cons, List.mem_singleton, List.not_mem_nil, or_false] at he
    rcases he with h | h | h <;> rw [h]
  ⟨hs, by norm_num, by decide, hall,
   (updateVolatility_constant_history qsqrt hs flatAsset 7 (by norm_num) (by decide) hall).1⟩

/-- C27: the output of the base `getAnalysis` is a head that does not depend on the
volatility, followed by exactly one volatility-tier sentence: the low sentence iff
`volatility < 5`, the medium sentence iff `5 ≤ volatility < 15`, the high sentence iff
`volatility ≥ 15`; and the `getAnalysis` of each variant (SIP, Forex, Cryptocurrency,
Commodity, FiatCurrency), also when called through the base handle, is that base output
followed by the text the variant adds. -/
theorem getAnalysis_tier_and_variants (toString formatCurrency : ℚ → String) :
    (∀ a : Asset, ∃ head : String, ∀ v : ℚ,
      Asset.getAnalysis toString { a with volatility := v } = head ++ specTierSentence v) ∧
    (∀ v : ℚ,
      (specTierSentence v = "  Low volatility: This asset has been stable recently.\n"
        ↔ v < 5) ∧
      (specTierSentence v = "  Medium volatility: This asset shows moderate price movements.\n"
        ↔ 5 ≤ v ∧ v < 15) ∧
      (specTierSentence v = "  High volatility: This asset has significant price fluctuations.\n"
        ↔ 15 ≤ v)) ∧
    (∀ s : SIP, ∃ rest : String,
      s.getAnalysis toString = s.toAsset.getAnalysis toString ++ rest) ∧
    (∀ f : Forex, ∃ rest : String,
      f.getAnalysis toString = f.toAsset.getAnalysis toString ++ rest) ∧
    (∀ c : Cryptocurrency, ∃ rest : String,
      c.getAnalysis toString formatCurrency = c.toAsset.getAnalysis toString ++ rest) ∧
    (∀ c : Commodity, ∃ rest : String,
      c.getAnalysis toString = c.toAsset.getAnalysis toString ++ rest) ∧
    (∀ f : FiatCurrency, ∃ rest : String,
      f.getAnalysis toString = f.toAsset.getAnalysis toString ++ rest) ∧
    (∀ h : Holding, ∃ rest : String,
      h.getAnalysis toString formatCurrency = h.base.getAnalysis toString ++ rest) := by
  have hsip : ∀ s : SIP, ∃ rest : String,
      s.getAnalysis toString = s.toAsset.getAnalysis toString ++ rest := by
    intro s
    unfold SIP.getAnalysis
    simp only
    split_ifs <;> simp only [String.append_assoc] <;> exact ⟨_, rfl⟩
  have hforex : ∀ f : Forex, ∃ rest : String,
      f.getAnalysis toString = f.toAsset.getAnalysis toString ++ rest := by
    intro f
    unfold Forex.getAnalysis
    simp only
    split_ifs <;> simp only [String.append_assoc] <;> exact ⟨_, rfl⟩
  have hcrypto : ∀ c : Cryptocurrency, ∃ rest : String,
      c.getAnalysis toString formatCurrency = c.toAsset.getAnalysis toString ++ rest := by
    intro c
    unfold Cryptocurrency.getAnalysis
    simp only
    split_ifs <;> simp only [String.append_assoc] <;> exact ⟨_, rfl⟩
  have hcommodity : ∀ c : Commodity, ∃ rest : String,
      c.getAnalysis toString = c.toAsset.getAnalysis toString ++ rest := by
    intro c
    unfold Commodity.getAnalysis
    simp only
    split_ifs <;> simp only [String.append_assoc] <;> exact ⟨_, rfl⟩
  have hfiat : ∀ f : FiatCurrency, ∃ rest : String,
      f.getAnalysis toString = f.toAsset.getAnalysis toString ++ rest := by
    intro f
    unfold FiatCurrency.getAnalysis
    simp only
    split_ifs <;> simp only [String.append_assoc] <;> exact ⟨_, rfl⟩
  refine ⟨?_, ?_, hsip, hforex, hcrypto, hcommodity, hfiat, ?_⟩
  · intro a
    refine ⟨(if a.priceHistory.length ≥ 2 then
        if percentChange (a.priceHistory.headD default).2 (a.priceHistory.getLastD default).2 > 0
        then
          "Analysis for " ++ a.name ++ " (" ++ a.symbol ++ "):\n" ++
            ("  Price change since tracking: " ++
              toString (percentChange (a.priceHistory.headD default).2
                (a.priceHistory.getLastD default).2) ++ "%\n") ++
            "  The price has increased since tracking began.\n"
        else if
          percentChange (a.priceHistory.headD default).2 (a.priceHistory.getLastD default).2 < 0
        then
          "Analysis for " ++ a.name ++ " (" ++ a.symbol ++ "):\n" ++
            ("  Price change since tracking: " ++
              toString (percentChange (a.priceHistory.headD default).2
                (a.priceHistory.getLastD default).2) ++ "%\n") ++
            "  The price has decreased since tracking began.\n"
        else
          "Analysis for " ++ a.name ++ " (" ++ a.symbol ++ "):\n" ++
            ("  Price change since tracking: " ++
              toString (percentChange (a.priceHistory.headD default).2
                (a.priceHistory.getLastD default).2) ++ "%\n") ++
            "  The price remains stable since tracking began.\n"
      else "Analysis for " ++ a.name ++ " (" ++ a.symbol ++ "):\n"), ?_⟩
    intro v
    unfold Asset.getAnalysis specTierSentence
    simp only
    split_ifs <;> rfl
  · intro v
    unfold specTierSentence
    refine ⟨?_, ?_, ?_⟩
    · by_cases h5 : v < 5
      · simp [h5]
      · by_cases h15 : v < 15
        · simp only [if_neg h5, if_pos h15, iff_false_intro h5, iff_false]
          decide
        · simp only [if_neg h5, if_neg h15, iff_false_intro h5, iff_false]
          decide
    · by_cases h5 : v < 5
      · have hn : ¬ (5 ≤ v ∧ v < 15) := fun h => absurd h5 (not_lt.mpr h.1)
        simp only [if_pos h5, iff_false_intro hn, iff_false]
        decide
      · by_cases h15 : v < 15
        · simp [h5, h15, not_lt.mp h5]
        · have hn : ¬ (5 ≤ v ∧ v < 15) := fun h => h15 h.2
          simp only [if_neg h5, if_neg h15, iff_false_intro hn, iff_false]
          decide
    · by_cases h5 : v < 5
      · have hn : ¬ 15 ≤ v := by
          intro h
          linarith
        simp only [if_pos h5, iff_false_intro hn, iff_false]
        decide
      · by_cases h15 : v < 15
        · simp only [if_neg h5, if_pos h15, iff_false_intro (not_le.mpr h15), iff_false]
          decide
        · simp [h5, h15, not_lt.mp h15]
  · intro h
    cases h with
    | asset a => exact ⟨"", (String.append_empty _).symm⟩
    | sip s => exact hsip s
    | forex f => exact hforex f
    | crypto c => exact hcrypto c
    | commodity c => exact hcommodity c
    | fiat f => exact hfiat f

/-- C28: for an analyzer in any state reached from its constructor and a well-formed
portfolio whose asset values are non-negative with a positive total, every negative
recommendation `diff` of `recommendRebalancing` has `5 ≤ |diff| ≤ 95`; the percentage `|diff|`
that `rebalancePortfolio` passes to `sell` lies in `(0, 100]`, the guard of `sell` does not
fire, and the sale is carried out. -/
theorem rebalance_sell_percentage_valid (s t : ℚ) (ops : List RiskOp) (assets : StdMap Asset)
    (hA : assets.WF) (hnn : ∀ e ∈ assets.entries, 0 ≤ e.2.getCurrentValue)
    (hT : 0 < RiskAnalyzer.totalValue assets) (sym : String) (diff : ℚ)
    (hrec : (((RiskAnalyzer.new s t).run ops).recommendRebalancing assets).find sym = some diff)
    (hneg : diff < 0) :
    5 ≤ |diff| ∧ |diff| ≤ 95 ∧ 0 < |diff| ∧ |diff| ≤ 100 ∧
    ¬ (|diff| ≤ 0 ∨ |diff| > 100) ∧
    (∀ a : Asset, (a.sell |diff|).2.quantity = a.quantity * (1 - |diff| / 100)) := by
  have htable := table_run s t ops
  have hI : ((RiskAnalyzer.new s t).run ops).idealAllocation.WF := by
    have := specIdealAllocation_WF ((RiskAnalyzer.new s t).run ops).riskScore
    rw [← htable] at this
    exact this
  rw [find_recommendRebalancing _ assets hI hA hT sym] at hrec
  cases hideal : ((RiskAnalyzer.new s t).run ops).idealAllocation.find sym with
  | none =>
    rw [hideal] at hrec
    exact Option.noConfusion hrec
  | some ideal =>
    rw [hideal] at hrec
    simp only at hrec
    have hmem : (sym, ideal) ∈ specIdealAllocation ((RiskAnalyzer.new s t).run ops).riskScore := by
      rw [← htable]
      exact mem_of_findEntries _ _ _ hideal
    have hideal5 : 5 ≤ ideal := (specIdealAllocation_bounds _ _ hmem).1
    have hshare := specCurrentShare_bounds assets hnn hT sym
    by_cases hd : 5 ≤ |ideal - specCurrentShare assets sym|
    · rw [if_pos hd] at hrec
      have hdiff : diff = ideal - specCurrentShare assets sym := (Option.some.inj hrec).symm
      have habs : |diff| = specCurrentShare assets sym - ideal := by
        rw [abs_of_neg hneg, hdiff]
        ring
      have h5 : 5 ≤ |diff| := by
        rw [hdiff]
        exact hd
      have h95 : |diff| ≤ 95 := by
        rw [habs]
        linarith [hshare.2]
      have hg : ¬ (|diff| ≤ 0 ∨ |diff| > 100) := by
        rintro (h | h) <;> linarith
      refine ⟨h5, h95, by linarith, by linarith, hg, ?_⟩
      intro a
      simp only [Asset.sell, if_neg hg]
      ring
    · rw [if_neg hd] at hrec
      exact Option.noConfusion hrec

/-- Witness of C28: the sample manager, whose analyzer is the constructed one of score 25, on
the sample portfolio: the recommendation under BTC is -55. -/
theorem rebalance_sell_percentage_valid_witness :
    samplePortfolio.WF ∧ (∀ e ∈ samplePortfolio.entries, 0 ≤ e.2.getCurrentValue) ∧
    0 < RiskAnalyzer.totalValue samplePortfolio ∧
    (((RiskAnalyzer.new 25 15).run []).recommendRebalancing samplePortfolio).find "BTC"
      = some (-55) ∧
    (-55 : ℚ) < 0 ∧ 5 ≤ |(-55 : ℚ)| ∧ |(-55 : ℚ)| ≤ 95 :=
  have hnn : ∀ e ∈ samplePortfolio.entries, 0 ≤ e.2.getCurrentValue := by
    intro e he
    simp only [samplePortfolio, List.mem_cons, List.mem_singleton, List.not_mem_nil,
      or_false] at he
    rcases he with h | h <;> rw [h] <;> norm_num [Asset.getCurrentValue]
  have h := rebalance_sell_percentage_valid 25 15 [] samplePortfolio (by decide) hnn
    totalValue_samplePortfolio_pos "BTC" (-55) recommendRebalancing_sampleManager.1
    (by norm_num)
  ⟨by decide, hnn, totalValue_samplePortfolio_pos, recommendRebalancing_sampleManager.1,
   by norm_num, h.1, h.2.1⟩

/-- C29: for `0 < p < 100`, `sell p` leaves `getReturnPercentage` unchanged, the current value
and the cost basis both being scaled by `1 - p / 100`; `sell 100` leaves
`getReturnPercentage` equal to 0. -/
theorem sell_keeps_return_percentage (a : Asset) :
    (∀ p : ℚ, 0 < p → p < 100 →
      (a.sell p).2.getReturnPercentage = a.getReturnPercentage ∧
      (a.sell p).2.getCurrentValue = a.getCurrentValue * (1 - p / 100) ∧
      (a.sell p).2.initialInvestment = a.initialInvestment * (1 - p / 100)) ∧
    (a.sell 100).2.getReturnPercentage = 0 := by
  constructor
  · intro p h0 h100
    have hg : ¬ (p ≤ 0 ∨ p > 100) := by
      rintro (h | h) <;> linarith
    have hf : 1 - p / 100 ≠ 0 := by
      intro h
      linarith
    have hvalue : (a.sell p).2.getCurrentValue = a.getCurrentValue * (1 - p / 100) := by
      simp only [Asset.sell, if_neg hg, Asset.getCurrentValue]
      ring
    have hbasis : (a.sell p).2.initialInvestment = a.initialInvestment * (1 - p / 100) := by
      simp only [Asset.sell, if_neg hg]
    refine ⟨?_, hvalue, hbasis⟩
    unfold Asset.getReturnPercentage
    rw [hvalue, hbasis]
    by_cases hi : a.initialInvestment = 0
    · rw [if_pos hi, if_pos (by rw [hi, zero_mul])]
    · rw [if_neg hi, if_neg (mul_ne_zero hi hf), ← sub_mul, mul_div_mul_right _ _ hf]
  · have hg : ¬ ((100 : ℚ) ≤ 0 ∨ (100 : ℚ) > 100) := by norm_num
    have hbasis : (a.sell 100).2.initialInvestment = 0 := by
      simp only [Asset.sell, if_neg hg]
      norm_num
    rw [Asset.getReturnPercentage, if_pos hbasis]

/-- Witness of C29: the sample asset with cost basis 100 (return 100 percent) and the sale of
30 percent. -/
theorem sell_keeps_return_percentage_witness :
    (0 : ℚ) < 30 ∧ (30 : ℚ) < 100 ∧
    (Asset.sell { sampleAsset with initialInvestment := 100 } 30).2.getReturnPercentage =
      Asset.getReturnPercentage { sampleAsset with initialInvestment := 100 } :=
  ⟨by norm_num, by norm_num,
   ((sell_keeps_return_percentage { sampleAsset with initialInvestment := 100 }).1 30
      (by norm_num) (by norm_num)).1⟩

/-- C30: for a portfolio whose total value is not positive, the empty portfolio included,
`recommendRebalancing` returns no recommendation whatever the ideal allocation is, although in
every state reached from the constructor each ideal percentage differs from the share 0 by at
least 5. -/
theorem recommendRebalancing_nonpositive_total (r : RiskAnalyzer) (assets : StdMap Asset)
    (hT : RiskAnalyzer.totalValue assets ≤ 0) :
    r.recommendRebalancing assets = StdMap.empty ∧
    (∀ (s t : ℚ) (ops : List RiskOp),
      ((RiskAnalyzer.new s t).run ops).recommendRebalancing assets = StdMap.empty ∧
      ∀ e ∈ ((RiskAnalyzer.new s t).run ops).idealAllocation.entries, 5 ≤ |e.2 - 0|) := by
  have hempty : ∀ r : RiskAnalyzer, r.recommendRebalancing assets = StdMap.empty := by
    intro r
    unfold RiskAnalyzer.recommendRebalancing
    simp only [if_pos hT]
  refine ⟨hempty r, ?_⟩
  intro s t ops
  refine ⟨hempty _, ?_⟩
  intro e he
  rw [table_run] at he
  have h5 := (specIdealAllocation_bounds _ e he).1
  rw [sub_zero, abs_of_nonneg (by linarith)]
  exact h5

/-- Witness of C30: the empty portfolio has total value 0 and gets no recommendation. -/
theorem recommendRebalancing_nonpositive_total_witness :
    RiskAnalyzer.totalValue StdMap.empty ≤ 0 ∧
    sampleAnalyzer.recommendRebalancing StdMap.empty = StdMap.empty :=
  ⟨le_refl _, (recommendRebalancing_nonpositive_total sampleAnalyzer StdMap.empty (le_refl _)).1⟩

end FinanceAdvisor
